import Mathlib

/-!
# Pac-Man simulation engine: a shallow embedding and its verified properties

The definitions below transcribe `game/types.go`, `game/maze.go`,
`game/entities.go`, `game/fruit.go` and the simulation part of `game/game.go`.

Modelling conventions
* Go `int` is `Int`; every quantity of the engine (tile coordinates, counters,
  score) stays far from the 64-bit range, so no wrap-around is modelled.
* Pointers to mutable structs become values that are passed and returned.
* `CellType` is a byte, modelled by its numeric value in `Nat`.
* `float64` only appears as `math.Abs(float64(a-b))` on tile differences and
  as the sentinel `math.MaxFloat64`; the distances are exact small integers,
  so they are modelled in `Int`, and the sentinel by `none`.
-/

namespace Arcade

/-! ## types.go -/

/-- Movement direction (`Direction`, an `iota` enumeration). -/
inductive Direction where
  | DirNone
  | DirUp
  | DirDown
  | DirLeft
  | DirRight
  deriving DecidableEq, Repr, Inhabited

export Direction (DirNone DirUp DirDown DirLeft DirRight)

/-- The integer value of a direction constant. -/
def Direction.toNat : Direction → Nat
  | DirNone => 0
  | DirUp => 1
  | DirDown => 2
  | DirLeft => 3
  | DirRight => 4

def MazeWidthTiles : Int := 28
def MazeHeightTiles : Int := 31
def BaseMovementSpeed : Int := 2
def BaseGhostSpeed : Int := 2
def MovementSpeed : Int := BaseMovementSpeed
def GhostMovementSpeed : Int := BaseGhostSpeed
def InitialLives : Int := 3
def PelletScore : Int := 10
def PowerPelletScore : Int := 50
def GhostScore : Int := 200
def PowerDuration : Int := 48

/-- Pursuer variants (`GhostType`). -/
inductive GhostType where
  | GhostBlinky
  | GhostPinky
  | GhostInky
  | GhostClyde
  deriving DecidableEq, Repr, Inhabited

export GhostType (GhostBlinky GhostPinky GhostInky GhostClyde)

/-- Pursuer behaviour modes (`GhostMode`). -/
inductive GhostMode where
  | ModeScatter
  | ModeChase
  | ModeFrightened
  | ModeEaten
  deriving DecidableEq, Repr, Inhabited

export GhostMode (ModeScatter ModeChase ModeFrightened ModeEaten)

/-- Coarse run state (`GameState`). -/
inductive GameState where
  | StateStart
  | StatePlaying
  | StateGameOver
  | StateWin
  deriving DecidableEq, Repr, Inhabited

export GameState (StateStart StatePlaying StateGameOver StateWin)

/-- Fruit kinds are the integers `0 .. 7` (`FruitCherry .. FruitKey`). -/
abbrev FruitType := Int

def FruitKey : FruitType := 7

/-- The map `FruitScores`; a key that is absent reads as `0`. -/
def FruitScores (t : FruitType) : Int :=
  if t = 0 then 100
  else if t = 1 then 300
  else if t = 2 then 500
  else if t = 3 then 700
  else if t = 4 then 1000
  else if t = 5 then 2000
  else if t = 6 then 3000
  else if t = 7 then 5000
  else 0

/-! ## maze.go -/

/-- The compiled-in layout: W wall, . pellet, O power pellet, _ empty, G door. -/
def mazeLayout : List String := [
  "WWWWWWWWWWWWWWWWWWWWWWWWWWWW",
  "W............WW............W",
  "W.WWWW.WWWWW.WW.WWWWW.WWWW.W",
  "WOWWWW.WWWWW.WW.WWWWW.WWWWOW",
  "W.WWWW.WWWWW.WW.WWWWW.WWWW.W",
  "W..........................W",
  "W.WWWW.WW.WWWWWWWW.WW.WWWW.W",
  "W.WWWW.WW.WWWWWWWW.WW.WWWW.W",
  "W......WW....WW....WW......W",
  "WWWWWW.WWWWW.WW.WWWWW.WWWWWW",
  "WWWWWW.WWWWW.WW.WWWWW.WWWWWW",
  "WWWWWW.WW..........WW.WWWWWW",
  "WWWWWW.WW.WWWGGWWW.WW.WWWWWW",
  "WWWWWW.WW.W______W.WW.WWWWWW",
  "..........W______W..........",
  "WWWWWW.WW.W______W.WW.WWWWWW",
  "WWWWWW.WW.WWWWWWWW.WW.WWWWWW",
  "WWWWWW.WW..........WW.WWWWWW",
  "WWWWWW.WW.WWWWWWWW.WW.WWWWWW",
  "WWWWWW.WW.WWWWWWWW.WW.WWWWWW",
  "W............WW............W",
  "W.WWWW.WWWWW.WW.WWWWW.WWWW.W",
  "W.WWWW.WWWWW.WW.WWWWW.WWWW.W",
  "WO..WW................WW..OW",
  "WWW.WW.WW.WWWWWWWW.WW.WW.WWW",
  "WWW.WW.WW.WWWWWWWW.WW.WW.WWW",
  "W......WW....WW....WW......W",
  "W.WWWWWWWWWW.WW.WWWWWWWWWW.W",
  "W.WWWWWWWWWW.WW.WWWWWWWWWW.W",
  "W..........................W",
  "WWWWWWWWWWWWWWWWWWWWWWWWWWWW"]

/-- A cell kind is a byte. -/
abbrev CellType := Nat

def CellWall : CellType := 87
def CellPellet : CellType := 46
def CellPowerPellet : CellType := 79
def CellEmpty : CellType := 95
def CellGhostDoor : CellType := 71

structure Maze where
  Width : Int
  Height : Int
  Cells : List (List CellType)
  TotalPellets : Int
  RemainingPellets : Int
  deriving DecidableEq, Repr, Inhabited

/-- The cells of one layout row, byte by byte. -/
def layoutRow (s : String) : List CellType :=
  s.toList.map Char.toNat

/-- The number of pellet and power-pellet cells of a row. -/
def rowPellets (row : List CellType) : Nat :=
  row.countP (fun c => c = CellPellet ∨ c = CellPowerPellet)

/-- The function `NewMaze`: the grid copied from the layout, both counters set
to the number of pellet cells. -/
def NewMaze : Maze :=
  let cells := mazeLayout.map layoutRow
  let pelletCount : Int := ((cells.map rowPellets).sum : Nat)
  { Width := ((mazeLayout.headD "").length : Nat)
    Height := (mazeLayout.length : Nat)
    Cells := cells
    TotalPellets := pelletCount
    RemainingPellets := pelletCount }

/-- The method `Maze.GetCell`. An index that the bounds test admits but the
stored grid lacks (a Go run-time fault) reads as `CellWall`; this cannot
happen when the grid has `Height` rows of `Width` cells. -/
def Maze.GetCell (m : Maze) (x y : Int) : CellType :=
  if y < 0 ∨ y ≥ m.Height ∨ x < 0 ∨ x ≥ m.Width then CellWall
  else (m.Cells.getD y.toNat []).getD x.toNat CellWall

/-- The method `Maze.SetCell`. -/
def Maze.SetCell (m : Maze) (x y : Int) (cell : CellType) : Maze :=
  if y ≥ 0 ∧ y < m.Height ∧ x ≥ 0 ∧ x < m.Width then
    { m with Cells := m.Cells.set y.toNat ((m.Cells.getD y.toNat []).set x.toNat cell) }
  else m

/-- The method `Maze.IsWalkable`. -/
def Maze.IsWalkable (m : Maze) (x y : Int) : Bool :=
  let cell := m.GetCell x y
  decide (cell ≠ CellWall) && decide (cell ≠ CellGhostDoor)

/-- The method `Maze.IsWalkableForGhost`. -/
def Maze.IsWalkableForGhost (m : Maze) (x y : Int) : Bool :=
  let cell := m.GetCell x y
  decide (cell ≠ CellWall)

/-- The method `Maze.EatPellet`; returns `(isPowerPellet, ate)` and the
updated maze. -/
def Maze.EatPellet (m : Maze) (x y : Int) : (Bool × Bool) × Maze :=
  let cell := m.GetCell x y
  if cell = CellPellet then
    ((false, true), { m.SetCell x y CellEmpty with
                        RemainingPellets := (m.SetCell x y CellEmpty).RemainingPellets - 1 })
  else if cell = CellPowerPellet then
    ((true, true), { m.SetCell x y CellEmpty with
                       RemainingPellets := (m.SetCell x y CellEmpty).RemainingPellets - 1 })
  else ((false, false), m)

/-- The method `Maze.Reset`. -/
def Maze.Reset (_m : Maze) : Maze := NewMaze

/-! ## entities.go: the player -/

structure Pacman where
  X : Int
  Y : Int
  Dir : Direction
  NextDir : Direction
  AnimFrame : Int
  MoveTick : Int
  PowerMode : Bool
  PowerTicks : Int
  deriving DecidableEq, Repr, Inhabited

/-- The function `NewPacman`. -/
def NewPacman : Pacman :=
  { X := 14, Y := 23, Dir := DirNone, NextDir := DirNone,
    AnimFrame := 0, MoveTick := 0, PowerMode := false, PowerTicks := 0 }

/-- The tile one step from `(x, y)` in direction `dir`, without wrap: the body
shared by `Pacman.getNextPos`, `Ghost.getNextPos` and the inlined switches. -/
def nextPos (x y : Int) (dir : Direction) : Int × Int :=
  match dir with
  | DirUp => (x, y - 1)
  | DirDown => (x, y + 1)
  | DirLeft => (x - 1, y)
  | DirRight => (x + 1, y)
  | DirNone => (x, y)

/-- The method `Pacman.getNextPos`. -/
def Pacman.getNextPos (p : Pacman) (dir : Direction) : Int × Int :=
  nextPos p.X p.Y dir

/-- The tunnel wrap-around applied to a candidate column. -/
def wrapX (m : Maze) (nx : Int) : Int :=
  if nx < 0 then m.Width - 1
  else if nx ≥ m.Width then 0
  else nx

/-- The power timer step at the head of `Pacman.Update`. -/
def Pacman.tickPower (p : Pacman) : Pacman :=
  if p.PowerMode then
    let p1 := { p with PowerTicks := p.PowerTicks - 1 }
    if p1.PowerTicks ≤ 0 then { p1 with PowerMode := false } else p1
  else p

/-- The effective movement interval computed in `Pacman.Update`. -/
def Pacman.speed (p : Pacman) : Int :=
  if p.PowerMode then
    (if MovementSpeed - 1 < 1 then 1 else MovementSpeed - 1)
  else MovementSpeed

/-- The buffered direction change of `Pacman.Update`. -/
def Pacman.tryTurn (p : Pacman) (maze : Maze) : Pacman :=
  if p.NextDir ≠ DirNone then
    let n := p.getNextPos p.NextDir
    if maze.IsWalkable n.1 n.2 then { p with Dir := p.NextDir, NextDir := DirNone } else p
  else p

/-- The move in the current direction of `Pacman.Update`. -/
def Pacman.tryMove (p : Pacman) (maze : Maze) : Pacman :=
  if p.Dir ≠ DirNone then
    let n := p.getNextPos p.Dir
    let nx := wrapX maze n.1
    if maze.IsWalkable nx n.2 then { p with X := nx, Y := n.2 } else p
  else p

/-- The method `Pacman.Update`. -/
def Pacman.Update (p : Pacman) (maze : Maze) : Pacman :=
  let p1 := p.tickPower
  let p2 := { p1 with AnimFrame := p1.AnimFrame + 1 }
  let speed := p2.speed
  let p3 := { p2 with MoveTick := p2.MoveTick + 1 }
  if p3.MoveTick < speed then p3
  else
    let p4 := { p3 with MoveTick := 0 }
    (p4.tryTurn maze).tryMove maze

/-- The method `Pacman.SetDirection`. -/
def Pacman.SetDirection (p : Pacman) (dir : Direction) : Pacman :=
  { p with NextDir := dir }

/-- The method `Pacman.ActivatePowerMode`. -/
def Pacman.ActivatePowerMode (p : Pacman) (level : Int) : Pacman :=
  let p1 := { p with PowerMode := true }
  if level = 1 then { p1 with PowerTicks := 48 }
  else if level = 2 then { p1 with PowerTicks := 40 }
  else if level ≤ 4 then { p1 with PowerTicks := 32 }
  else if level ≤ 8 then { p1 with PowerTicks := 24 }
  else { p1 with PowerTicks := 16 }

/-- The method `Pacman.PowerTimeLeft`. -/
def Pacman.PowerTimeLeft (p : Pacman) : Int := p.PowerTicks

/-! ## entities.go: the pursuers -/

structure Ghost where
  Typ : GhostType
  X : Int
  Y : Int
  Dir : Direction
  Mode : GhostMode
  MoveTick : Int
  AnimFrame : Int
  TargetX : Int
  TargetY : Int
  RespawnTimer : Int
  deriving DecidableEq, Repr, Inhabited

/-- The function `NewGhost`. -/
def NewGhost (gtype : GhostType) (x y : Int) : Ghost :=
  { Typ := gtype, X := x, Y := y, Dir := DirLeft, Mode := ModeScatter,
    MoveTick := 0, AnimFrame := 0, TargetX := 0, TargetY := 0, RespawnTimer := 0 }

/-- The function `oppositeDir`. -/
def oppositeDir : Direction → Direction
  | DirUp => DirDown
  | DirDown => DirUp
  | DirLeft => DirRight
  | DirRight => DirLeft
  | DirNone => DirNone

/-- The method `Ghost.getNextPos`. -/
def Ghost.getNextPos (g : Ghost) (dir : Direction) : Int × Int :=
  nextPos g.X g.Y dir

/-- The slice literal that both searches range over. -/
def allDirs : List Direction := [DirUp, DirDown, DirLeft, DirRight]

/-- The target tile computed at the head of `Ghost.chooseDirection`. -/
def Ghost.target (g : Ghost) (maze : Maze) (pacman : Pacman) : Int × Int :=
  if g.Mode = ModeFrightened then
    (g.X * 2 - pacman.X, g.Y * 2 - pacman.Y)
  else
    match g.Typ with
    | GhostBlinky => (pacman.X, pacman.Y)
    | GhostPinky =>
      match pacman.Dir with
      | DirUp => (pacman.X, pacman.Y - 4)
      | DirDown => (pacman.X, pacman.Y + 4)
      | DirLeft => (pacman.X - 4, pacman.Y)
      | DirRight => (pacman.X + 4, pacman.Y)
      | DirNone => (pacman.X, pacman.Y)
    | GhostInky => (2 * pacman.X - g.X, 2 * pacman.Y - g.Y)
    | GhostClyde =>
      if |g.X - pacman.X| + |g.Y - pacman.Y| < 8 then (0, maze.Height - 1)
      else (pacman.X, pacman.Y)

/-- The running best of the greedy search: `bestDir`, `bestDist`,
`reverseDir`, `reverseDist`; a distance of `none` is `math.MaxFloat64`. -/
structure Best where
  bestDir : Direction
  bestDist : Option Int
  reverseDir : Direction
  reverseDist : Option Int
  deriving DecidableEq, Repr, Inhabited

/-- The test `dist < bound` against a bound that may be `math.MaxFloat64`. -/
def distLt (dist : Int) (bound : Option Int) : Bool :=
  match bound with
  | none => true
  | some b => decide (dist < b)

/-- One iteration of the direction loop of `Ghost.chooseDirection`. -/
def Ghost.scanDir (g : Ghost) (maze : Maze) (targetX targetY : Int)
    (b : Best) (dir : Direction) : Best :=
  let n := nextPos g.X g.Y dir
  if !maze.IsWalkableForGhost n.1 n.2 then b
  else
    let dist := |n.1 - targetX| + |n.2 - targetY|
    if dir = oppositeDir g.Dir then
      if distLt dist b.reverseDist then { b with reverseDist := some dist, reverseDir := dir }
      else b
    else
      if distLt dist b.bestDist then { b with bestDist := some dist, bestDir := dir }
      else b

/-- The method `Ghost.chooseDirection`. -/
def Ghost.chooseDirection (g : Ghost) (maze : Maze) (pacman : Pacman) : Direction :=
  let t := g.target maze pacman
  let b := allDirs.foldl (g.scanDir maze t.1 t.2)
    { bestDir := DirNone, bestDist := none, reverseDir := DirNone, reverseDist := none }
  if b.bestDir = DirNone then
    if b.reverseDir ≠ DirNone then b.reverseDir else g.Dir
  else b.bestDir

/-- A queue entry of the breadth-first search (`Node`). -/
structure Node where
  x : Int
  y : Int
  firstDir : Direction
  deriving DecidableEq, Repr, Inhabited

/-- One iteration of the neighbour loop of the search: the state is the queue
and the keys of the `visited` map. -/
def expandDir (maze : Maze) (curr : Node) (st : List Node × List (Int × Int))
    (dir : Direction) : List Node × List (Int × Int) :=
  let n := nextPos curr.x curr.y dir
  let nx := wrapX maze n.1
  let ny := n.2
  if (nx, ny) ∈ st.2 ∨ maze.IsWalkableForGhost nx ny = false then st
  else
    let firstDir := if curr.firstDir = DirNone then dir else curr.firstDir
    (st.1 ++ [{ x := nx, y := ny, firstDir := firstDir }], (nx, ny) :: st.2)

/-- The `for len(queue) > 0` loop of the search, bounded by a count of
iterations. `some (some d)` is `return d`, `some none` is leaving the loop
(empty queue, or `break` at the target), `none` is the bound being hit. -/
def bfsLoop (maze : Maze) (targetX targetY : Int) :
    Nat → List Node → List (Int × Int) → Option (Option Direction)
  | _, [], _ => some none
  | 0, _ :: _, _ => none
  | fuel + 1, curr :: queue, visited =>
    if curr.x = targetX ∧ curr.y = targetY then
      if curr.firstDir ≠ DirNone then some (some curr.firstDir) else some none
    else
      let st := allDirs.foldl (expandDir maze curr) (queue, visited)
      bfsLoop maze targetX targetY fuel st.1 st.2

/-- The number of loop iterations granted to the search: one per cell of the
grid and one for the origin. `bfsLoop_fuel` shows the bound is never hit. -/
def searchFuel (maze : Maze) : Nat :=
  maze.Width.toNat * maze.Height.toNat + 1

/-- The fallback loop of `chooseReturnDirection`: the first direction whose
(unwrapped) neighbour is walkable for a pursuer. -/
def Ghost.anyValidDir (g : Ghost) (maze : Maze) : Option Direction :=
  allDirs.find? (fun dir => maze.IsWalkableForGhost (nextPos g.X g.Y dir).1 (nextPos g.X g.Y dir).2)

/-- The method `Ghost.chooseReturnDirection`. -/
def Ghost.chooseReturnDirection (g : Ghost) (maze : Maze) (targetX targetY : Int) : Direction :=
  match bfsLoop maze targetX targetY (searchFuel maze)
      [{ x := g.X, y := g.Y, firstDir := DirNone }] [(g.X, g.Y)] with
  | some (some d) => d
  | _ =>
    match g.anyValidDir maze with
    | some d => d
    | none => g.Dir

/-- The Eaten branch of `Ghost.Update` (after the animation counter). -/
def Ghost.updateEaten (g : Ghost) (maze : Maze) : Ghost :=
  let dx := if g.X - g.TargetX < 0 then -(g.X - g.TargetX) else g.X - g.TargetX
  let dy := if g.Y - g.TargetY < 0 then -(g.Y - g.TargetY) else g.Y - g.TargetY
  if dx ≤ 2 ∧ dy ≤ 2 then
    { g with X := 14, Y := 14, Mode := ModeScatter, RespawnTimer := 16 }
  else
    let g1 := { g with MoveTick := g.MoveTick + 1 }
    if g1.MoveTick < 1 then g1
    else
      let g2 := { g1 with MoveTick := 0 }
      let g3 := { g2 with Dir := g2.chooseReturnDirection maze g2.TargetX g2.TargetY }
      let n := g3.getNextPos g3.Dir
      if maze.IsWalkableForGhost n.1 n.2 then { g3 with X := n.1, Y := n.2 } else g3

/-- The mode step of `Ghost.Update`. -/
def Ghost.stepMode (g : Ghost) (pacman : Pacman) : Ghost :=
  if pacman.PowerMode = true ∧ g.Mode ≠ ModeFrightened ∧ g.Mode ≠ ModeEaten then
    { g with Mode := ModeFrightened }
  else if pacman.PowerMode = false ∧ g.Mode = ModeFrightened then
    { g with Mode := ModeChase }
  else g

/-- The movement interval computed in `Ghost.Update`. -/
def Ghost.speed (g : Ghost) (level : Int) : Int :=
  let s0 := BaseGhostSpeed
  let s1 :=
    if level > 1 then
      (if s0 - (level - 1).tdiv 3 < 1 then 1 else s0 - (level - 1).tdiv 3)
    else s0
  if g.Mode = ModeFrightened then s1 + 2 else s1

/-- The direction choice and move that end `Ghost.Update`. -/
def Ghost.move (g : Ghost) (maze : Maze) (pacman : Pacman) : Ghost :=
  let g1 := { g with Dir := g.chooseDirection maze pacman }
  let n := g1.getNextPos g1.Dir
  let nx := wrapX maze n.1
  if maze.IsWalkableForGhost nx n.2 then { g1 with X := nx, Y := n.2 } else g1

/-- The method `Ghost.Update`. -/
def Ghost.Update (g : Ghost) (maze : Maze) (pacman : Pacman) (level : Int) : Ghost :=
  let g0 := { g with AnimFrame := g.AnimFrame + 1 }
  if g0.Mode = ModeEaten then g0.updateEaten maze
  else
    let g1 := if g0.RespawnTimer > 0 then { g0 with RespawnTimer := g0.RespawnTimer - 1 } else g0
    let g2 := g1.stepMode pacman
    let speed := g2.speed level
    let g3 := { g2 with MoveTick := g2.MoveTick + 1 }
    if g3.MoveTick < speed then g3
    else ({ g3 with MoveTick := 0 } : Ghost).move maze pacman

/-! ## fruit.go -/

structure Fruit where
  X : Int
  Y : Int
  Typ : FruitType
  Active : Bool
  Eaten : Bool
  SpawnTime : Int
  deriving DecidableEq, Repr, Inhabited

/-- The function `NewFruit`. -/
def NewFruit (level : Int) : Fruit :=
  let fruitType : FruitType := level - 1
  { X := 14, Y := 17, Typ := if fruitType > FruitKey then FruitKey else fruitType,
    Active := true, Eaten := false, SpawnTime := 0 }

/-! ## game.go: the simulation state and the tick -/

/-- The simulation fields of `Game`; rendering, scale and frame timing are
left out, they are never read by the tick. -/
structure Game where
  maze : Maze
  pacman : Pacman
  ghosts : List Ghost
  state : GameState
  score : Int
  lives : Int
  level : Int
  fruit : Option Fruit
  fruitTimer : Int
  deriving DecidableEq, Repr, Inhabited

/-- A pursuer's pre-tick tile (`GhostPos`). -/
structure GhostPos where
  prevX : Int
  prevY : Int
  deriving DecidableEq, Repr, Inhabited

/-- The simulation state built by `NewGame` (keyboard and renderer set-up
left out). -/
def NewGame : Game :=
  { maze := NewMaze, pacman := NewPacman,
    ghosts := [NewGhost GhostBlinky 14 11, NewGhost GhostPinky 12 11,
               NewGhost GhostInky 16 11, NewGhost GhostClyde 14 9],
    state := StateStart, score := 0, lives := InitialLives, level := 1,
    fruit := none, fruitTimer := 0 }

/-- The assignment `g.ghosts[i].X, g.ghosts[i].Y = x, y`. Go faults when the
slice is shorter; the model then leaves the list alone, and the engine always
holds four pursuers. -/
def setGhostPos (gs : List Ghost) (i : Nat) (x y : Int) : List Ghost :=
  match gs.get? i with
  | some gh => gs.set i { gh with X := x, Y := y }
  | none => gs

/-- The level-start layout of player and pursuers, shared verbatim by
`NextLevel` and `Reset`. -/
def Game.resetEntities (g : Game) : Game :=
  let pac := { g.pacman with X := 14, Y := 23, Dir := DirNone, NextDir := DirNone,
                             PowerMode := false }
  let gs0 := setGhostPos g.ghosts 0 14 11
  let gs1 := setGhostPos gs0 1 12 11
  let gs2 := setGhostPos gs1 2 16 11
  let gs3 := setGhostPos gs2 3 14 9
  { g with pacman := pac,
           ghosts := gs3.map (fun ghost => { ghost with Mode := ModeScatter, Dir := DirLeft }),
           state := StatePlaying }

/-- The method `Game.NextLevel`. -/
def Game.NextLevel (g : Game) : Game :=
  Game.resetEntities { g with level := g.level + 1, maze := g.maze.Reset }

/-- The method `Game.Reset`. -/
def Game.Reset (g : Game) : Game :=
  Game.resetEntities { g with score := 0, lives := InitialLives, level := 1,
                              maze := g.maze.Reset }

/-- The flag `collision` computed for one pursuer in `checkCollisions`: the
player `pac` as it stands when the pursuer is examined, the player's pre-tick
tile, the pursuer and its pre-tick tile. -/
def collision (pac : Pacman) (prevPacX prevPacY : Int) (ghost : Ghost) (prev : GhostPos) : Bool :=
  let c1 := decide (pac.X = ghost.X ∧ pac.Y = ghost.Y)
  let c2 := decide (pac.X = prev.prevX ∧ pac.Y = prev.prevY ∧
                    ghost.X = prevPacX ∧ ghost.Y = prevPacY)
  c1 || c2

/-- The body of the loop of `checkCollisions` for one pursuer: the game fields
it may change, and the pursuer. -/
def resolveCollision (prevPacX prevPacY : Int) (prev : GhostPos) (g : Game) (ghost : Ghost) :
    Game × Ghost :=
  if collision g.pacman prevPacX prevPacY ghost prev then
    if g.pacman.PowerMode = true ∧ ghost.Mode = ModeFrightened then
      ({ g with score := g.score + GhostScore },
       { ghost with Mode := ModeEaten, TargetX := 14, TargetY := 11 })
    else if ghost.Mode ≠ ModeFrightened ∧ ghost.Mode ≠ ModeEaten then
      let g1 := { g with lives := g.lives - 1,
                         pacman := { g.pacman with X := 14, Y := 23, Dir := DirNone } }
      (if g1.lives ≤ 0 then { g1 with state := StateGameOver } else g1, ghost)
    else (g, ghost)
  else (g, ghost)

/-- The loop of `checkCollisions` over the pursuers and their pre-tick tiles,
in index order. Go faults when `prevGhostPos` is the shorter slice; the model
stops there, and `update` always passes slices of one length. -/
def checkCollisionsLoop (prevPacX prevPacY : Int) :
    List Ghost → List GhostPos → Game → Game × List Ghost
  | ghost :: rest, prev :: prevs, g =>
    let r := resolveCollision prevPacX prevPacY prev g ghost
    let r2 := checkCollisionsLoop prevPacX prevPacY rest prevs r.1
    (r2.1, r.2 :: r2.2)
  | ghosts, _, g => (g, ghosts)

/-- The method `Game.checkCollisions`. -/
def Game.checkCollisions (g : Game) (prevPacX prevPacY : Int) (prevGhostPos : List GhostPos) :
    Game :=
  let r := checkCollisionsLoop prevPacX prevPacY g.ghosts prevGhostPos g
  { r.1 with ghosts := r.2 }

/-- The fruit spawn and despawn timers at the head of `update`. -/
def Game.tickFruit (g : Game) : Game :=
  let g1 := { g with fruitTimer := g.fruitTimer + 1 }
  let g2 :=
    if g1.fruit = none ∧ g1.fruitTimer > 600 then
      { g1 with fruit := some (NewFruit g1.level), fruitTimer := 0 }
    else g1
  match g2.fruit with
  | some f =>
    if f.Active = true ∧ f.Eaten = false then
      if f.SpawnTime + 1 > 480 then { g2 with fruit := none, fruitTimer := 0 }
      else { g2 with fruit := some { f with SpawnTime := f.SpawnTime + 1 } }
    else g2
  | none => g2

/-- The pellet consumption step of `update`. -/
def Game.eatPellet (g : Game) : Game :=
  let r := g.maze.EatPellet g.pacman.X g.pacman.Y
  let g1 := { g with maze := r.2 }
  if r.1.2 then
    if r.1.1 then
      { g1 with score := g1.score + PowerPelletScore,
                pacman := g1.pacman.ActivatePowerMode g1.level }
    else { g1 with score := g1.score + PelletScore }
  else g1

/-- The fruit pick-up step of `update`. -/
def Game.eatFruit (g : Game) : Game :=
  match g.fruit with
  | some f =>
    if f.Active = true ∧ f.Eaten = false ∧ g.pacman.X = f.X ∧ g.pacman.Y = f.Y then
      { g with score := g.score + FruitScores f.Typ, fruit := none }
    else g
  | none => g

/-- One test of the de-overlap pass of `update`, for the pair `(i, j)`. -/
def deOverlapPair (prev : List GhostPos) (gs : List Ghost) (i j : Nat) : List Ghost :=
  match gs.get? i, gs.get? j, prev.get? j with
  | some a, some b, some p =>
    if a.X = b.X ∧ a.Y = b.Y then gs.set j { b with X := p.prevX, Y := p.prevY } else gs
  | _, _, _ => gs

/-- The de-overlap pass of `update`: pairs `i < j` in index order. -/
def deOverlap (prev : List GhostPos) (gs : List Ghost) : List Ghost :=
  (List.range gs.length).foldl
    (fun acc i => (List.range' (i + 1) (gs.length - (i + 1))).foldl
      (fun acc2 j => deOverlapPair prev acc2 i j) acc)
    gs

/-- The method `Game.update`: one tick. -/
def Game.update (g : Game) : Game :=
  if g.state ≠ StatePlaying then g
  else
    let g1 : Game := g.tickFruit
    let prevPacX := g1.pacman.X
    let prevPacY := g1.pacman.Y
    let g2 : Game := { g1 with pacman := g1.pacman.Update g1.maze }
    let g3 : Game := g2.eatPellet
    let g4 : Game := g3.eatFruit
    let prevPositions := g4.ghosts.map (fun ghost => ({ prevX := ghost.X, prevY := ghost.Y } : GhostPos))
    let moved := g4.ghosts.map (fun ghost => ghost.Update g4.maze g4.pacman g4.level)
    let g5 : Game := { g4 with ghosts := deOverlap prevPositions moved }
    let g6 : Game := g5.checkCollisions prevPacX prevPacY prevPositions
    if g6.maze.RemainingPellets = 0 then g6.NextLevel else g6

/-! ## Vocabulary of the statements -/

/-- The player as the death branch of `checkCollisions` leaves it: on the
spawn tile, idle. -/
def spawned (p : Pacman) : Pacman := { p with X := 14, Y := 23, Dir := DirNone }

/-- A pursuer in Scatter or Chase mode for which the collision flag is set. -/
def isHit (pac : Pacman) (prevPacX prevPacY : Int) (ghost : Ghost) (prev : GhostPos) : Bool :=
  (decide (ghost.Mode = ModeScatter) || decide (ghost.Mode = ModeChase)) &&
    collision pac prevPacX prevPacY ghost prev

/-! ## Concrete states used as witnesses and counterexamples -/

/-- A state as `update` hands it to `checkCollisions`: the player has stepped
from (12,23) to (13,23), Blinky from (14,23) to (13,23) and Inky from (15,23)
to the spawn tile (14,23). -/
def stackedChasers : Game :=
  { NewGame with
    state := StatePlaying
    pacman := { NewPacman with X := 13, Y := 23, Dir := DirRight }
    ghosts := [{ NewGhost GhostBlinky 13 23 with Mode := ModeChase },
               NewGhost GhostPinky 12 11,
               { NewGhost GhostInky 14 23 with Mode := ModeChase },
               NewGhost GhostClyde 15 9] }

/-- The pre-tick tiles of the pursuers of `stackedChasers`. -/
def stackedPrev : List GhostPos :=
  [{ prevX := 14, prevY := 23 }, { prevX := 12, prevY := 11 },
   { prevX := 15, prevY := 23 }, { prevX := 15, prevY := 9 }]

/-- A powered player on (6,5) and a Frightened pursuer on the same tile. -/
def captureGame : Game :=
  { NewGame with
    state := StatePlaying
    pacman := { NewPacman with X := 6, Y := 5, Dir := DirRight, PowerMode := true,
                               PowerTicks := 30 } }

/-- The Frightened pursuer met in `captureGame`. -/
def captureGhost : Ghost := { NewGhost GhostBlinky 6 5 with Mode := ModeFrightened }

/-- The fixed maze with every pellet eaten but the one on (13,23). -/
def onePelletMaze : Maze :=
  { NewMaze with
    Cells := (List.range 31).map (fun y => (List.range 28).map (fun x =>
      let c := NewMaze.GetCell x y
      if (c = CellPellet ∨ c = CellPowerPellet) ∧ ¬ (x = 13 ∧ y = 23) then CellEmpty else c))
    RemainingPellets := 1 }

/-- One life left, one pellet left on (13,23): the player steps onto it from
(12,23) while Blinky, in Chase mode, steps onto it from (14,23). -/
def lastPelletGame : Game :=
  { NewGame with
    state := StatePlaying
    lives := 1
    maze := onePelletMaze
    pacman := { NewPacman with X := 12, Y := 23, Dir := DirRight, MoveTick := 1 }
    ghosts := [{ NewGhost GhostBlinky 14 23 with Mode := ModeChase, MoveTick := 1 },
               NewGhost GhostPinky 12 11,
               NewGhost GhostInky 16 11,
               NewGhost GhostClyde 15 9] }

/-- One life left; the player steps from (12,23) to (13,23) while Blinky and
Inky, both in Chase mode, follow each other from (14,23) and (15,23). -/
def twoChasers : Game :=
  { NewGame with
    state := StatePlaying
    lives := 1
    pacman := { NewPacman with X := 12, Y := 23, Dir := DirRight, MoveTick := 1 }
    ghosts := [{ NewGhost GhostBlinky 14 23 with Mode := ModeChase, MoveTick := 1 },
               NewGhost GhostPinky 12 11,
               { NewGhost GhostInky 15 23 with Mode := ModeChase, MoveTick := 1 },
               NewGhost GhostClyde 15 9] }

/-! ## The graph searched by `chooseReturnDirection` -/

/-- The tile of a queue entry. -/
def Node.pos (n : Node) : Int × Int := (n.x, n.y)

/-- The neighbour that the search visits from `p` in direction `d`: one step,
then the horizontal wrap (`x < 0` to `Width - 1`, `x >= Width` to `0`). -/
def wrapStep (m : Maze) (p : Int × Int) (d : Direction) : Int × Int :=
  (wrapX m (nextPos p.1 p.2 d).1, (nextPos p.1 p.2 d).2)

/-- A tile a pursuer may stand on. -/
def ghostCell (m : Maze) (p : Int × Int) : Bool := m.IsWalkableForGhost p.1 p.2

/-- `reach m k a b`: some path of exactly `k` edges leads from `a` to `b`,
each edge a cardinal step with wrap onto a pursuer-walkable tile. -/
def reach (m : Maze) : Nat → Int × Int → Int × Int → Bool
  | 0, a, b => decide (a = b)
  | k + 1, a, b =>
    allDirs.any (fun d => ghostCell m (wrapStep m a d) && reach m k (wrapStep m a d) b)

/-- `via m o d j v`: the `d`-neighbour of `o` is walkable and reaches `v` in
`j` edges, so `d` is the first move of a path of `j + 1` edges from `o`. -/
def via (m : Maze) (o : Int × Int) (d : Direction) (j : Nat) (v : Int × Int) : Prop :=
  ghostCell m (wrapStep m o d) = true ∧ reach m j (wrapStep m o d) v = true

/-- The direction recorded for a node discovered from `curr` in direction `d`. -/
def childDir (curr : Node) (d : Direction) : Direction :=
  if curr.firstDir = DirNone then d else curr.firstDir

/-- The queue entry appended for the `d`-neighbour of `curr`. -/
def childNode (m : Maze) (curr : Node) (d : Direction) : Node :=
  { x := (wrapStep m curr.pos d).1, y := (wrapStep m curr.pos d).2,
    firstDir := childDir curr d }

/-- Queue entries are ordered by distance, then by recorded direction. -/
def key (e : Node × Nat) : Nat := 5 * e.2 + e.1.firstDir.toNat

/-- What the search knows of an entry `e = (n, k)`: `k` is the distance of the
tile from the origin `o`, and the recorded direction is the earliest first
move among the shortest paths to the tile. -/
def NodeOk (m : Maze) (o : Int × Int) (e : Node × Nat) : Prop :=
  reach m e.2 o e.1.pos = true ∧ (∀ j, j < e.2 → reach m j o e.1.pos = false) ∧
  (e.1.firstDir = DirNone → e.2 = 0) ∧
  (e.1.firstDir ≠ DirNone →
    1 ≤ e.2 ∧ via m o e.1.firstDir (e.2 - 1) e.1.pos ∧
    ∀ d, d ∈ allDirs → via m o d (e.2 - 1) e.1.pos → e.1.firstDir.toNat ≤ d.toNat)

/-- The state of the search while `curr`, at distance `kc`, is expanded and the
directions `ds` are still to be tried: `doneL` lists the entries expanded
before, `queueL` the queue, each entry with its distance. -/
structure SearchInv (m : Maze) (o : Int × Int) (doneL : List (Node × Nat)) (curr : Node)
    (kc : Nat) (queueL : List (Node × Nat)) (visited : List (Int × Int))
    (ds : List Direction) (b : Nat) : Prop where
  vis_iff : ∀ p, p ∈ visited ↔ ∃ e ∈ doneL ++ (curr, kc) :: queueL, e.1.pos = p
  vis_nodup : visited.Nodup
  vis_len : visited.length = doneL.length + 1 + queueL.length
  vis_ok : ∀ p ∈ visited, p = o ∨ ghostCell m p = true
  origin : ∃ rest, doneL ++ (curr, kc) :: queueL
      = (({ x := o.1, y := o.2, firstDir := DirNone } : Node), 0) :: rest
  ok : ∀ e ∈ doneL ++ (curr, kc) :: queueL, NodeOk m o e
  sorted : (doneL ++ (curr, kc) :: queueL).Pairwise (fun a c => key a ≤ key c)
  closed : ∀ e ∈ doneL, ∀ d ∈ allDirs,
      ghostCell m (wrapStep m e.1.pos d) = true → wrapStep m e.1.pos d ∈ visited
  closedCurr : ∀ d ∈ allDirs, d ∉ ds →
      ghostCell m (wrapStep m curr.pos d) = true → wrapStep m curr.pos d ∈ visited
  bound : ∀ e ∈ doneL ++ (curr, kc) :: queueL, key e ≤ 5 * (kc + 1) + b
  b_le : b ≤ 4
  b_eq : curr.firstDir ≠ DirNone → b = curr.firstDir.toNat
  ds_sub : ∀ d ∈ ds, d ∈ allDirs
  ds_sorted : ds.Pairwise (fun a c => a.toNat < c.toNat)
  ds_b : ∀ d ∈ ds, b ≤ (childDir curr d).toNat
  fd_ne : ∀ e ∈ queueL, e.1.firstDir ≠ DirNone

/-- An Eaten pursuer on the tunnel tile (0,14), sent to the home entrance
(14,11) as `checkCollisions` sets it. -/
def tunnelEyes : Ghost :=
  { NewGhost GhostBlinky 0 14 with Mode := ModeEaten, TargetX := 14, TargetY := 11 }

/-- Successive calls of `Ghost.Update` in the fixed maze, one for each entry
of `ticks`, which gives the player and the level seen by that call. -/
def runGhost (g : Ghost) (ticks : List (Pacman × Int)) : Ghost :=
  ticks.foldl (fun gh t => gh.Update NewMaze t.1 t.2) g

/-! ## The targeting rule -/

/-- The unit step of a direction; `DirNone` does not move. -/
def dirVec : Direction → Int × Int
  | DirUp => (0, -1)
  | DirDown => (0, 1)
  | DirLeft => (-1, 0)
  | DirRight => (1, 0)
  | DirNone => (0, 0)

/-- The targeting rule in the words of the specification: flee through the
mirror point when Frightened, otherwise the player's tile refined by type. -/
def specTarget (typ : GhostType) (frightened : Bool) (gx gy px py : Int)
    (pdir : Direction) (height : Int) : Int × Int :=
  if frightened then (2 * gx - px, 2 * gy - py)
  else
    match typ with
    | GhostBlinky => (px, py)
    | GhostPinky => (px + 4 * (dirVec pdir).1, py + 4 * (dirVec pdir).2)
    | GhostInky => (2 * px - gx, 2 * py - gy)
    | GhostClyde => if 8 ≤ |gx - px| + |gy - py| then (px, py) else (0, height - 1)

/-! ## Mazes during play -/

/-- The number of cells of the stored grid that hold a pellet or a power
pellet. -/
def pelletCells (m : Maze) : Nat := (m.Cells.map rowPellets).sum

/-- The maze obtained from `NewMaze` by calling `EatPellet` on the tiles of
`ts`, in order. -/
def eatAll (ts : List (Int × Int)) : Maze :=
  ts.foldl (fun m t => (m.EatPellet t.1 t.2).2) NewMaze

/-- The shape and the counters of a maze obtained from the layout. -/
structure MazeWF (m : Maze) : Prop where
  width : m.Width = 28
  height : m.Height = 31
  rows : m.Cells.length = 31
  cols : ∀ row ∈ m.Cells, row.length = 28
  total : m.TotalPellets = 300
  remaining : m.RemainingPellets = (pelletCells m : Nat)
  le_total : pelletCells m ≤ 300

/-! ## Scripted play -/

/-- The pellet step of `update` with the player standing on tile `t`. -/
def Game.eatAt (g : Game) (t : Int × Int) : Game :=
  Game.eatPellet { g with pacman := { g.pacman with X := t.1, Y := t.2 } }

/-- The pellet step of `update` along the tiles of `ts`, in order. -/
def Game.eatPath (g : Game) (ts : List (Int × Int)) : Game :=
  ts.foldl Game.eatAt g

/-- Ten ordinary pellets of the fixed maze, along row 8 and up column 1. -/
def scriptedPellets : List (Int × Int) :=
  [(6, 8), (5, 8), (4, 8), (3, 8), (2, 8), (1, 8), (1, 7), (1, 6), (1, 5), (1, 4)]

/-- The input events that `handleInput` tells apart, and the tick. -/
inductive Event where
  | tick
  | space
  | retry
  | arrow (d : Direction)
  | other
  deriving DecidableEq, Repr

/-- The method `Game.handleInput` on the simulation state (the quit keys only
end the run), and `update` for the tick event. -/
def Game.handle (g : Game) (e : Event) : Game :=
  match e with
  | Event.tick => g.update
  | Event.space => if g.state = StateStart then { g with state := StatePlaying } else g
  | Event.retry => if g.state = StateGameOver then g.Reset else g
  | Event.arrow d =>
    if g.state = StatePlaying then { g with pacman := g.pacman.SetDirection d } else g
  | Event.other => g

/-- A run of the engine from the state `g` over the events `es`. -/
def Game.run (g : Game) (es : List Event) : Game := es.foldl Game.handle g

/-- The player invariant of a run: the maze has the size and the walkable
cells of the layout, and the player stands on one of them. -/
def PlayerOk (g : Game) : Prop :=
  g.maze.Width = 28 ∧ g.maze.Height = 31 ∧
  (∀ x y, g.maze.IsWalkable x y = NewMaze.IsWalkable x y) ∧
  g.maze.IsWalkable g.pacman.X g.pacman.Y = true

/-- The player about to step from (1,4) onto the power pellet of (1,3), where
Blinky waits in Chase mode. -/
def powerAmbush : Game :=
  { NewGame with
    state := StatePlaying
    pacman := { NewPacman with X := 1, Y := 4, Dir := DirUp, MoveTick := 1 }
    ghosts := [{ NewGhost GhostBlinky 1 3 with Mode := ModeChase },
               NewGhost GhostPinky 12 11,
               NewGhost GhostInky 16 11,
               NewGhost GhostClyde 15 9] }

/-- Blinky on (5,1), heading Right with its movement counter about to fire,
and Pinky resting on (6,1); the player idles on (12,1). -/
def crowdedCorridor : Game :=
  { NewGame with
    state := StatePlaying
    pacman := { NewPacman with X := 12, Y := 1 }
    ghosts := [{ NewGhost GhostBlinky 5 1 with Mode := ModeChase, Dir := DirRight,
                                               MoveTick := 1 },
               { NewGhost GhostPinky 6 1 with Mode := ModeChase },
               NewGhost GhostInky 16 11,
               NewGhost GhostClyde 15 9] }

/-- Four pursuers after their moves: the first has stepped from (5,1) onto
(6,1), where the second stayed. -/
def crowdedPost : List Ghost :=
  [NewGhost GhostBlinky 6 1, NewGhost GhostPinky 6 1, NewGhost GhostInky 16 11,
   NewGhost GhostClyde 15 9]

/-- The pre-tick tiles of `crowdedPost`, pairwise distinct. -/
def crowdedPrev : List GhostPos :=
  [{ prevX := 5, prevY := 1 }, { prevX := 6, prevY := 1 },
   { prevX := 16, prevY := 11 }, { prevX := 15, prevY := 9 }]

/-- The part of `update` that follows the fruit pick-up, as a function of the
state `g4` reached there and of the player's pre-tick tile: the pursuers
move, the de-overlap pass and the resolver run, the level check ends it. -/
def Game.pursuerPhase (g4 : Game) (prevPacX prevPacY : Int) : Game :=
  let prevPositions :=
    g4.ghosts.map (fun ghost => ({ prevX := ghost.X, prevY := ghost.Y } : GhostPos))
  let moved := g4.ghosts.map (fun ghost => ghost.Update g4.maze g4.pacman g4.level)
  let g5 : Game := { g4 with ghosts := deOverlap prevPositions moved }
  let g6 : Game := g5.checkCollisions prevPacX prevPacY prevPositions
  if g6.maze.RemainingPellets = 0 then g6.NextLevel else g6

/-- The player after an `Update` call in which the movement counter does not
fire: the power timer has stepped, the animation frame and the movement
counter are incremented, nothing else has changed. -/
def Pacman.counted (p : Pacman) : Pacman :=
  { p.tickPower with AnimFrame := p.tickPower.AnimFrame + 1, MoveTick := p.MoveTick + 1 }

/-- The player at the moment the move is attempted, in an `Update` call in
which the movement counter fires: the counter is reset and the buffered turn
has been tried. -/
def Pacman.turned (p : Pacman) (maze : Maze) : Pacman :=
  ({ p.tickPower with AnimFrame := p.tickPower.AnimFrame + 1, MoveTick := 0 } :
    Pacman).tryTurn maze

/-- An unpowered player on (1,5) of the fixed maze, heading Up with a turn to
the right buffered and the movement counter about to fire. -/
def cornerPlayer : Pacman :=
  { NewPacman with X := 1, Y := 5, Dir := DirUp, NextDir := DirRight, MoveTick := 1 }

/-- An unpowered player on (1,1) of the fixed maze, heading Up into the border
wall with no turn buffered and the movement counter about to fire. -/
def blockedPlayer : Pacman :=
  { NewPacman with X := 1, Y := 1, Dir := DirUp, MoveTick := 1 }

/-- The non-Eaten pursuer at the speed computation of `Ghost.Update`: the
animation frame is counted, the respawn timer and the mode step are done. -/
def Ghost.prepared (g : Ghost) (pacman : Pacman) : Ghost :=
  (if g.RespawnTimer > 0
    then { g with AnimFrame := g.AnimFrame + 1, RespawnTimer := g.RespawnTimer - 1 }
    else { g with AnimFrame := g.AnimFrame + 1 }).stepMode pacman

/-- The movement interval as the specification words it: the larger of 1 and
2 less the floor of (level - 1) / 3, plus 2 for a Frightened pursuer. -/
def specInterval (level : Int) (frightened : Bool) : Int :=
  max 1 (2 - Int.fdiv (level - 1) 3) + (if frightened then 2 else 0)

/-- Eaten eyes on (13,11), one column from the return target (14,11). -/
def nearEyes : Ghost :=
  { NewGhost GhostPinky 13 11 with Mode := ModeEaten, TargetX := 14, TargetY := 11,
                                   Dir := DirRight }

/-- The test of the direction loop of `chooseDirection`: the neighbour of the
pursuer in direction `d`, computed without wrap, is walkable for a pursuer. -/
def Ghost.canStep (g : Ghost) (maze : Maze) (d : Direction) : Bool :=
  maze.IsWalkableForGhost (nextPos g.X g.Y d).1 (nextPos g.X g.Y d).2

/-- The Manhattan distance from the neighbour of the pursuer in direction `d`,
computed without wrap, to the tile `(tx, ty)`. -/
def Ghost.distVia (g : Ghost) (tx ty : Int) (d : Direction) : Int :=
  |(nextPos g.X g.Y d).1 - tx| + |(nextPos g.X g.Y d).2 - ty|

/-- The running best of the greedy search after the directions `ps`: the best
is the earliest minimiser among the walkable non-reversing directions seen,
the backup is the walkable reversing direction if it was seen. -/
structure ScanInv (g : Ghost) (maze : Maze) (tx ty : Int) (ps : List Direction)
    (b : Best) : Prop where
  noBest : b.bestDir = DirNone → b.bestDist = none ∧
    ∀ d ∈ ps, g.canStep maze d = true → d = oppositeDir g.Dir
  best : b.bestDir ≠ DirNone →
    b.bestDir ∈ ps ∧ g.canStep maze b.bestDir = true ∧ b.bestDir ≠ oppositeDir g.Dir ∧
    b.bestDist = some (g.distVia tx ty b.bestDir) ∧
    ∀ d ∈ ps, g.canStep maze d = true → d ≠ oppositeDir g.Dir →
      g.distVia tx ty b.bestDir < g.distVia tx ty d ∨
      (g.distVia tx ty b.bestDir = g.distVia tx ty d ∧ b.bestDir.toNat ≤ d.toNat)
  noBackup : b.reverseDir = DirNone → b.reverseDist = none ∧
    ∀ d ∈ ps, g.canStep maze d = true → d ≠ oppositeDir g.Dir
  backup : b.reverseDir ≠ DirNone →
    b.reverseDir ∈ ps ∧ g.canStep maze b.reverseDir = true ∧
    b.reverseDir = oppositeDir g.Dir

/-- Blinky in Scatter mode on the junction (6,5) of the fixed maze, facing
Left with its movement counter about to fire. -/
def junctionGhost : Ghost :=
  { NewGhost GhostBlinky 6 5 with MoveTick := 1 }

/-- Blinky in Chase mode on the left end (0,14) of the open row, facing Left
with its movement counter about to fire. -/
def edgeGhost : Ghost :=
  { NewGhost GhostBlinky 0 14 with Mode := ModeChase, MoveTick := 1 }

/-- Some cardinal neighbour of `(x, y)`, computed without wrap, is walkable
for a pursuer in the fixed maze. -/
def hasExit (x y : Int) : Bool :=
  allDirs.any (fun d =>
    NewMaze.IsWalkableForGhost (nextPos x y d).1 (nextPos x y d).2)

/-- The non-Eaten pursuer at the direction choice of `Ghost.Update`, in a call
where the movement counter fires: prepared, with the counter reset. -/
def Ghost.mover (g : Ghost) (pacman : Pacman) : Ghost :=
  { g.prepared pacman with MoveTick := 0 }

/-- The raw index expression `m.Cells[y][x]` of Go, without the bounds test
of `GetCell`: `none` is the run-time fault of an index outside the grid. -/
def Maze.cellAt (m : Maze) (x y : Int) : Option CellType :=
  if y < 0 ∨ x < 0 then none
  else
    match m.Cells.get? y.toNat with
    | none => none
    | some row => row.get? x.toNat

/-- The counter and facing invariant of a run: the player's movement counter
is not negative and every pursuer has a facing. -/
def RunOk (g : Game) : Prop :=
  0 ≤ g.pacman.MoveTick ∧ ∀ gh ∈ g.ghosts, gh.Dir ≠ DirNone

/-- The state `update` holds when the pursuers move: the fruit timers, the
player's move, the pellet step and the fruit pick-up are done. -/
def Game.atPursuers (g : Game) : Game :=
  ({ g.tickFruit with pacman := g.tickFruit.pacman.Update g.tickFruit.maze } :
    Game).eatPellet.eatFruit

/-- The state `update` holds after the collision resolver, before the level
check: the pursuers have moved, the de-overlap pass and the resolver have run. -/
def Game.afterResolver (g : Game) : Game :=
  let g4 := g.atPursuers
  let prevPositions :=
    g4.ghosts.map (fun ghost => ({ prevX := ghost.X, prevY := ghost.Y } : GhostPos))
  let moved := g4.ghosts.map (fun ghost => ghost.Update g4.maze g4.pacman g4.level)
  let g5 : Game := { g4 with ghosts := deOverlap prevPositions moved }
  g5.checkCollisions g.tickFruit.pacman.X g.tickFruit.pacman.Y prevPositions

/-- The mode of the pursuer `gh` after its `Ghost.Update` call in the tick
from `g`, before the resolver examines it. -/
def Game.steppedMode (g : Game) (gh : Ghost) : GhostMode :=
  (gh.Update g.atPursuers.maze g.atPursuers.pacman g.atPursuers.level).Mode

/-- The two-chaser state with the three lives of a fresh game. -/
def chasedPlayer : Game := { twoChasers with lives := InitialLives }

/-! ## The collision resolver -/

theorem isHit_iff (pac : Pacman) (ppx ppy : Int) (ghost : Ghost) (prev : GhostPos) :
    isHit pac ppx ppy ghost prev = true ↔
      ((ghost.Mode = ModeScatter ∨ ghost.Mode = ModeChase) ∧
        collision pac ppx ppy ghost prev = true) := by
  simp [isHit]

theorem spawned_spawned (p : Pacman) : spawned (spawned p) = spawned p := rfl

theorem resolve_pacman (ppx ppy : Int) (prev : GhostPos) (g : Game) (ghost : Ghost) :
    (resolveCollision ppx ppy prev g ghost).1.pacman =
      if isHit g.pacman ppx ppy ghost prev then spawned g.pacman else g.pacman := by
  unfold resolveCollision isHit spawned
  cases hm : ghost.Mode <;> cases hc : collision g.pacman ppx ppy ghost prev <;>
    simp <;> split_ifs <;> simp_all

theorem resolve_lives (ppx ppy : Int) (prev : GhostPos) (g : Game) (ghost : Ghost) :
    (resolveCollision ppx ppy prev g ghost).1.lives =
      if isHit g.pacman ppx ppy ghost prev then g.lives - 1 else g.lives := by
  unfold resolveCollision isHit
  cases hm : ghost.Mode <;> cases hc : collision g.pacman ppx ppy ghost prev <;>
    simp <;> split_ifs <;> simp_all

theorem resolve_frame (ppx ppy : Int) (prev : GhostPos) (g : Game) (ghost : Ghost) :
    (resolveCollision ppx ppy prev g ghost).1.level = g.level ∧
    (resolveCollision ppx ppy prev g ghost).1.maze = g.maze := by
  unfold resolveCollision
  by_cases h1 : collision g.pacman ppx ppy ghost prev = true
  · by_cases h2 : g.pacman.PowerMode = true ∧ ghost.Mode = ModeFrightened
    · simp [h1, h2]
    · by_cases h3 : ghost.Mode ≠ ModeFrightened ∧ ghost.Mode ≠ ModeEaten
      · by_cases h4 : g.lives - 1 ≤ 0 <;> simp [h1, h2, h3, h4]
      · simp [h1, h2, h3]
  · simp [h1]

theorem loop_frame (ppx ppy : Int) (ghosts : List Ghost) :
    ∀ (prevs : List GhostPos) (g : Game),
      (checkCollisionsLoop ppx ppy ghosts prevs g).1.level = g.level ∧
      (checkCollisionsLoop ppx ppy ghosts prevs g).1.maze = g.maze := by
  induction ghosts with
  | nil => intro prevs g; simp [checkCollisionsLoop]
  | cons gh rest ih =>
    intro prevs g
    cases prevs with
    | nil => simp [checkCollisionsLoop]
    | cons p ps =>
      simp only [checkCollisionsLoop]
      have h1 := ih ps (resolveCollision ppx ppy p g gh).1
      have h2 := resolve_frame ppx ppy p g gh
      exact ⟨h1.1.trans h2.1, h1.2.trans h2.2⟩

theorem loop_lives_le (ppx ppy : Int) (ghosts : List Ghost) :
    ∀ (prevs : List GhostPos) (g : Game),
      (checkCollisionsLoop ppx ppy ghosts prevs g).1.lives ≤ g.lives ∧
      g.lives - ghosts.length ≤ (checkCollisionsLoop ppx ppy ghosts prevs g).1.lives := by
  induction ghosts with
  | nil => intro prevs g; simp [checkCollisionsLoop]
  | cons gh rest ih =>
    intro prevs g
    cases prevs with
    | nil => simp [checkCollisionsLoop]; omega
    | cons p ps =>
      simp only [checkCollisionsLoop, List.length_cons]
      have h1 := ih ps (resolveCollision ppx ppy p g gh).1
      have h2 := resolve_lives ppx ppy p g gh
      split_ifs at h2 <;> push_cast <;> omega

theorem loop_no_hit (ppx ppy : Int) (ghosts : List Ghost) :
    ∀ (prevs : List GhostPos) (g : Game),
      (∀ gp ∈ ghosts.zip prevs, isHit g.pacman ppx ppy gp.1 gp.2 = false) →
      (checkCollisionsLoop ppx ppy ghosts prevs g).1.lives = g.lives ∧
      (checkCollisionsLoop ppx ppy ghosts prevs g).1.pacman = g.pacman := by
  induction ghosts with
  | nil => intro prevs g _; simp [checkCollisionsLoop]
  | cons gh rest ih =>
    intro prevs g h
    cases prevs with
    | nil => simp [checkCollisionsLoop]
    | cons p ps =>
      simp only [checkCollisionsLoop]
      have hh : isHit g.pacman ppx ppy gh p = false := h (gh, p) (by simp)
      have h2 := resolve_lives ppx ppy p g gh
      have h3 := resolve_pacman ppx ppy p g gh
      simp only [hh] at h2 h3
      have h1 := ih ps (resolveCollision ppx ppy p g gh).1 (by
        intro gp hgp
        rw [h3]
        exact h gp (by simp [hgp]))
      rw [h1.1, h1.2, h2, h3]
      simp

theorem loop_pacman (ppx ppy : Int) (ghosts : List Ghost) :
    ∀ (prevs : List GhostPos) (g : Game),
      (checkCollisionsLoop ppx ppy ghosts prevs g).1.pacman = g.pacman ∨
      (checkCollisionsLoop ppx ppy ghosts prevs g).1.pacman = spawned g.pacman := by
  induction ghosts with
  | nil => intro prevs g; simp [checkCollisionsLoop]
  | cons gh rest ih =>
    intro prevs g
    cases prevs with
    | nil => simp [checkCollisionsLoop]
    | cons p ps =>
      simp only [checkCollisionsLoop]
      have h1 := ih ps (resolveCollision ppx ppy p g gh).1
      have h3 := resolve_pacman ppx ppy p g gh
      rw [h3] at h1
      split_ifs at h1
      · rw [spawned_spawned] at h1
        right; rcases h1 with h | h <;> exact h
      · exact h1

theorem loop_hit (ppx ppy : Int) (ghosts : List Ghost) :
    ∀ (prevs : List GhostPos) (g : Game),
      (∃ gp ∈ ghosts.zip prevs, isHit g.pacman ppx ppy gp.1 gp.2 = true) →
      (checkCollisionsLoop ppx ppy ghosts prevs g).1.lives ≤ g.lives - 1 ∧
      (checkCollisionsLoop ppx ppy ghosts prevs g).1.pacman = spawned g.pacman ∧
      ((∀ gp ∈ ghosts.zip prevs, isHit (spawned g.pacman) ppx ppy gp.1 gp.2 = false) →
        (checkCollisionsLoop ppx ppy ghosts prevs g).1.lives = g.lives - 1) := by
  induction ghosts with
  | nil => intro prevs g h; simp at h
  | cons gh rest ih =>
    intro prevs g h
    cases prevs with
    | nil => simp at h
    | cons p ps =>
      simp only [checkCollisionsLoop]
      have h2 := resolve_lives ppx ppy p g gh
      have h3 := resolve_pacman ppx ppy p g gh
      by_cases hh : isHit g.pacman ppx ppy gh p = true
      · simp only [hh, if_true] at h2 h3
        have hle := loop_lives_le ppx ppy rest ps (resolveCollision ppx ppy p g gh).1
        have hp := loop_pacman ppx ppy rest ps (resolveCollision ppx ppy p g gh).1
        rw [h3, spawned_spawned] at hp
        refine ⟨by omega, by rcases hp with h | h <;> exact h, ?_⟩
        intro hno
        have := loop_no_hit ppx ppy rest ps (resolveCollision ppx ppy p g gh).1 (by
          intro gp hgp
          rw [h3]
          exact hno gp (by simp [hgp]))
        rw [this.1, h2]
      · have hh' : isHit g.pacman ppx ppy gh p = false := by simpa using hh
        simp only [hh', Bool.false_eq_true, if_false] at h2 h3
        obtain ⟨gp, hgp, hgpHit⟩ := h
        have hrest : ∃ gp ∈ rest.zip ps,
            isHit (resolveCollision ppx ppy p g gh).1.pacman ppx ppy gp.1 gp.2 = true := by
          rw [h3]
          simp only [List.zip_cons_cons, List.mem_cons] at hgp
          rcases hgp with rfl | hgp
          · exact absurd hgpHit hh
          · exact ⟨gp, hgp, hgpHit⟩
        have := ih ps (resolveCollision ppx ppy p g gh).1 hrest
        rw [h2, h3] at this
        refine ⟨this.1, this.2.1, ?_⟩
        intro hno
        exact this.2.2 (fun gp hgp => hno gp (by simp [hgp]))

/-- C1. For one pursuer examined by `checkCollisions`, the collision flag is
set exactly when the post-tick tiles coincide or the two entities swapped
tiles in the tick; without the flag the loop body changes nothing, a swap with
a Scatter or Chase pursuer costs a life, and the swap player (5,5)->(6,5),
pursuer (6,5)->(5,5) is flagged although the post-tick tiles differ. -/
theorem swap_collision (g : Game) (prevPacX prevPacY : Int) (ghost : Ghost) (prev : GhostPos) :
    (collision g.pacman prevPacX prevPacY ghost prev = true ↔
      ((g.pacman.X = ghost.X ∧ g.pacman.Y = ghost.Y) ∨
       (g.pacman.X = prev.prevX ∧ g.pacman.Y = prev.prevY ∧
        ghost.X = prevPacX ∧ ghost.Y = prevPacY))) ∧
    (collision g.pacman prevPacX prevPacY ghost prev = false →
      resolveCollision prevPacX prevPacY prev g ghost = (g, ghost)) ∧
    ((g.pacman.X = prev.prevX ∧ g.pacman.Y = prev.prevY ∧
        ghost.X = prevPacX ∧ ghost.Y = prevPacY) →
      (ghost.Mode = ModeScatter ∨ ghost.Mode = ModeChase) →
      (resolveCollision prevPacX prevPacY prev g ghost).1.lives = g.lives - 1) ∧
    (collision { NewPacman with X := 6, Y := 5 } 5 5 (NewGhost GhostBlinky 5 5)
        { prevX := 6, prevY := 5 } = true ∧ ((6 : Int), (5 : Int)) ≠ (5, 5)) := by
  refine ⟨?_, ?_, ?_, ?_⟩
  · simp [collision]
  · intro h
    simp [resolveCollision, h]
  · intro hswap hmode
    have hc : isHit g.pacman prevPacX prevPacY ghost prev = true := by
      rw [isHit_iff]
      exact ⟨hmode, by simp [collision, hswap]⟩
    rw [resolve_lives, hc]
    simp
  · decide

set_option maxRecDepth 100000 in
/-- C2, evaluated on the failing input: the player has stepped onto (13,23),
Blinky stands on that tile and Inky on the spawn tile (14,23), both in Chase
mode. The resolver pass takes a life for Blinky and moves the player to the
spawn tile, then goes on and takes a second life for Inky, met there: two
lives in one pass, not one. The same happens inside a whole tick from three
lives, which ends with one. -/
theorem death_branch_twice :
    stackedChasers.state = StatePlaying ∧ stackedChasers.ghosts.length = 4 ∧
    (∃ gp ∈ stackedChasers.ghosts.zip stackedPrev,
      (gp.1.Mode = ModeScatter ∨ gp.1.Mode = ModeChase) ∧
        collision stackedChasers.pacman 12 23 gp.1 gp.2 = true) ∧
    ¬ ((stackedChasers.checkCollisions 12 23 stackedPrev).lives = stackedChasers.lives - 1) ∧
    (stackedChasers.checkCollisions 12 23 stackedPrev).lives = stackedChasers.lives - 2 ∧
    ((stackedChasers.checkCollisions 12 23 stackedPrev).pacman.X = 14 ∧
      (stackedChasers.checkCollisions 12 23 stackedPrev).pacman.Y = 23 ∧
      (stackedChasers.checkCollisions 12 23 stackedPrev).pacman.Dir = DirNone) ∧
    (chasedPlayer.state = StatePlaying ∧ chasedPlayer.lives = 3 ∧
      chasedPlayer.update.lives = 1) := by
  decide

/-- C3. In the loop body of `checkCollisions`, a colliding pursuer that is
Frightened while the player is powered becomes Eaten with target (14,11), the
score grows by exactly 200, and nothing else changes (lives, player position
and direction included); a colliding pursuer already Eaten changes nothing.
The same holds of a whole pass of `checkCollisions` over that one pursuer. -/
theorem capture_branch (g : Game) (prevPacX prevPacY : Int) (ghost : Ghost) (prev : GhostPos)
    (hc : collision g.pacman prevPacX prevPacY ghost prev = true) :
    (g.pacman.PowerMode = true → ghost.Mode = ModeFrightened →
      resolveCollision prevPacX prevPacY prev g ghost =
        ({ g with score := g.score + 200 },
         { ghost with Mode := ModeEaten, TargetX := 14, TargetY := 11 }) ∧
      Game.checkCollisions { g with ghosts := [ghost] } prevPacX prevPacY [prev] =
        { g with score := g.score + 200,
                 ghosts := [{ ghost with Mode := ModeEaten, TargetX := 14, TargetY := 11 }] }) ∧
    (ghost.Mode = ModeEaten →
      resolveCollision prevPacX prevPacY prev g ghost = (g, ghost) ∧
      Game.checkCollisions { g with ghosts := [ghost] } prevPacX prevPacY [prev] =
        { g with ghosts := [ghost] }) ∧
    GhostScore = 200 := by
  refine ⟨?_, ?_, rfl⟩
  · intro hp hm
    simp [Game.checkCollisions, checkCollisionsLoop, resolveCollision, hc, hp, hm, GhostScore]
  · intro hm
    simp [Game.checkCollisions, checkCollisionsLoop, resolveCollision, hc, hm]

/-- Witness for `capture_branch`: a powered player meeting a Frightened
pursuer on (6,5). -/
theorem capture_branch_witness :
    collision captureGame.pacman 5 5 captureGhost { prevX := 7, prevY := 5 } = true ∧
    resolveCollision 5 5 { prevX := 7, prevY := 5 } captureGame captureGhost =
      ({ captureGame with score := captureGame.score + 200 },
       { captureGhost with Mode := ModeEaten, TargetX := 14, TargetY := 11 }) :=
  ⟨by decide,
   ((capture_branch captureGame 5 5 captureGhost { prevX := 7, prevY := 5 } (by decide)).1
     (by decide) (by decide)).1⟩

/-! ## The tick -/

theorem foldl_preserves {α β : Type} (P : α → Prop) (f : α → β → α)
    (hf : ∀ a b, P a → P (f a b)) (l : List β) : ∀ a, P a → P (l.foldl f a) := by
  induction l with
  | nil => intro a ha; exact ha
  | cons b bs ih => intro a ha; exact ih _ (hf a b ha)

theorem deOverlapPair_length (prev : List GhostPos) (gs : List Ghost) (i j : Nat) :
    (deOverlapPair prev gs i j).length = gs.length := by
  unfold deOverlapPair
  split
  · split_ifs <;> simp
  · rfl

theorem deOverlap_length (prev : List GhostPos) (gs : List Ghost) :
    (deOverlap prev gs).length = gs.length := by
  unfold deOverlap
  refine foldl_preserves (fun (acc : List Ghost) => acc.length = gs.length) _ ?_ _ _ rfl
  intro acc i hacc
  refine foldl_preserves (fun (acc : List Ghost) => acc.length = gs.length) _ ?_ _ _ hacc
  intro acc2 j h2
  rw [deOverlapPair_length]; exact h2

theorem tickFruit_frame (g : Game) :
    g.tickFruit.maze = g.maze ∧ g.tickFruit.pacman = g.pacman ∧
    g.tickFruit.ghosts = g.ghosts ∧ g.tickFruit.lives = g.lives ∧
    g.tickFruit.level = g.level := by
  unfold Game.tickFruit
  simp only
  split <;> split_ifs <;> simp

theorem eatPellet_frame (g : Game) :
    g.eatPellet.maze = (g.maze.EatPellet g.pacman.X g.pacman.Y).2 ∧
    g.eatPellet.ghosts = g.ghosts ∧ g.eatPellet.lives = g.lives ∧
    g.eatPellet.level = g.level := by
  unfold Game.eatPellet
  simp only
  split_ifs <;> simp

theorem eatFruit_frame (g : Game) :
    g.eatFruit.maze = g.maze ∧ g.eatFruit.pacman = g.pacman ∧
    g.eatFruit.ghosts = g.ghosts ∧ g.eatFruit.lives = g.lives ∧
    g.eatFruit.level = g.level := by
  unfold Game.eatFruit
  split
  · split_ifs <;> simp
  · simp

theorem nextLevel_frame (g : Game) :
    g.NextLevel.lives = g.lives ∧ g.NextLevel.level = g.level + 1 ∧
    g.NextLevel.score = g.score ∧ g.NextLevel.state = StatePlaying ∧
    g.NextLevel.maze = NewMaze := by
  simp [Game.NextLevel, Game.resetEntities, Maze.Reset]

theorem checkCollisions_frame (g : Game) (ppx ppy : Int) (prevs : List GhostPos) :
    (g.checkCollisions ppx ppy prevs).level = g.level ∧
    (g.checkCollisions ppx ppy prevs).maze = g.maze ∧
    (g.checkCollisions ppx ppy prevs).lives ≤ g.lives ∧
    g.lives - g.ghosts.length ≤ (g.checkCollisions ppx ppy prevs).lives := by
  have h1 := loop_frame ppx ppy g.ghosts prevs g
  have h2 := loop_lives_le ppx ppy g.ghosts prevs g
  simp only [Game.checkCollisions]
  exact ⟨h1.1, h1.2, h2.1, h2.2⟩

theorem eatPellet_remaining (m : Maze) (x y : Int) :
    (m.EatPellet x y).2.RemainingPellets =
      if m.GetCell x y = CellPellet ∨ m.GetCell x y = CellPowerPellet
      then m.RemainingPellets - 1 else m.RemainingPellets := by
  have hset : ∀ c, (m.SetCell x y c).RemainingPellets = m.RemainingPellets := by
    intro c; unfold Maze.SetCell; split_ifs <;> rfl
  unfold Maze.EatPellet
  simp only
  split_ifs <;> simp_all

theorem tick_tail (g5 : Game) (ppx ppy : Int) (prevs : List GhostPos) (L lv : Int) (n : Nat)
    (hL : g5.lives = L) (hn : g5.ghosts.length = n) (hlv : g5.level = lv) :
    ((if (g5.checkCollisions ppx ppy prevs).maze.RemainingPellets = 0
      then (g5.checkCollisions ppx ppy prevs).NextLevel
      else g5.checkCollisions ppx ppy prevs).lives ≤ L ∧
     L - n ≤ (if (g5.checkCollisions ppx ppy prevs).maze.RemainingPellets = 0
      then (g5.checkCollisions ppx ppy prevs).NextLevel
      else g5.checkCollisions ppx ppy prevs).lives) ∧
    (if (g5.checkCollisions ppx ppy prevs).maze.RemainingPellets = 0
      then (g5.checkCollisions ppx ppy prevs).NextLevel
      else g5.checkCollisions ppx ppy prevs).level =
      if g5.maze.RemainingPellets = 0 then lv + 1 else lv := by
  have h := checkCollisions_frame g5 ppx ppy prevs
  have hN := nextLevel_frame (g5.checkCollisions ppx ppy prevs)
  rw [h.2.1]
  subst hL hn hlv
  split_ifs
  · rw [hN.1, hN.2.1, h.1]
    exact ⟨⟨h.2.2.1, h.2.2.2⟩, rfl⟩
  · exact ⟨⟨h.2.2.1, h.2.2.2⟩, h.1⟩

theorem update_lives (g : Game) :
    g.update.lives ≤ g.lives ∧ g.lives - g.ghosts.length ≤ g.update.lives := by
  unfold Game.update
  split_ifs with hs
  · simp
  · simp only []
    refine (tick_tail _ _ _ _ g.lives g.level g.ghosts.length ?_ ?_ ?_).1
    · simp [eatFruit_frame, eatPellet_frame, tickFruit_frame]
    · simp [deOverlap_length, eatFruit_frame, eatPellet_frame, tickFruit_frame]
    · simp [eatFruit_frame, eatPellet_frame, tickFruit_frame]

theorem update_level (g : Game) (hs : g.state = StatePlaying) :
    g.update.level =
      if (g.maze.EatPellet (g.pacman.Update g.maze).X (g.pacman.Update g.maze).Y).2.RemainingPellets = 0
      then g.level + 1 else g.level := by
  unfold Game.update
  rw [if_neg (by simp [hs])]
  simp only []
  rw [(tick_tail _ _ _ _ g.lives g.level g.ghosts.length ?_ ?_ ?_).2]
  · simp [eatFruit_frame, eatPellet_frame, tickFruit_frame]
  · simp [eatFruit_frame, eatPellet_frame, tickFruit_frame]
  · simp [deOverlap_length, eatFruit_frame, eatPellet_frame, tickFruit_frame]
  · simp [eatFruit_frame, eatPellet_frame, tickFruit_frame]

theorem move_mode (g : Ghost) (maze : Maze) (pacman : Pacman) :
    (g.move maze pacman).Mode = g.Mode := by
  unfold Ghost.move
  simp only []
  split_ifs <;> rfl

/-- C4, evaluated on the failing input: from one life and one pellet left, a
tick in which the player eats the last pellet and is caught by Blinky ends
with zero lives, yet in state Playing on level 2, not in GameOver. -/
theorem game_over_overridden :
    lastPelletGame.state = StatePlaying ∧ 1 ≤ lastPelletGame.lives ∧
    lastPelletGame.update.lives = 0 ∧
    lastPelletGame.update.state = StatePlaying ∧
    lastPelletGame.update.state ≠ StateGameOver ∧
    lastPelletGame.update.level = 2 := by
  decide

set_option maxRecDepth 100000 in
/-- C5, evaluated on the failing input: from one life, with player and
pursuers on valid tiles, a tick in which two Chase pursuers follow each other
onto the player's tile and the spawn tile ends with -1 lives. The first death
brings lives to 0 and sets GameOver; the resolver goes on to the next
pursuer and takes another life. -/
theorem lives_negative :
    twoChasers.state = StatePlaying ∧ 1 ≤ twoChasers.lives ∧
    twoChasers.maze.IsWalkable twoChasers.pacman.X twoChasers.pacman.Y = true ∧
    (∀ gh ∈ twoChasers.ghosts, twoChasers.maze.IsWalkableForGhost gh.X gh.Y = true) ∧
    ¬ (0 ≤ twoChasers.update.lives) ∧ twoChasers.update.lives = -1 ∧
    twoChasers.update.state = StateGameOver := by
  decide

/-- C6. From a Playing state with at least one pellet remaining, one update
tick raises the level by exactly 1 if and only if one pellet remained and the
player's post-move tile holds a pellet or power pellet (so that the pellet
step brings RemainingPellets from 1 to 0); otherwise the level is unchanged. -/
theorem level_completion (g : Game) (hs : g.state = StatePlaying)
    (hr : 1 ≤ g.maze.RemainingPellets) :
    (g.update.level = g.level + 1 ↔
      (g.maze.RemainingPellets = 1 ∧
        (g.maze.GetCell (g.pacman.Update g.maze).X (g.pacman.Update g.maze).Y = CellPellet ∨
         g.maze.GetCell (g.pacman.Update g.maze).X (g.pacman.Update g.maze).Y
           = CellPowerPellet))) ∧
    (g.update.level ≠ g.level + 1 → g.update.level = g.level) ∧
    ((g.maze.RemainingPellets = 1 ∧
        (g.maze.GetCell (g.pacman.Update g.maze).X (g.pacman.Update g.maze).Y = CellPellet ∨
         g.maze.GetCell (g.pacman.Update g.maze).X (g.pacman.Update g.maze).Y
           = CellPowerPellet)) ↔
      (g.maze.EatPellet (g.pacman.Update g.maze).X
        (g.pacman.Update g.maze).Y).2.RemainingPellets = 0) := by
  have hl := update_level g hs
  have he := eatPellet_remaining g.maze (g.pacman.Update g.maze).X (g.pacman.Update g.maze).Y
  rw [he] at hl
  rw [he, hl]
  by_cases hc : g.maze.GetCell (g.pacman.Update g.maze).X (g.pacman.Update g.maze).Y = CellPellet ∨
      g.maze.GetCell (g.pacman.Update g.maze).X (g.pacman.Update g.maze).Y = CellPowerPellet
  · simp only [hc, if_true, and_true]
    by_cases h1 : g.maze.RemainingPellets = 1
    · simp [h1]
    · have h2 : ¬ (g.maze.RemainingPellets - 1 = 0) := by omega
      simp [h1, h2]
  · have h2 : ¬ (g.maze.RemainingPellets = 0) := by omega
    simp [hc, h2]

/-- Witness for `level_completion`: the last-pellet state advances a level. -/
theorem level_completion_witness :
    lastPelletGame.state = StatePlaying ∧ 1 ≤ lastPelletGame.maze.RemainingPellets ∧
    (lastPelletGame.update.level = lastPelletGame.level + 1 ↔
      (lastPelletGame.maze.RemainingPellets = 1 ∧
        (lastPelletGame.maze.GetCell (lastPelletGame.pacman.Update lastPelletGame.maze).X
            (lastPelletGame.pacman.Update lastPelletGame.maze).Y = CellPellet ∨
         lastPelletGame.maze.GetCell (lastPelletGame.pacman.Update lastPelletGame.maze).X
            (lastPelletGame.pacman.Update lastPelletGame.maze).Y = CellPowerPellet))) :=
  ⟨by decide, by decide, (level_completion lastPelletGame (by decide) (by decide)).1⟩

/-- C7. With four pursuers, `NextLevel` keeps score and lives, raises the level
by exactly 1, sets the state to Playing, replaces the maze by `NewMaze`, puts
the player on (14,23) with `Dir = NextDir = DirNone` and power mode off, and
puts the pursuers on (14,11), (12,11), (16,11), (14,9), in Scatter mode,
facing Left. -/
theorem next_level (g : Game) (h4 : g.ghosts.length = 4) :
    g.NextLevel.score = g.score ∧ g.NextLevel.lives = g.lives ∧
    g.NextLevel.level = g.level + 1 ∧ g.NextLevel.state = StatePlaying ∧
    g.NextLevel.maze = NewMaze ∧
    g.NextLevel.pacman.X = 14 ∧ g.NextLevel.pacman.Y = 23 ∧
    g.NextLevel.pacman.Dir = DirNone ∧ g.NextLevel.pacman.NextDir = DirNone ∧
    g.NextLevel.pacman.PowerMode = false ∧
    g.NextLevel.ghosts.map (fun gh => (gh.X, gh.Y, gh.Mode, gh.Dir)) =
      [(14, 11, ModeScatter, DirLeft), (12, 11, ModeScatter, DirLeft),
       (16, 11, ModeScatter, DirLeft), (14, 9, ModeScatter, DirLeft)] := by
  have hN := nextLevel_frame g
  refine ⟨hN.2.2.1, hN.1, hN.2.1, hN.2.2.2.1, hN.2.2.2.2, rfl, rfl, rfl, rfl, rfl, ?_⟩
  obtain ⟨a, b, c, d, hg⟩ : ∃ a b c d, g.ghosts = [a, b, c, d] := by
    rcases hgs : g.ghosts with _ | ⟨a, _ | ⟨b, _ | ⟨c, _ | ⟨d, _ | ⟨e, r⟩⟩⟩⟩⟩ <;>
      simp [hgs] at h4 ⊢
  simp [Game.NextLevel, Game.resetEntities, setGhostPos, hg]

/-- Witness for `next_level`: the state built by `NewGame`. -/
theorem next_level_witness :
    NewGame.ghosts.length = 4 ∧ NewGame.NextLevel.level = NewGame.level + 1 ∧
    NewGame.NextLevel.maze = NewMaze ∧
    NewGame.NextLevel.ghosts.map (fun gh => (gh.X, gh.Y, gh.Mode, gh.Dir)) =
      [(14, 11, ModeScatter, DirLeft), (12, 11, ModeScatter, DirLeft),
       (16, 11, ModeScatter, DirLeft), (14, 9, ModeScatter, DirLeft)] :=
  have h := next_level NewGame (by decide)
  ⟨by decide, h.2.2.1, h.2.2.2.2.1, h.2.2.2.2.2.2.2.2.2.2⟩

/-- C10. `Ghost.Update` on a pursuer that is not Eaten leaves it Frightened if
the player is powered, in Chase if the player is not powered and the pursuer
was Frightened, and in its old mode otherwise; so afterwards the pursuer is
Frightened exactly when the player is powered, and it is never Eaten. -/
theorem mode_transition (g : Ghost) (maze : Maze) (pacman : Pacman) (level : Int)
    (h : g.Mode ≠ ModeEaten) :
    (g.Update maze pacman level).Mode =
      (if pacman.PowerMode = true then ModeFrightened
       else if g.Mode = ModeFrightened then ModeChase else g.Mode) ∧
    ((g.Update maze pacman level).Mode = ModeFrightened ↔ pacman.PowerMode = true) ∧
    (g.Update maze pacman level).Mode ≠ ModeEaten := by
  have key : (g.Update maze pacman level).Mode =
      (if pacman.PowerMode = true then ModeFrightened
       else if g.Mode = ModeFrightened then ModeChase else g.Mode) := by
    unfold Ghost.Update
    simp only [h, if_false]
    split_ifs <;> simp_all [move_mode, Ghost.stepMode]
  rw [key]
  refine ⟨rfl, ?_, ?_⟩
  · cases hp : pacman.PowerMode <;> cases hm : g.Mode <;> simp_all
  · cases hp : pacman.PowerMode <;> cases hm : g.Mode <;> simp_all

/-- Witness for `mode_transition`: a Frightened Blinky and an unpowered player. -/
theorem mode_transition_witness :
    ({ NewGhost GhostBlinky 14 11 with Mode := ModeFrightened } : Ghost).Mode ≠ ModeEaten ∧
    (({ NewGhost GhostBlinky 14 11 with Mode := ModeFrightened } : Ghost).Update
      NewMaze NewPacman 1).Mode = ModeChase :=
  ⟨by decide,
   (mode_transition { NewGhost GhostBlinky 14 11 with Mode := ModeFrightened }
      NewMaze NewPacman 1 (by decide)).1⟩

/-! ## The breadth-first search of `chooseReturnDirection` -/

theorem mem_allDirs (d : Direction) : d ∈ allDirs ↔ d ≠ DirNone := by
  cases d <;> simp [allDirs]

theorem toNat_le_four (d : Direction) : d.toNat ≤ 4 := by
  cases d <;> simp [Direction.toNat]

theorem toNat_pos (d : Direction) (h : d ≠ DirNone) : 1 ≤ d.toNat := by
  cases d <;> simp [Direction.toNat] at h ⊢

theorem toNat_inj (a c : Direction) (h : a.toNat = c.toNat) : a = c := by
  cases a <;> cases c <;> simp [Direction.toNat] at h ⊢

theorem reach_zero (m : Maze) (a c : Int × Int) : reach m 0 a c = true ↔ a = c := by
  simp [reach]

theorem reach_succ (m : Maze) (k : Nat) (a c : Int × Int) :
    reach m (k + 1) a c = true ↔
      ∃ d ∈ allDirs, ghostCell m (wrapStep m a d) = true ∧
        reach m k (wrapStep m a d) c = true := by
  simp [reach, List.any_eq_true]

/-- A path can be extended by one edge at its far end. -/
theorem reach_snoc (m : Maze) (k : Nat) : ∀ (a w : Int × Int) (d : Direction),
    reach m k a w = true → d ∈ allDirs → ghostCell m (wrapStep m w d) = true →
    reach m (k + 1) a (wrapStep m w d) = true := by
  induction k with
  | zero =>
    intro a w d h hd hw
    rw [reach_zero] at h
    subst h
    rw [reach_succ]
    exact ⟨d, hd, hw, (reach_zero _ _ _).2 rfl⟩
  | succ k ih =>
    intro a w d h hd hw
    rw [reach_succ] at h
    obtain ⟨d0, hd0, hw0, hr⟩ := h
    rw [reach_succ]
    exact ⟨d0, hd0, hw0, ih _ _ _ hr hd hw⟩

/-- A path of `k + 1` edges ends with an edge from a tile `k` edges away. -/
theorem reach_last (m : Maze) (k : Nat) : ∀ (a v : Int × Int),
    reach m (k + 1) a v = true →
    ∃ w d, reach m k a w = true ∧ d ∈ allDirs ∧ wrapStep m w d = v ∧
      ghostCell m v = true := by
  induction k with
  | zero =>
    intro a v h
    rw [reach_succ] at h
    obtain ⟨d, hd, hw, hr⟩ := h
    rw [reach_zero] at hr
    exact ⟨a, d, (reach_zero _ _ _).2 rfl, hd, hr, hr ▸ hw⟩
  | succ k ih =>
    intro a v h
    rw [reach_succ] at h
    obtain ⟨d0, hd0, hw0, hr⟩ := h
    obtain ⟨w, d, hrw, hd, hs, hv⟩ := ih _ _ hr
    exact ⟨w, d, (reach_succ _ _ _ _).2 ⟨d0, hd0, hw0, hrw⟩, hd, hs, hv⟩

theorem ghostCell_inbounds (m : Maze) (p : Int × Int) (h : ghostCell m p = true) :
    0 ≤ p.1 ∧ p.1 < m.Width ∧ 0 ≤ p.2 ∧ p.2 < m.Height := by
  unfold ghostCell Maze.IsWalkableForGhost Maze.GetCell at h
  by_contra hc
  have : p.2 < 0 ∨ p.2 ≥ m.Height ∨ p.1 < 0 ∨ p.1 ≥ m.Width := by omega
  simp [this] at h

/-- The visited keys are distinct tiles of the grid, the origin apart, so
there are at most `searchFuel` of them. -/
theorem visited_bound (m : Maze) (o : Int × Int) (visited : List (Int × Int))
    (hnd : visited.Nodup) (hok : ∀ p ∈ visited, p = o ∨ ghostCell m p = true) :
    visited.length ≤ searchFuel m := by
  have hsub : visited.toFinset ⊆
      insert o (Finset.Ico (0 : Int) m.Width ×ˢ Finset.Ico (0 : Int) m.Height) := by
    intro p hp
    rw [List.mem_toFinset] at hp
    rcases hok p hp with h | h
    · simp [h]
    · have hb := ghostCell_inbounds m p h
      simp [Finset.mem_product, hb.1, hb.2.1, hb.2.2.1, hb.2.2.2]
  have hcard := Finset.card_le_card hsub
  rw [List.toFinset_card_of_nodup hnd] at hcard
  have h2 := Finset.card_insert_le o
    (Finset.Ico (0 : Int) m.Width ×ˢ Finset.Ico (0 : Int) m.Height)
  rw [Finset.card_product, Int.card_Ico, Int.card_Ico] at h2
  simp only [sub_zero] at h2
  unfold searchFuel
  omega

theorem SearchInv.curr_le {m : Maze} {o : Int × Int} {doneL : List (Node × Nat)}
    {curr : Node} {kc : Nat} {queueL : List (Node × Nat)} {visited : List (Int × Int)}
    {ds : List Direction} {b : Nat}
    (h : SearchInv m o doneL curr kc queueL visited ds b) :
    ∀ e ∈ (curr, kc) :: queueL, key (curr, kc) ≤ key e := by
  intro e he
  have hs := h.sorted
  rw [List.pairwise_append] at hs
  have hs2 := hs.2.1
  rw [List.pairwise_cons] at hs2
  rcases List.mem_cons.1 he with rfl | he
  · exact le_refl _
  · exact hs2.1 e he

theorem SearchInv.origin_mem {m : Maze} {o : Int × Int} {doneL : List (Node × Nat)}
    {curr : Node} {kc : Nat} {queueL : List (Node × Nat)} {visited : List (Int × Int)}
    {ds : List Direction} {b : Nat}
    (h : SearchInv m o doneL curr kc queueL visited ds b) : o ∈ visited := by
  obtain ⟨rest, hr⟩ := h.origin
  rw [h.vis_iff]
  exact ⟨(({ x := o.1, y := o.2, firstDir := DirNone } : Node), 0),
    by rw [hr]; exact List.mem_cons_self _ _, rfl⟩

/-- Every tile closer to the origin than the entry being expanded has been
expanded already. -/
theorem SearchInv.done_of_lt {m : Maze} {o : Int × Int} {doneL : List (Node × Nat)}
    {curr : Node} {kc : Nat} {queueL : List (Node × Nat)} {visited : List (Int × Int)}
    {ds : List Direction} {b : Nat}
    (h : SearchInv m o doneL curr kc queueL visited ds b) :
    ∀ (j : Nat) (w : Int × Int), reach m j o w = true → j < kc →
      ∃ e ∈ doneL, e.1.pos = w := by
  intro j
  induction j with
  | zero =>
    intro w hw hlt
    rw [reach_zero] at hw
    subst hw
    obtain ⟨rest, hr⟩ := h.origin
    cases hd : doneL with
    | nil =>
      rw [hd] at hr
      simp only [List.nil_append, List.cons.injEq, Prod.mk.injEq] at hr
      omega
    | cons e0 es =>
      rw [hd] at hr
      simp only [List.cons_append, List.cons.injEq] at hr
      exact ⟨e0, List.mem_cons_self _ _, by rw [hr.1]; rfl⟩
  | succ j ih =>
    intro w hw hlt
    obtain ⟨w0, d, hr0, hd, hstep, hcell⟩ := reach_last m j o w hw
    obtain ⟨e0, he0, hp0⟩ := ih w0 hr0 (by omega)
    have hvis : w ∈ visited := by
      have := h.closed e0 he0 d hd (by rw [hp0, hstep]; exact hcell)
      rwa [hp0, hstep] at this
    obtain ⟨e, he, hpe⟩ := (h.vis_iff w).1 hvis
    rcases List.mem_append.1 he with he | he
    · exact ⟨e, he, hpe⟩
    · exfalso
      have hk := h.curr_le e he
      have hok := h.ok e (List.mem_append.2 (Or.inr he))
      have hle : e.2 ≤ j + 1 := by
        by_contra hc
        have := hok.2.1 (j + 1) (by omega)
        rw [hpe, hw] at this
        exact absurd this (by simp)
      have := toNat_le_four e.1.firstDir
      simp only [key] at hk
      omega

theorem expandDir_eq (m : Maze) (curr : Node) (q : List Node) (vis : List (Int × Int))
    (d : Direction) :
    expandDir m curr (q, vis) d =
      if wrapStep m curr.pos d ∈ vis ∨ ghostCell m (wrapStep m curr.pos d) = false then (q, vis)
      else (q ++ [childNode m curr d], wrapStep m curr.pos d :: vis) := rfl

theorem childDir_ne (curr : Node) (d : Direction) (hd : d ∈ allDirs) :
    childDir curr d ≠ DirNone := by
  unfold childDir
  split_ifs with h
  · exact (mem_allDirs d).1 hd
  · exact h

/-- The entry appended for a newly discovered tile has the right distance and
the earliest first move. -/
theorem SearchInv.new_ok {m : Maze} {o : Int × Int} {doneL : List (Node × Nat)}
    {curr : Node} {kc : Nat} {queueL : List (Node × Nat)} {visited : List (Int × Int)}
    {d : Direction} {ds : List Direction} {b : Nat}
    (h : SearchInv m o doneL curr kc queueL visited (d :: ds) b)
    (hnot : wrapStep m curr.pos d ∉ visited)
    (hcell : ghostCell m (wrapStep m curr.pos d) = true) :
    NodeOk m o (childNode m curr d, kc + 1) := by
  have hd : d ∈ allDirs := h.ds_sub d (List.mem_cons_self _ _)
  have hcurr : NodeOk m o (curr, kc) :=
    h.ok _ (List.mem_append.2 (Or.inr (List.mem_cons_self _ _)))
  have hpos : (childNode m curr d).pos = wrapStep m curr.pos d := rfl
  have hfdn : (childNode m curr d).firstDir = childDir curr d := rfl
  have hsorted := h.ds_sorted
  rw [List.pairwise_cons] at hsorted
  -- no tile expanded before has the new tile as a neighbour
  have hdone : ∀ e ∈ doneL, ∀ d2 ∈ allDirs, wrapStep m e.1.pos d2 ≠ wrapStep m curr.pos d := by
    intro e he d2 hd2 heq
    exact hnot (heq ▸ h.closed e he d2 hd2 (by rw [heq]; exact hcell))
  have hmin : ∀ j, j < kc + 1 → reach m j o (wrapStep m curr.pos d) = false := by
    intro j hj
    by_contra hc
    have hr : reach m j o (wrapStep m curr.pos d) = true := by simpa using hc
    cases j with
    | zero =>
      rw [reach_zero] at hr
      exact hnot (hr ▸ h.origin_mem)
    | succ j =>
      obtain ⟨w, d2, hrw, hd2, hstep, -⟩ := reach_last m j o _ hr
      obtain ⟨e, he, hpe⟩ := h.done_of_lt j w hrw (by omega)
      exact hdone e he d2 hd2 (by rw [hpe, hstep])
  refine ⟨?_, ?_, ?_, ?_⟩
  · rw [hpos]
    exact reach_snoc m kc o curr.pos d hcurr.1 hd hcell
  · rw [hpos]; exact hmin
  · intro hnone
    exact absurd hnone (childDir_ne curr d hd)
  · intro _
    simp only [hpos, hfdn, Nat.add_sub_cancel]
    refine ⟨by omega, ?_, ?_⟩
    · -- the recorded direction starts a path of kc + 1 edges
      by_cases hfd : curr.firstDir = DirNone
      · have hk0 : kc = 0 := hcurr.2.2.1 hfd
        have ho : o = curr.pos := by
          have := hcurr.1
          rw [hk0, reach_zero] at this
          exact this
        simp only [childDir, hfd, if_true, hk0]
        rw [ho]
        exact ⟨hcell, (reach_zero _ _ _).2 rfl⟩
      · obtain ⟨hk1, hvia, -⟩ := hcurr.2.2.2 hfd
        simp only [childDir, hfd, if_false]
        refine ⟨hvia.1, ?_⟩
        have := reach_snoc m (kc - 1) _ curr.pos d hvia.2 hd hcell
        rwa [Nat.sub_add_cancel hk1] at this
    · -- and no earlier direction does
      intro d1 hd1 hvia1
      by_cases hfd : curr.firstDir = DirNone
      · have hk0 : kc = 0 := hcurr.2.2.1 hfd
        have ho : o = curr.pos := by
          have := hcurr.1
          rw [hk0, reach_zero] at this
          exact this
        simp only [childDir, hfd, if_true]
        by_contra hlt
        have hlt : d1.toNat < d.toNat := by omega
        have hnd : d1 ∉ d :: ds := by
          intro hm
          rcases List.mem_cons.1 hm with rfl | hm
          · omega
          · have := hsorted.1 d1 hm
            omega
        have heq : wrapStep m curr.pos d1 = wrapStep m curr.pos d := by
          have := hvia1.2
          rw [hk0, reach_zero, ho] at this
          exact this
        exact hnot (heq ▸ h.closedCurr d1 hd1 hnd (by rw [heq]; exact hcell))
      · obtain ⟨hk1, -, hminc⟩ := hcurr.2.2.2 hfd
        simp only [childDir, hfd, if_false]
        obtain ⟨kp, rfl⟩ : ∃ kp, kc = kp + 1 := ⟨kc - 1, by omega⟩
        simp only [Nat.add_sub_cancel] at hminc
        obtain ⟨w, d2, hrw, hd2, hstep, -⟩ := reach_last m kp _ _ hvia1.2
        -- `w` lies at distance `kp + 1`, one edge before the new tile
        have hrow : reach m (kp + 1) o w = true :=
          (reach_succ _ _ _ _).2 ⟨d1, hd1, hvia1.1, hrw⟩
        have hwnot : ∀ e ∈ doneL, e.1.pos ≠ w := by
          intro e he hpe
          exact hdone e he d2 hd2 (by rw [hpe, hstep])
        obtain ⟨w0, d3, hr0, hd3, hstep0, hcw⟩ := reach_last m kp o w hrow
        obtain ⟨e0, he0, hp0⟩ := h.done_of_lt kp w0 hr0 (by omega)
        have hwvis : w ∈ visited := by
          have := h.closed e0 he0 d3 hd3 (by rw [hp0, hstep0]; exact hcw)
          rwa [hp0, hstep0] at this
        obtain ⟨e, he, hpe⟩ := (h.vis_iff w).1 hwvis
        rcases List.mem_append.1 he with he | he
        · exact absurd hpe (hwnot e he)
        · have hkey := h.curr_le e he
          have hok := h.ok e (List.mem_append.2 (Or.inr he))
          have hle : e.2 ≤ kp + 1 := by
            by_contra hc
            have := hok.2.1 (kp + 1) (by omega)
            rw [hpe, hrow] at this
            exact absurd this (by simp)
          have h4 := toNat_le_four e.1.firstDir
          simp only [key] at hkey
          have hek : e.2 = kp + 1 := by omega
          have hfe : e.1.firstDir ≠ DirNone := by
            intro hn
            have := hok.2.2.1 hn
            omega
          have hmine := (hok.2.2.2 hfe).2.2 d1 hd1 (by
            rw [hek, Nat.add_sub_cancel, hpe]; exact ⟨hvia1.1, hrw⟩)
          omega

/-- One iteration of the neighbour loop preserves the invariant. -/
theorem SearchInv.expand_step {m : Maze} {o : Int × Int} {doneL : List (Node × Nat)}
    {curr : Node} {kc : Nat} {queueL : List (Node × Nat)} {visited : List (Int × Int)}
    {d : Direction} {ds : List Direction} {b : Nat}
    (h : SearchInv m o doneL curr kc queueL visited (d :: ds) b) :
    ∃ queueL2 visited2 b2,
      expandDir m curr (queueL.map Prod.fst, visited) d = (queueL2.map Prod.fst, visited2) ∧
      SearchInv m o doneL curr kc queueL2 visited2 ds b2 := by
  have hd : d ∈ allDirs := h.ds_sub d (List.mem_cons_self _ _)
  have hsorted := h.ds_sorted
  rw [List.pairwise_cons] at hsorted
  by_cases hskip : wrapStep m curr.pos d ∈ visited ∨ ghostCell m (wrapStep m curr.pos d) = false
  · refine ⟨queueL, visited, b, by rw [expandDir_eq, if_pos hskip], ?_⟩
    exact
      { vis_iff := h.vis_iff
        vis_nodup := h.vis_nodup
        vis_len := h.vis_len
        vis_ok := h.vis_ok
        origin := h.origin
        ok := h.ok
        sorted := h.sorted
        closed := h.closed
        closedCurr := by
          intro d1 hd1 hnd hc
          by_cases heq : d1 = d
          · subst heq
            rcases hskip with hv | hv
            · exact hv
            · rw [hc] at hv; exact absurd hv (by simp)
          · exact h.closedCurr d1 hd1 (by simp [heq, hnd]) hc
        bound := h.bound
        b_le := h.b_le
        b_eq := h.b_eq
        ds_sub := fun d1 hd1 => h.ds_sub d1 (List.mem_cons_of_mem _ hd1)
        ds_sorted := hsorted.2
        ds_b := fun d1 hd1 => h.ds_b d1 (List.mem_cons_of_mem _ hd1)
        fd_ne := h.fd_ne }
  · have hnot : wrapStep m curr.pos d ∉ visited := fun hv => hskip (Or.inl hv)
    have hcell : ghostCell m (wrapStep m curr.pos d) = true := by
      cases hc : ghostCell m (wrapStep m curr.pos d)
      · exact absurd (Or.inr hc) hskip
      · rfl
    have hnew := h.new_ok hnot hcell
    have hE : doneL ++ (curr, kc) ::
        (queueL ++ [(childNode m curr d, kc + 1)]) =
        (doneL ++ (curr, kc) :: queueL) ++
          [(childNode m curr d, kc + 1)] := by simp
    have hbb : b ≤ (childDir curr d).toNat := h.ds_b d (List.mem_cons_self _ _)
    refine ⟨queueL ++ [(childNode m curr d, kc + 1)],
      wrapStep m curr.pos d :: visited, (childDir curr d).toNat,
      by rw [expandDir_eq, if_neg hskip]; simp, ?_⟩
    exact
      { vis_iff := by
          intro p
          rw [hE]
          constructor
          · intro hp
            rcases List.mem_cons.1 hp with rfl | hp
            · exact ⟨_, List.mem_append.2 (Or.inr (List.mem_singleton.2 rfl)), rfl⟩
            · obtain ⟨e, he, hpe⟩ := (h.vis_iff p).1 hp
              exact ⟨e, List.mem_append.2 (Or.inl he), hpe⟩
          · rintro ⟨e, he, hpe⟩
            rcases List.mem_append.1 he with he | he
            · exact List.mem_cons_of_mem _ ((h.vis_iff p).2 ⟨e, he, hpe⟩)
            · rw [List.mem_singleton] at he
              subst he
              exact hpe ▸ List.mem_cons_self _ _
        vis_nodup := List.nodup_cons.2 ⟨hnot, h.vis_nodup⟩
        vis_len := by simp [h.vis_len]; omega
        vis_ok := by
          intro p hp
          rcases List.mem_cons.1 hp with rfl | hp
          · exact Or.inr hcell
          · exact h.vis_ok p hp
        origin := by
          obtain ⟨rest, hr⟩ := h.origin
          exact ⟨rest ++ [(childNode m curr d, kc + 1)],
            by rw [hE, hr]; rfl⟩
        ok := by
          intro e he
          rw [hE] at he
          rcases List.mem_append.1 he with he | he
          · exact h.ok e he
          · rw [List.mem_singleton] at he; subst he; exact hnew
        sorted := by
          rw [hE, List.pairwise_append]
          refine ⟨h.sorted, List.pairwise_singleton _ _, ?_⟩
          intro a ha c hc
          rw [List.mem_singleton] at hc; subst hc
          have := h.bound a ha
          have hfdn : (childNode m curr d).firstDir = childDir curr d := rfl
          simp only [key, hfdn] at this ⊢
          omega
        closed := fun e he d1 hd1 hc => List.mem_cons_of_mem _ (h.closed e he d1 hd1 hc)
        closedCurr := by
          intro d1 hd1 hnd hc
          by_cases heq : d1 = d
          · subst heq; exact List.mem_cons_self _ _
          · exact List.mem_cons_of_mem _ (h.closedCurr d1 hd1 (by simp [heq, hnd]) hc)
        bound := by
          intro e he
          rw [hE] at he
          rcases List.mem_append.1 he with he | he
          · have := h.bound e he
            omega
          · rw [List.mem_singleton] at he; subst he
            have hfdn : (childNode m curr d).firstDir = childDir curr d := rfl
            simp only [key, hfdn]; omega
        b_le := toNat_le_four _
        b_eq := by
          intro hfd
          simp [childDir, hfd]
        ds_sub := fun d1 hd1 => h.ds_sub d1 (List.mem_cons_of_mem _ hd1)
        ds_sorted := hsorted.2
        ds_b := by
          intro d1 hd1
          unfold childDir
          split_ifs
          · exact le_of_lt (hsorted.1 d1 hd1)
          · exact le_refl _
        fd_ne := by
          intro e he
          rcases List.mem_append.1 he with he | he
          · exact h.fd_ne e he
          · rw [List.mem_singleton] at he; subst he
            exact childDir_ne curr d hd }

/-- The whole neighbour loop preserves the invariant. -/
theorem SearchInv.expand_all {m : Maze} {o : Int × Int} {doneL : List (Node × Nat)}
    {curr : Node} {kc : Nat} (ds : List Direction) :
    ∀ (queueL : List (Node × Nat)) (visited : List (Int × Int)) (b : Nat),
      SearchInv m o doneL curr kc queueL visited ds b →
      ∃ queueL2 visited2 b2,
        ds.foldl (expandDir m curr) (queueL.map Prod.fst, visited)
          = (queueL2.map Prod.fst, visited2) ∧
        SearchInv m o doneL curr kc queueL2 visited2 [] b2 := by
  induction ds with
  | nil => intro queueL visited b h; exact ⟨queueL, visited, b, rfl, h⟩
  | cons d ds ih =>
    intro queueL visited b h
    obtain ⟨q1, v1, b1, heq, h1⟩ := h.expand_step
    obtain ⟨q2, v2, b2, heq2, h2⟩ := ih q1 v1 b1 h1
    exact ⟨q2, v2, b2, by rw [List.foldl_cons, heq, heq2], h2⟩

/-- Once the queue is empty, every tile reachable from the origin is visited. -/
theorem SearchInv.closure_reach {m : Maze} {o : Int × Int} {doneL : List (Node × Nat)}
    {curr : Node} {kc : Nat} {visited : List (Int × Int)} {b : Nat}
    (h : SearchInv m o doneL curr kc [] visited [] b) :
    ∀ (j : Nat) (w : Int × Int), reach m j o w = true → w ∈ visited := by
  intro j
  induction j with
  | zero =>
    intro w hw
    rw [reach_zero] at hw
    exact hw ▸ h.origin_mem
  | succ j ih =>
    intro w hw
    obtain ⟨w0, d, hr0, hd, hstep, hcell⟩ := reach_last m j o w hw
    obtain ⟨e, he, hpe⟩ := (h.vis_iff w0).1 (ih w0 hr0)
    rcases List.mem_append.1 he with he | he
    · have := h.closed e he d hd (by rw [hpe, hstep]; exact hcell)
      rwa [hpe, hstep] at this
    · rw [List.mem_singleton] at he
      subst he
      have := h.closedCurr d hd (List.not_mem_nil d) (by rw [hpe, hstep]; exact hcell)
      rwa [hpe, hstep] at this

/-- When the neighbour loop is over, the invariant holds for the next entry of
the queue. -/
theorem SearchInv.next {m : Maze} {o : Int × Int} {doneL : List (Node × Nat)}
    {curr : Node} {kc : Nat} {hn : Node} {kh : Nat} {rest : List (Node × Nat)}
    {visited : List (Int × Int)} {b : Nat}
    (h : SearchInv m o doneL curr kc ((hn, kh) :: rest) visited [] b) :
    SearchInv m o (doneL ++ [(curr, kc)]) hn kh rest visited allDirs hn.firstDir.toNat := by
  have hE : (doneL ++ [(curr, kc)]) ++ (hn, kh) :: rest
      = doneL ++ (curr, kc) :: (hn, kh) :: rest := by simp
  have hfh : hn.firstDir ≠ DirNone := h.fd_ne (hn, kh) (List.mem_cons_self _ _)
  have hokh : NodeOk m o (hn, kh) :=
    h.ok _ (List.mem_append.2 (Or.inr (List.mem_cons_of_mem _ (List.mem_cons_self _ _))))
  have hokc : NodeOk m o (curr, kc) :=
    h.ok _ (List.mem_append.2 (Or.inr (List.mem_cons_self _ _)))
  have hkey : key (curr, kc) ≤ key (hn, kh) :=
    h.curr_le _ (List.mem_cons_of_mem _ (List.mem_cons_self _ _))
  exact
    { vis_iff := by intro p; rw [hE]; exact h.vis_iff p
      vis_nodup := h.vis_nodup
      vis_len := by
        have := h.vis_len
        simp only [List.length_cons, List.length_append, List.length_nil] at this ⊢
        omega
      vis_ok := h.vis_ok
      origin := by rw [hE]; exact h.origin
      ok := by intro e he; rw [hE] at he; exact h.ok e he
      sorted := by rw [hE]; exact h.sorted
      closed := by
        intro e he d hd hc
        rcases List.mem_append.1 he with he | he
        · exact h.closed e he d hd hc
        · rw [List.mem_singleton] at he
          subst he
          exact h.closedCurr d hd (List.not_mem_nil d) hc
      closedCurr := fun d hd hnd _ => absurd hd hnd
      bound := by
        intro e he
        rw [hE] at he
        have hb := h.bound e he
        have hble := h.b_le
        have h1 := (hokh.2.2.2 hfh).1
        have h2 := toNat_pos hn.firstDir hfh
        simp only [key] at hkey hb ⊢
        by_cases hfc : curr.firstDir = DirNone
        · have := hokc.2.2.1 hfc
          simp only at this h1
          omega
        · have := h.b_eq hfc
          omega
      b_le := toNat_le_four _
      b_eq := fun _ => rfl
      ds_sub := fun d hd => hd
      ds_sorted := by decide
      ds_b := by
        intro d _
        simp [childDir, hfh]
      fd_ne := fun e he => h.fd_ne e (List.mem_cons_of_mem _ he) }

/-- The invariant holds when the loop is entered. -/
theorem SearchInv.init (m : Maze) (o : Int × Int) :
    SearchInv m o [] { x := o.1, y := o.2, firstDir := DirNone } 0 [] [o] allDirs 0 :=
  { vis_iff := by
      intro p
      simp only [List.mem_singleton, List.nil_append]
      constructor
      · rintro rfl; exact ⟨_, rfl, rfl⟩
      · rintro ⟨e, rfl, hpe⟩; exact hpe.symm
    vis_nodup := List.nodup_singleton o
    vis_len := rfl
    vis_ok := by
      intro p hp
      rw [List.mem_singleton] at hp
      exact Or.inl hp
    origin := ⟨[], rfl⟩
    ok := by
      intro e he
      simp only [List.nil_append, List.mem_singleton] at he
      subst he
      refine ⟨(reach_zero _ _ _).2 rfl, ?_, fun _ => rfl, fun hne => absurd rfl hne⟩
      intro j hj
      exact absurd hj (Nat.not_lt_zero j)
    sorted := by simp
    closed := by intro e he; exact absurd he (List.not_mem_nil e)
    closedCurr := fun d hd hnd _ => absurd hd hnd
    bound := by
      intro e he
      simp only [List.nil_append, List.mem_singleton] at he
      subst he
      simp [key, Direction.toNat]
    b_le := by omega
    b_eq := fun hne => absurd rfl hne
    ds_sub := fun d hd => hd
    ds_sorted := by decide
    ds_b := fun d _ => Nat.zero_le _
    fd_ne := by intro e he; exact absurd he (List.not_mem_nil e) }

/-- The loop of the search, started in a state that satisfies the invariant
with enough iterations left, returns a direction: the earliest first move
among the shortest paths from the origin `o` to the target `t`. -/
theorem search_loop (m : Maze) (o t : Int × Int) (k : Nat) (hne : o ≠ t)
    (hk : reach m k o t = true) :
    ∀ (fuel : Nat) (doneL : List (Node × Nat)) (curr : Node) (kc : Nat)
      (queueL : List (Node × Nat)) (visited : List (Int × Int)),
      SearchInv m o doneL curr kc queueL visited allDirs curr.firstDir.toNat →
      (∀ e ∈ doneL, e.1.pos ≠ t) → searchFuel m ≤ fuel + doneL.length →
      ∃ d kt, bfsLoop m t.1 t.2 fuel (curr :: queueL.map Prod.fst) visited = some (some d) ∧
        d ≠ DirNone ∧ NodeOk m o (({ x := t.1, y := t.2, firstDir := d } : Node), kt) := by
  intro fuel
  induction fuel with
  | zero =>
    intro doneL curr kc queueL visited h _ hfuel
    have := visited_bound m o visited h.vis_nodup h.vis_ok
    have := h.vis_len
    omega
  | succ fuel ih =>
    intro doneL curr kc queueL visited h hT hfuel
    have hokc : NodeOk m o (curr, kc) :=
      h.ok _ (List.mem_append.2 (Or.inr (List.mem_cons_self _ _)))
    by_cases htgt : curr.x = t.1 ∧ curr.y = t.2
    · have hpos : curr.pos = t := Prod.ext htgt.1 htgt.2
      have hfd : curr.firstDir ≠ DirNone := by
        intro hn
        have h0 := hokc.2.2.1 hn
        have hr := hokc.1
        simp only at h0 hr
        rw [h0, reach_zero, hpos] at hr
        exact hne hr
      refine ⟨curr.firstDir, kc, ?_, hfd, ?_⟩
      · simp [bfsLoop, htgt, hfd]
      · have hc : (({ x := t.1, y := t.2, firstDir := curr.firstDir } : Node), kc)
            = (curr, kc) := by
          cases curr
          simp only [Node.mk.injEq, Prod.mk.injEq] at htgt ⊢
          simp [htgt.1, htgt.2]
        rw [hc]; exact hokc
    · obtain ⟨q2, v2, b2, heq, h2⟩ := SearchInv.expand_all allDirs queueL visited _ h
      have hstep : bfsLoop m t.1 t.2 (fuel + 1) (curr :: queueL.map Prod.fst) visited
          = bfsLoop m t.1 t.2 fuel (q2.map Prod.fst) v2 := by
        simp only [bfsLoop, htgt, if_false, heq]
      rw [hstep]
      have hposc : curr.pos ≠ t := by
        intro hp
        apply htgt
        have h1 : curr.pos.1 = t.1 := by rw [hp]
        have h2 : curr.pos.2 = t.2 := by rw [hp]
        exact ⟨h1, h2⟩
      cases q2 with
      | nil =>
        exfalso
        have htv := h2.closure_reach k t hk
        obtain ⟨e, he, hpe⟩ := (h2.vis_iff t).1 htv
        rcases List.mem_append.1 he with he | he
        · exact hT e he hpe
        · rw [List.mem_singleton] at he
          subst he
          exact hposc hpe
      | cons e rest =>
        obtain ⟨hn, kh⟩ := e
        have h3 := h2.next
        exact ih (doneL ++ [(curr, kc)]) hn kh rest v2 h3
          (by
            intro e he
            rcases List.mem_append.1 he with he | he
            · exact hT e he
            · rw [List.mem_singleton] at he
              subst he
              exact hposc)
          (by simp only [List.length_append, List.length_cons, List.length_nil]; omega)

/-- The iteration bound of the model is never hit: from an invariant state
with `searchFuel` iterations granted, the loop ends by itself. -/
theorem search_loop_ends (m : Maze) (o t : Int × Int) :
    ∀ (fuel : Nat) (doneL : List (Node × Nat)) (curr : Node) (kc : Nat)
      (queueL : List (Node × Nat)) (visited : List (Int × Int)),
      SearchInv m o doneL curr kc queueL visited allDirs curr.firstDir.toNat →
      searchFuel m ≤ fuel + doneL.length →
      bfsLoop m t.1 t.2 fuel (curr :: queueL.map Prod.fst) visited ≠ none := by
  intro fuel
  induction fuel with
  | zero =>
    intro doneL curr kc queueL visited h hfuel
    have := visited_bound m o visited h.vis_nodup h.vis_ok
    have := h.vis_len
    omega
  | succ fuel ih =>
    intro doneL curr kc queueL visited h hfuel
    by_cases htgt : curr.x = t.1 ∧ curr.y = t.2
    · simp only [bfsLoop, htgt, and_self, if_true]
      split_ifs <;> simp
    · obtain ⟨q2, v2, b2, heq, h2⟩ := SearchInv.expand_all allDirs queueL visited _ h
      have hstep : bfsLoop m t.1 t.2 (fuel + 1) (curr :: queueL.map Prod.fst) visited
          = bfsLoop m t.1 t.2 fuel (q2.map Prod.fst) v2 := by
        simp only [bfsLoop, htgt, if_false, heq]
      rw [hstep]
      cases q2 with
      | nil => simp [bfsLoop]
      | cons e rest =>
        obtain ⟨hn, kh⟩ := e
        exact ih (doneL ++ [(curr, kc)]) hn kh rest v2 h2.next
          (by simp only [List.length_append, List.length_cons, List.length_nil]; omega)

/-- The search of `chooseReturnDirection` always leaves its loop within the
iterations the model grants, whatever the maze, origin and target. -/
theorem bfsLoop_fuel (m : Maze) (x y targetX targetY : Int) :
    bfsLoop m targetX targetY (searchFuel m)
      [{ x := x, y := y, firstDir := DirNone }] [(x, y)] ≠ none :=
  search_loop_ends m (x, y) (targetX, targetY) (searchFuel m) [] _ 0 [] [(x, y)]
    (SearchInv.init m (x, y)) (by simp)

/-- C8. In the graph of pursuer-walkable cells with the four cardinal steps
and horizontal wrap, when the target lies at distance `k` from an origin
different from it, `chooseReturnDirection` returns a direction whose wrapped
neighbour is walkable and lies at distance `k - 1` from the target, and no
direction earlier in the order Up, Down, Left, Right has that property. -/
theorem pathfinder_optimal (g : Ghost) (maze : Maze) (targetX targetY : Int) (k : Nat)
    (hne : (g.X, g.Y) ≠ (targetX, targetY))
    (hreach : reach maze k (g.X, g.Y) (targetX, targetY) = true)
    (hmin : ∀ j, j < k → reach maze j (g.X, g.Y) (targetX, targetY) = false) :
    g.chooseReturnDirection maze targetX targetY ∈ allDirs ∧
    ghostCell maze (wrapStep maze (g.X, g.Y)
      (g.chooseReturnDirection maze targetX targetY)) = true ∧
    reach maze (k - 1) (wrapStep maze (g.X, g.Y)
      (g.chooseReturnDirection maze targetX targetY)) (targetX, targetY) = true ∧
    (∀ j, j < k - 1 → reach maze j (wrapStep maze (g.X, g.Y)
      (g.chooseReturnDirection maze targetX targetY)) (targetX, targetY) = false) ∧
    (∀ d ∈ allDirs, ghostCell maze (wrapStep maze (g.X, g.Y) d) = true →
      reach maze (k - 1) (wrapStep maze (g.X, g.Y) d) (targetX, targetY) = true →
      (g.chooseReturnDirection maze targetX targetY).toNat ≤ d.toNat) := by
  obtain ⟨d, kt, hloop, hd, hok⟩ :=
    search_loop maze (g.X, g.Y) (targetX, targetY) k hne hreach (searchFuel maze) [] _ 0 []
      [(g.X, g.Y)] (SearchInv.init maze (g.X, g.Y))
      (by intro e he; exact absurd he (List.not_mem_nil e)) (by simp)
  have hres : g.chooseReturnDirection maze targetX targetY = d := by
    unfold Ghost.chooseReturnDirection
    simp only [List.map_nil] at hloop
    rw [hloop]
  rw [hres]
  have hpos : (({ x := targetX, y := targetY, firstDir := d } : Node)).pos
      = (targetX, targetY) := rfl
  obtain ⟨hr, hm, -, hrest⟩ := hok
  simp only [hpos] at hr hm hrest
  -- the distance found by the search is the distance `k`
  have hkt : kt = k := by
    rcases Nat.lt_trichotomy kt k with hlt | heq | hgt
    · have := hmin kt hlt
      rw [hr] at this
      exact absurd this (by simp)
    · exact heq
    · have := hm k hgt
      rw [hreach] at this
      exact absurd this (by simp)
  subst hkt
  obtain ⟨hk1, hvia, hminDir⟩ := hrest hd
  refine ⟨(mem_allDirs d).2 hd, hvia.1, hvia.2, ?_, ?_⟩
  · intro j hj
    by_contra hc
    have hrj : reach maze j (wrapStep maze (g.X, g.Y) d) (targetX, targetY) = true := by
      simpa using hc
    have := hmin (j + 1) (by omega)
    rw [(reach_succ _ _ _ _).2 ⟨d, (mem_allDirs d).2 hd, hvia.1, hrj⟩] at this
    exact absurd this (by simp)
  · intro d1 hd1 hc1 hr1
    exact hminDir d1 hd1 ⟨hc1, hr1⟩

/-- Witness for `pathfinder_optimal`: in the fixed maze the home entrance
(14,11) lies two edges from (12,11). -/
theorem pathfinder_optimal_witness :
    ((12 : Int), (11 : Int)) ≠ (14, 11) ∧
    reach NewMaze 2 (12, 11) (14, 11) = true ∧
    (NewGhost GhostPinky 12 11).chooseReturnDirection NewMaze 14 11 ∈ allDirs ∧
    reach NewMaze (2 - 1) (wrapStep NewMaze (12, 11)
      ((NewGhost GhostPinky 12 11).chooseReturnDirection NewMaze 14 11)) (14, 11) = true :=
  have h := pathfinder_optimal (NewGhost GhostPinky 12 11) NewMaze 14 11 2
    (by decide) (by decide) (by decide)
  ⟨by decide, by decide, h.1, h.2.2.1⟩

/-! ## The return of an Eaten pursuer -/

theorem tunnel_search :
    bfsLoop NewMaze 14 11 (searchFuel NewMaze)
      [{ x := 0, y := 14, firstDir := DirNone }] [(0, 14)] = some (some DirLeft) := by
  decide

theorem tunnel_step (g : Ghost) (pac : Pacman) (level : Int)
    (hm : g.Mode = ModeEaten) (hx : g.X = 0) (hy : g.Y = 14)
    (htx : g.TargetX = 14) (hty : g.TargetY = 11) :
    (g.Update NewMaze pac level).Mode = ModeEaten ∧ (g.Update NewMaze pac level).X = 0 ∧
    (g.Update NewMaze pac level).Y = 14 ∧ (g.Update NewMaze pac level).TargetX = 14 ∧
    (g.Update NewMaze pac level).TargetY = 11 := by
  have hdir : ∀ g2 : Ghost, g2.X = 0 → g2.Y = 14 →
      g2.chooseReturnDirection NewMaze 14 11 = DirLeft := by
    intro g2 h1 h2
    unfold Ghost.chooseReturnDirection
    rw [h1, h2, tunnel_search]
  have hwall : NewMaze.IsWalkableForGhost (-1) 14 = false := by decide
  unfold Ghost.Update
  simp only [hm, if_true]
  unfold Ghost.updateEaten
  simp only [hx, hy, htx, hty]
  rw [if_neg (by decide)]
  split_ifs with h1 h2
  · exact ⟨rfl, rfl, rfl, rfl, rfl⟩
  · exfalso
    rw [hdir _ rfl rfl] at h2
    simp [Ghost.getNextPos, nextPos, hwall] at h2
  · exact ⟨rfl, rfl, rfl, rfl, rfl⟩

/-- C9, evaluated on the failing input: (0,14) is pursuer-walkable and the
search finds a path from it to the home entrance (14,11), its first move being
Left through the tunnel; `Ghost.Update` takes that step without wrap, onto the
wall outside the grid, so the pursuer stays Eaten on (0,14) after any number
of ticks, whatever the player and the level. -/
theorem eyes_stuck_in_tunnel :
    ghostCell NewMaze (0, 14) = true ∧
    bfsLoop NewMaze 14 11 (searchFuel NewMaze)
      [{ x := 0, y := 14, firstDir := DirNone }] [(0, 14)] = some (some DirLeft) ∧
    ∀ ticks : List (Pacman × Int),
      (runGhost tunnelEyes ticks).Mode = ModeEaten ∧ (runGhost tunnelEyes ticks).X = 0 ∧
      (runGhost tunnelEyes ticks).Y = 14 := by
  refine ⟨by decide, tunnel_search, ?_⟩
  have hgen : ∀ (ticks : List (Pacman × Int)) (g : Ghost),
      g.Mode = ModeEaten → g.X = 0 → g.Y = 14 → g.TargetX = 14 → g.TargetY = 11 →
      (runGhost g ticks).Mode = ModeEaten ∧ (runGhost g ticks).X = 0 ∧
      (runGhost g ticks).Y = 14 := by
    intro ticks
    induction ticks with
    | nil => intro g hm hx hy _ _; exact ⟨hm, hx, hy⟩
    | cons t ts ih =>
      intro g hm hx hy htx hty
      obtain ⟨h1, h2, h3, h4, h5⟩ := tunnel_step g t.1 t.2 hm hx hy htx hty
      exact ih _ h1 h2 h3 h4 h5
  intro ticks
  exact hgen ticks tunnelEyes rfl rfl rfl rfl rfl

/-! ## The maze and its pellets -/

/-- C20. For every maze and all integers x, y: `IsWalkable` and
`IsWalkableForGhost` agree unless the cell is GhostDoor, where `IsWalkable` is
false and `IsWalkableForGhost` is true. -/
theorem walkable_agree (m : Maze) (x y : Int) :
    (m.GetCell x y ≠ CellGhostDoor → m.IsWalkable x y = m.IsWalkableForGhost x y) ∧
    (m.GetCell x y = CellGhostDoor →
      m.IsWalkable x y = false ∧ m.IsWalkableForGhost x y = true) ∧
    (m.IsWalkable x y ≠ m.IsWalkableForGhost x y ↔ m.GetCell x y = CellGhostDoor) := by
  unfold Maze.IsWalkable Maze.IsWalkableForGhost
  by_cases h : m.GetCell x y = CellGhostDoor
  · simp [h, CellGhostDoor, CellWall]
  · simp [h]

theorem setCell_frame (m : Maze) (x y : Int) (c : CellType) :
    (m.SetCell x y c).Width = m.Width ∧ (m.SetCell x y c).Height = m.Height ∧
    (m.SetCell x y c).TotalPellets = m.TotalPellets ∧
    (m.SetCell x y c).RemainingPellets = m.RemainingPellets ∧
    (m.SetCell x y c).Cells.length = m.Cells.length := by
  unfold Maze.SetCell
  split_ifs <;> simp

/-- A cell that does not read as Wall is stored in the grid. -/
theorem getCell_stored (m : Maze) (x y : Int) (h : m.GetCell x y ≠ CellWall) :
    (0 ≤ y ∧ y < m.Height ∧ 0 ≤ x ∧ x < m.Width) ∧ y.toNat < m.Cells.length ∧
    x.toNat < (m.Cells.getD y.toNat []).length := by
  unfold Maze.GetCell at h
  by_cases hb : y < 0 ∨ y ≥ m.Height ∨ x < 0 ∨ x ≥ m.Width
  · simp [hb] at h
  · rw [if_neg hb] at h
    refine ⟨by omega, ?_, ?_⟩
    · by_contra hc
      apply h
      simp [List.getD_eq_getElem?_getD, List.getElem?_eq_none (not_lt.mp hc)]
    · by_contra hc
      apply h
      rw [List.getD_eq_getElem?_getD (m.Cells.getD y.toNat []),
        List.getElem?_eq_none (not_lt.mp hc)]
      rfl

/-- `SetCell` leaves every other cell as it was. -/
theorem getCell_setCell_ne (m : Maze) (x y : Int) (c : CellType) (x2 y2 : Int)
    (h : ¬ (x2 = x ∧ y2 = y)) : (m.SetCell x y c).GetCell x2 y2 = m.GetCell x2 y2 := by
  unfold Maze.SetCell
  split_ifs with hb
  · unfold Maze.GetCell
    simp only []
    split_ifs with hb2
    · rfl
    · simp only [List.getD_eq_getElem?_getD, List.getElem?_set]
      have hb2' : 0 ≤ y2 ∧ 0 ≤ x2 := by omega
      by_cases hy : y.toNat = y2.toNat
      · have hyy : y2 = y := by omega
        have hxx : ¬ x.toNat = x2.toNat := by
          intro hx
          apply h
          exact ⟨by omega, hyy⟩
        rw [if_pos hy]
        split_ifs with hl
        · simp only [Option.getD_some, List.getElem?_set, hxx, if_false, hy]
        · rw [← hy]
          have : m.Cells[y.toNat]? = none := List.getElem?_eq_none (not_lt.mp hl)
          simp [this]
      · rw [if_neg hy]
  · rfl

/-- `SetCell` on a stored cell makes it read as the new kind. -/
theorem getCell_setCell_self (m : Maze) (x y : Int) (c : CellType)
    (hb : 0 ≤ y ∧ y < m.Height ∧ 0 ≤ x ∧ x < m.Width) (hy : y.toNat < m.Cells.length)
    (hx : x.toNat < (m.Cells.getD y.toNat []).length) :
    (m.SetCell x y c).GetCell x y = c := by
  unfold Maze.SetCell
  rw [if_pos (by omega)]
  unfold Maze.GetCell
  simp only []
  rw [if_neg (by omega)]
  simp only [List.getD_eq_getElem?_getD, List.getElem?_set, if_true, hy, Option.getD_some]
  simp only [List.getD_eq_getElem?_getD] at hx
  simp [hx]

theorem sum_map_set {α : Type} (f : α → Nat) (l : List α) :
    ∀ (i : Nat) (a : α) (h : i < l.length),
      ((l.set i a).map f).sum + f (l.get ⟨i, h⟩) = (l.map f).sum + f a := by
  induction l with
  | nil => intro i a h; simp at h
  | cons x xs ih =>
    intro i a h
    cases i with
    | zero => simp; omega
    | succ i =>
      simp only [List.length_cons, Nat.add_lt_add_iff_right] at h
      have := ih i a h
      simp only [List.set_cons_succ, List.map_cons, List.sum_cons, List.get_cons_succ] at this ⊢
      omega

theorem rowPellets_set (row : List CellType) (i : Nat) (h : i < row.length)
    (hp : row.get ⟨i, h⟩ = CellPellet ∨ row.get ⟨i, h⟩ = CellPowerPellet) :
    rowPellets (row.set i CellEmpty) + 1 = rowPellets row := by
  unfold rowPellets
  rw [List.countP_set _ _ _ _ h]
  have hle := List.boole_getElem_le_countP
    (fun c => decide (c = CellPellet ∨ c = CellPowerPellet)) row i h
  have hp' : (row[i] = CellPellet ∨ row[i] = CellPowerPellet) := hp
  have he : decide (CellEmpty = CellPellet ∨ CellEmpty = CellPowerPellet) = false := by decide
  simp only [hp', decide_True, if_true, he] at hle ⊢
  simp only [Bool.false_eq_true, if_false]
  omega

/-- The stored cell behind a reading of `GetCell` that is not Wall. -/
theorem getCell_eq_get (m : Maze) (x y : Int) (h : m.GetCell x y ≠ CellWall) :
    ∃ (hy : y.toNat < m.Cells.length) (hx : x.toNat < (m.Cells.get ⟨y.toNat, hy⟩).length),
      m.Cells.getD y.toNat [] = m.Cells.get ⟨y.toNat, hy⟩ ∧
      m.GetCell x y = (m.Cells.get ⟨y.toNat, hy⟩).get ⟨x.toNat, hx⟩ := by
  obtain ⟨hb, hy, hx⟩ := getCell_stored m x y h
  have hrow : m.Cells.getD y.toNat [] = m.Cells.get ⟨y.toNat, hy⟩ := by
    simp [List.getD_eq_getElem?_getD, List.getElem?_eq_getElem hy]
  rw [hrow] at hx
  refine ⟨hy, hx, hrow, ?_⟩
  unfold Maze.GetCell
  rw [if_neg (by omega), hrow]
  have hx2 : x.toNat < (m.Cells[y.toNat]).length := hx
  simp [List.getD_eq_getElem?_getD, List.getElem?_eq_getElem hx2]

/-- Eating a pellet lowers the number of pellet cells by exactly one. -/
theorem pelletCells_eat (m : Maze) (x y : Int)
    (hp : m.GetCell x y = CellPellet ∨ m.GetCell x y = CellPowerPellet) :
    pelletCells (m.SetCell x y CellEmpty) + 1 = pelletCells m := by
  have hw : m.GetCell x y ≠ CellWall := by
    rcases hp with h | h <;> rw [h] <;> decide
  obtain ⟨hb, -, -⟩ := getCell_stored m x y hw
  obtain ⟨hy, hx, hrow, hget⟩ := getCell_eq_get m x y hw
  unfold pelletCells Maze.SetCell
  rw [if_pos (by omega)]
  simp only [hrow]
  have h1 := sum_map_set rowPellets m.Cells y.toNat
    ((m.Cells.get ⟨y.toNat, hy⟩).set x.toNat CellEmpty) hy
  have h2 := rowPellets_set (m.Cells.get ⟨y.toNat, hy⟩) x.toNat hx (by rw [← hget]; exact hp)
  omega

/-- What `EatPellet` does on a cell that holds a pellet or a power pellet. -/
theorem eatPellet_hit (m : Maze) (x y : Int)
    (hp : m.GetCell x y = CellPellet ∨ m.GetCell x y = CellPowerPellet) :
    (m.EatPellet x y).2 =
      { m.SetCell x y CellEmpty with RemainingPellets := m.RemainingPellets - 1 } ∧
    (m.EatPellet x y).1 = (decide (m.GetCell x y = CellPowerPellet), true) := by
  have hr := (setCell_frame m x y CellEmpty).2.2.2.1
  unfold Maze.EatPellet
  rcases hp with h | h
  · simp [h, hr, CellPellet, CellPowerPellet]
  · simp [h, hr, CellPellet, CellPowerPellet]

/-- What `EatPellet` does on any other cell: nothing. -/
theorem eatPellet_miss (m : Maze) (x y : Int)
    (hp : ¬ (m.GetCell x y = CellPellet ∨ m.GetCell x y = CellPowerPellet)) :
    m.EatPellet x y = ((false, false), m) := by
  unfold Maze.EatPellet
  simp only [not_or] at hp
  simp [hp.1, hp.2]

/-- The counter that `EatPellet` lowers does not enter the cell readings. -/
theorem getCell_remaining (m : Maze) (r : Int) (x y : Int) :
    Maze.GetCell { m with RemainingPellets := r } x y = m.GetCell x y := rfl

/-- C17. On a cell holding Pellet or PowerPellet, `EatPellet` sets that cell
to Empty, lowers RemainingPellets by exactly 1, reports `ate = true` with
`isPowerPellet` true exactly for PowerPellet, and leaves every other cell, the
size and TotalPellets unchanged; an immediately repeated call on the same
tile, and any call on a cell of another kind or outside the grid, returns
(false, false) and leaves the maze unchanged. -/
theorem eat_pellet_once (m : Maze) (x y : Int) :
    ((m.GetCell x y = CellPellet ∨ m.GetCell x y = CellPowerPellet) →
      (m.EatPellet x y).2.GetCell x y = CellEmpty ∧
      (m.EatPellet x y).2.RemainingPellets = m.RemainingPellets - 1 ∧
      (m.EatPellet x y).1.2 = true ∧
      ((m.EatPellet x y).1.1 = true ↔ m.GetCell x y = CellPowerPellet) ∧
      (∀ x2 y2, ¬ (x2 = x ∧ y2 = y) →
        (m.EatPellet x y).2.GetCell x2 y2 = m.GetCell x2 y2) ∧
      (m.EatPellet x y).2.TotalPellets = m.TotalPellets ∧
      (m.EatPellet x y).2.Width = m.Width ∧ (m.EatPellet x y).2.Height = m.Height ∧
      (m.EatPellet x y).2.EatPellet x y = ((false, false), (m.EatPellet x y).2)) ∧
    (¬ (m.GetCell x y = CellPellet ∨ m.GetCell x y = CellPowerPellet) →
      m.EatPellet x y = ((false, false), m)) ∧
    ((x < 0 ∨ m.Width ≤ x ∨ y < 0 ∨ m.Height ≤ y) →
      m.EatPellet x y = ((false, false), m)) := by
  refine ⟨?_, eatPellet_miss m x y, ?_⟩
  · intro hp
    obtain ⟨h2, h1⟩ := eatPellet_hit m x y hp
    have hw : m.GetCell x y ≠ CellWall := by
      rcases hp with h | h <;> rw [h] <;> decide
    obtain ⟨hb, hy, hx⟩ := getCell_stored m x y hw
    have hf := setCell_frame m x y CellEmpty
    have hself : (m.EatPellet x y).2.GetCell x y = CellEmpty := by
      rw [h2, getCell_remaining]
      exact getCell_setCell_self m x y CellEmpty hb hy hx
    refine ⟨hself, by rw [h2], by rw [h1], by rw [h1]; simp, ?_, by rw [h2]; exact hf.2.2.1,
      by rw [h2]; exact hf.1, by rw [h2]; exact hf.2.1, ?_⟩
    · intro x2 y2 hne
      rw [h2, getCell_remaining]
      exact getCell_setCell_ne m x y CellEmpty x2 y2 hne
    · apply eatPellet_miss
      rw [hself]
      decide
  · intro hout
    apply eatPellet_miss
    have : m.GetCell x y = CellWall := by
      unfold Maze.GetCell
      rw [if_pos (by omega)]
    rw [this]
    decide

theorem mazeWF_new : MazeWF NewMaze :=
  { width := by decide
    height := by decide
    rows := by decide
    cols := by decide
    total := by decide
    remaining := by decide
    le_total := by decide }

theorem mazeWF_eat (m : Maze) (x y : Int) (h : MazeWF m) : MazeWF (m.EatPellet x y).2 := by
  by_cases hp : m.GetCell x y = CellPellet ∨ m.GetCell x y = CellPowerPellet
  · obtain ⟨h2, -⟩ := eatPellet_hit m x y hp
    have hf := setCell_frame m x y CellEmpty
    have hc := pelletCells_eat m x y hp
    have hcells : (m.EatPellet x y).2.Cells = (m.SetCell x y CellEmpty).Cells := by rw [h2]
    have hpc : pelletCells (m.EatPellet x y).2 = pelletCells (m.SetCell x y CellEmpty) := by
      unfold pelletCells; rw [hcells]
    exact
      { width := by rw [h2]; exact hf.1.trans h.width
        height := by rw [h2]; exact hf.2.1.trans h.height
        rows := by rw [hcells]; exact hf.2.2.2.2.trans h.rows
        cols := by
          rw [hcells]
          intro row hrow
          unfold Maze.SetCell at hrow
          split_ifs at hrow
          · rcases List.mem_or_eq_of_mem_set hrow with hm | rfl
            · exact h.cols row hm
            · rw [List.length_set]
              have hw : m.GetCell x y ≠ CellWall := by
                rcases hp with h | h <;> rw [h] <;> decide
              obtain ⟨hy, -, hr, -⟩ := getCell_eq_get m x y hw
              rw [hr]
              exact h.cols _ (List.get_mem _ _ _)
          · exact h.cols row hrow
        total := by rw [h2]; exact hf.2.2.1.trans h.total
        remaining := by
          rw [hpc, h2]
          simp only []
          rw [h.remaining]
          omega
        le_total := by rw [hpc]; have := h.le_total; omega }
  · rw [eatPellet_miss m x y hp]; exact h

theorem mazeWF_eatAll (ts : List (Int × Int)) : MazeWF (eatAll ts) := by
  unfold eatAll
  exact foldl_preserves MazeWF _ (fun m t h => mazeWF_eat m t.1 t.2 h) ts NewMaze mazeWF_new

theorem sum_map_zero {α : Type} (f : α → Nat) (l : List α) (h : ∀ a ∈ l, f a = 0) :
    (l.map f).sum = 0 := by
  induction l with
  | nil => rfl
  | cons x xs ih =>
    simp only [List.map_cons, List.sum_cons]
    rw [h x (List.mem_cons_self _ _), ih (fun a ha => h a (List.mem_cons_of_mem _ ha))]

/-- In a well-formed maze the cell readings are the stored cells. -/
theorem getCell_of_index (m : Maze) (h : MazeWF m) (i j : Nat) (hi : i < m.Cells.length)
    (hj : j < (m.Cells.get ⟨i, hi⟩).length) :
    m.GetCell (j : Int) (i : Int) = (m.Cells.get ⟨i, hi⟩).get ⟨j, hj⟩ := by
  have h1 := h.rows
  have h2 := h.cols _ (List.get_mem _ i hi)
  have hw := h.width
  have hh := h.height
  unfold Maze.GetCell
  rw [if_neg (by omega)]
  have hj2 : j < (m.Cells[i]).length := hj
  simp [List.getD_eq_getElem?_getD, List.getElem?_eq_getElem hi, List.getElem?_eq_getElem hj2]

/-- No pellet cell is counted exactly when no cell reads as a pellet. -/
theorem pelletCells_zero (m : Maze) (h : MazeWF m) :
    pelletCells m = 0 ↔
      ∀ x y, m.GetCell x y ≠ CellPellet ∧ m.GetCell x y ≠ CellPowerPellet := by
  constructor
  · intro h0 x y
    by_contra hc
    have hp : m.GetCell x y = CellPellet ∨ m.GetCell x y = CellPowerPellet := by
      by_contra hn
      simp only [not_or] at hn
      exact hc ⟨hn.1, hn.2⟩
    have := pelletCells_eat m x y hp
    omega
  · intro hall
    unfold pelletCells
    apply sum_map_zero
    intro row hrow
    unfold rowPellets
    rw [List.countP_eq_zero]
    intro c hc
    obtain ⟨i, hi⟩ := List.get_of_mem hrow
    obtain ⟨j, hj⟩ := List.get_of_mem hc
    have hjlt : j.1 < (m.Cells.get i).length := by rw [hi]; exact j.2
    have hcell := getCell_of_index m h i.1 j.1 i.2 hjlt
    have hval : (m.Cells.get i).get ⟨j.1, hjlt⟩ = c := by
      subst hi
      exact hj
    have hx := hall (j.1 : Int) (i.1 : Int)
    rw [hcell, hval] at hx
    simp [hx.1, hx.2]

/-- C18. For `NewMaze` and every maze obtained from it by a sequence of
`EatPellet` calls: 0 <= RemainingPellets <= TotalPellets, RemainingPellets is
the number of cells that hold a pellet or power pellet, so it is 0 exactly
when no cell reads as one, and a further `EatPellet` never raises it. -/
theorem pellet_count_invariant (ts : List (Int × Int)) :
    0 ≤ (eatAll ts).RemainingPellets ∧
    (eatAll ts).RemainingPellets ≤ (eatAll ts).TotalPellets ∧
    (eatAll ts).RemainingPellets = (pelletCells (eatAll ts) : Nat) ∧
    ((eatAll ts).RemainingPellets = 0 ↔
      ∀ x y, (eatAll ts).GetCell x y ≠ CellPellet ∧
        (eatAll ts).GetCell x y ≠ CellPowerPellet) ∧
    (∀ x y, ((eatAll ts).EatPellet x y).2.RemainingPellets ≤ (eatAll ts).RemainingPellets) ∧
    eatAll [] = NewMaze := by
  have h := mazeWF_eatAll ts
  have hr := h.remaining
  have ht := h.total
  have hle := h.le_total
  refine ⟨by omega, by omega, hr, ?_, ?_, rfl⟩
  · rw [← pelletCells_zero _ h, hr]
    exact Int.natCast_eq_zero
  · intro x y
    rw [eatPellet_remaining]
    split_ifs <;> omega

theorem eatAt_pellet (g : Game) (t : Int × Int) (h : g.maze.GetCell t.1 t.2 = CellPellet) :
    (g.eatAt t).maze = (g.maze.EatPellet t.1 t.2).2 ∧ (g.eatAt t).score = g.score + 10 ∧
    (g.eatAt t).level = g.level ∧ (g.eatAt t).pacman.PowerMode = g.pacman.PowerMode := by
  have h1 := (eatPellet_hit g.maze t.1 t.2 (Or.inl h)).2
  have hd : decide (g.maze.GetCell t.1 t.2 = CellPowerPellet) = false := by
    rw [h]; decide
  rw [hd] at h1
  unfold Game.eatAt Game.eatPellet
  simp [h1, PelletScore]

theorem eatAt_power (g : Game) (t : Int × Int)
    (h : g.maze.GetCell t.1 t.2 = CellPowerPellet) :
    (g.eatAt t).maze = (g.maze.EatPellet t.1 t.2).2 ∧ (g.eatAt t).score = g.score + 50 ∧
    (g.eatAt t).level = g.level ∧ (g.eatAt t).pacman.PowerMode = true := by
  have h1 := (eatPellet_hit g.maze t.1 t.2 (Or.inr h)).2
  have hd : decide (g.maze.GetCell t.1 t.2 = CellPowerPellet) = true := by
    rw [h]; decide
  rw [hd] at h1
  unfold Game.eatAt Game.eatPellet
  simp only [h1, if_true, PowerPelletScore, true_and]
  unfold Pacman.ActivatePowerMode
  simp only []
  split_ifs <;> rfl

/-- The pellet step along distinct tiles that all hold an ordinary pellet. -/
theorem eatPath_pellets (ts : List (Int × Int)) :
    ∀ (g : Game), ts.Nodup → (∀ t ∈ ts, g.maze.GetCell t.1 t.2 = CellPellet) →
      (g.eatPath ts).maze.RemainingPellets = g.maze.RemainingPellets - ts.length ∧
      (g.eatPath ts).score = g.score + 10 * ts.length ∧
      (g.eatPath ts).level = g.level ∧
      (∀ x y, (x, y) ∉ ts → (g.eatPath ts).maze.GetCell x y = g.maze.GetCell x y) := by
  induction ts with
  | nil => intro g _ _; simp [Game.eatPath]
  | cons t ts ih =>
    intro g hnd hall
    rw [List.nodup_cons] at hnd
    have ht := hall t (List.mem_cons_self _ _)
    obtain ⟨hm, hs, hl, -⟩ := eatAt_pellet g t ht
    have hfacts := (eat_pellet_once g.maze t.1 t.2).1 (Or.inl ht)
    have hrest : ∀ t2 ∈ ts, (g.eatAt t).maze.GetCell t2.1 t2.2 = CellPellet := by
      intro t2 ht2
      rw [hm, hfacts.2.2.2.2.1 t2.1 t2.2]
      · exact hall t2 (List.mem_cons_of_mem _ ht2)
      · intro heq
        apply hnd.1
        have : t2 = t := Prod.ext heq.1 heq.2
        rw [← this]; exact ht2
    obtain ⟨h1, h2, h3, h4⟩ := ih (g.eatAt t) hnd.2 hrest
    have hstep : g.eatPath (t :: ts) = (g.eatAt t).eatPath ts := rfl
    rw [hstep]
    refine ⟨?_, ?_, by rw [h3, hl], ?_⟩
    · rw [h1, hm, hfacts.2.1]
      simp only [List.length_cons]
      push_cast
      ring
    · rw [h2, hs]
      simp only [List.length_cons]
      push_cast
      ring
    · intro x y hxy
      rw [h4 x y (fun hmem => hxy (List.mem_cons_of_mem _ hmem)), hm,
        hfacts.2.2.2.2.1 x y]
      intro heq
      apply hxy
      have : (x, y) = t := Prod.ext heq.1 heq.2
      rw [this]; exact List.mem_cons_self _ _

set_option maxRecDepth 100000 in
/-- C19, as stated, fails: the layout holds 300 pellets, not 244, and after
ten pellets and one power pellet 289 remain, not 233. -/
theorem pellet_total_not_244 :
    NewMaze.TotalPellets = 300 ∧ NewMaze.RemainingPellets = 300 ∧
    ¬ (NewMaze.TotalPellets = 244) ∧
    (NewGame.eatPath (scriptedPellets ++ [(1, 3)])).maze.RemainingPellets = 289 ∧
    ¬ ((NewGame.eatPath (scriptedPellets ++ [(1, 3)])).maze.RemainingPellets = 233) := by
  decide

/-- C19, amended. `NewMaze` has TotalPellets = RemainingPellets = 300, and
from a game on the fresh maze with score 0, after the pellet step of `update`
has consumed ten distinct ordinary pellets and then one power pellet,
RemainingPellets = 289, score = 150 and the player is in power mode. -/
theorem scoring_scenario (g : Game) (ts : List (Int × Int)) (tp : Int × Int)
    (hm : g.maze = NewMaze) (hs : g.score = 0) (hlen : ts.length = 10) (hnd : ts.Nodup)
    (hpel : ∀ t ∈ ts, NewMaze.GetCell t.1 t.2 = CellPellet)
    (hpow : NewMaze.GetCell tp.1 tp.2 = CellPowerPellet) :
    NewMaze.TotalPellets = 300 ∧ NewMaze.RemainingPellets = 300 ∧
    (g.eatPath (ts ++ [tp])).maze.RemainingPellets = 289 ∧
    (g.eatPath (ts ++ [tp])).score = 150 ∧
    (g.eatPath (ts ++ [tp])).pacman.PowerMode = true := by
  obtain ⟨h1, h2, -, h4⟩ := eatPath_pellets ts g hnd (by rw [hm]; exact hpel)
  have hsplit : g.eatPath (ts ++ [tp]) = (g.eatPath ts).eatAt tp := by
    simp [Game.eatPath, List.foldl_append]
  have hnot : (tp.1, tp.2) ∉ ts := by
    intro hmem
    have := hpel tp hmem
    rw [hpow] at this
    exact absurd this (by decide)
  have hcell : (g.eatPath ts).maze.GetCell tp.1 tp.2 = CellPowerPellet := by
    rw [h4 tp.1 tp.2 hnot, hm]; exact hpow
  obtain ⟨hm2, hs2, -, hp2⟩ := eatAt_power (g.eatPath ts) tp hcell
  have hfacts := (eat_pellet_once (g.eatPath ts).maze tp.1 tp.2).1 (Or.inr hcell)
  have hR : NewMaze.RemainingPellets = 300 := by decide
  refine ⟨by decide, hR, ?_, ?_, ?_⟩
  · rw [hsplit, hm2, hfacts.2.1, h1, hm, hR, hlen]; norm_num
  · rw [hsplit, hs2, h2, hs, hlen]; norm_num
  · rw [hsplit, hp2]

/-- Witness for `scoring_scenario`: a fresh game, the pellets of row 8 and
column 1, then the power pellet on (1,3). -/
theorem scoring_scenario_witness :
    NewGame.maze = NewMaze ∧ NewGame.score = 0 ∧ scriptedPellets.length = 10 ∧
    (NewGame.eatPath (scriptedPellets ++ [(1, 3)])).maze.RemainingPellets = 289 ∧
    (NewGame.eatPath (scriptedPellets ++ [(1, 3)])).score = 150 ∧
    (NewGame.eatPath (scriptedPellets ++ [(1, 3)])).pacman.PowerMode = true :=
  have h := scoring_scenario NewGame scriptedPellets (1, 3) rfl rfl (by decide) (by decide)
    (by decide) (by decide)
  ⟨rfl, rfl, by decide, h.2.2.1, h.2.2.2.1, h.2.2.2.2⟩

/-! ## Pursuer targeting, modes and positions -/

/-- C14. The target tile that `chooseDirection` scores its candidates against
is the one the targeting rule names: the mirror point `2*self - player` when
Frightened; otherwise the player's tile for Blinky, that tile shifted 4 tiles
along the player's `Dir` for Pinky, `2*player - self` for Inky, and for Clyde
the player's tile at Manhattan distance >= 8 and the corner `(0, Height-1)`
below 8. -/
theorem targeting_rule (g : Ghost) (maze : Maze) (pacman : Pacman) :
    g.target maze pacman =
      specTarget g.Typ (decide (g.Mode = ModeFrightened)) g.X g.Y pacman.X pacman.Y
        pacman.Dir maze.Height ∧
    g.chooseDirection maze pacman =
      (let t := specTarget g.Typ (decide (g.Mode = ModeFrightened)) g.X g.Y pacman.X pacman.Y
          pacman.Dir maze.Height
       let b := allDirs.foldl (g.scanDir maze t.1 t.2)
          { bestDir := DirNone, bestDist := none, reverseDir := DirNone, reverseDist := none }
       if b.bestDir = DirNone then (if b.reverseDir ≠ DirNone then b.reverseDir else g.Dir)
       else b.bestDir) := by
  have h : g.target maze pacman =
      specTarget g.Typ (decide (g.Mode = ModeFrightened)) g.X g.Y pacman.X pacman.Y
        pacman.Dir maze.Height := by
    unfold Ghost.target specTarget
    by_cases hf : g.Mode = ModeFrightened
    · simp only [hf, if_true, decide_True]
      rw [Prod.mk.injEq]
      constructor <;> ring
    · simp only [hf, if_false, decide_False]
      cases g.Typ
      · rfl
      · cases pacman.Dir <;> simp [dirVec] <;> rfl
      · rfl
      · simp only []
        by_cases h8 : |g.X - pacman.X| + |g.Y - pacman.Y| < 8
        · rw [if_pos h8, if_neg (not_le.mpr h8)]; rfl
        · rw [if_neg h8, if_pos (not_lt.mp h8)]; rfl
  refine ⟨h, ?_⟩
  unfold Ghost.chooseDirection
  rw [h]

theorem update_mode_eq (g : Ghost) (maze : Maze) (pacman : Pacman) (level : Int)
    (h : g.Mode ≠ ModeEaten) :
    (g.Update maze pacman level).Mode =
      (if pacman.PowerMode = true then ModeFrightened
       else if g.Mode = ModeFrightened then ModeChase else g.Mode) := by
  unfold Ghost.Update
  simp only [h, if_false]
  split_ifs <;> simp_all [move_mode, Ghost.stepMode]

theorem map_set_same {α β : Type} (f : α → β) (l : List α) :
    ∀ (j : Nat) (b c : α), l.get? j = some b → f c = f b → (l.set j c).map f = l.map f := by
  induction l with
  | nil => intro j b c h _; simp at h
  | cons x xs ih =>
    intro j b c h hf
    cases j with
    | zero =>
      simp only [List.get?_cons_zero, Option.some.injEq] at h
      subst h
      simp [hf]
    | succ j =>
      simp only [List.get?_cons_succ] at h
      simp only [List.set_cons_succ, List.map_cons]
      rw [ih j b c h hf]

theorem deOverlapPair_modes (prev : List GhostPos) (gs : List Ghost) (i j : Nat) :
    (deOverlapPair prev gs i j).map Ghost.Mode = gs.map Ghost.Mode := by
  unfold deOverlapPair
  split
  · rename_i a b p ha hb hp
    split_ifs
    · exact map_set_same Ghost.Mode gs j b _ hb rfl
    · rfl
  · rfl

/-- The de-overlap pass moves pursuers back; it changes no mode. -/
theorem deOverlap_modes (prev : List GhostPos) (gs : List Ghost) :
    (deOverlap prev gs).map Ghost.Mode = gs.map Ghost.Mode := by
  unfold deOverlap
  refine foldl_preserves (fun (acc : List Ghost) => acc.map Ghost.Mode = gs.map Ghost.Mode)
    _ ?_ _ _ rfl
  intro acc i hacc
  refine foldl_preserves (fun (acc : List Ghost) => acc.map Ghost.Mode = gs.map Ghost.Mode)
    _ ?_ _ _ hacc
  intro acc2 j h2
  rw [deOverlapPair_modes]; exact h2

theorem resolve_ghost_mode (ppx ppy : Int) (prev : GhostPos) (g : Game) (ghost : Ghost) :
    (resolveCollision ppx ppy prev g ghost).2.Mode = ghost.Mode ∨
    (ghost.Mode = ModeFrightened ∧ (resolveCollision ppx ppy prev g ghost).2.Mode = ModeEaten ∧
      g.pacman.PowerMode = true) := by
  unfold resolveCollision
  split_ifs with h1 h2 h3
  · exact Or.inr ⟨h2.2, rfl, h2.1⟩
  · exact Or.inl rfl
  · exact Or.inl rfl
  · exact Or.inl rfl

theorem resolve_power (ppx ppy : Int) (prev : GhostPos) (g : Game) (ghost : Ghost) :
    (resolveCollision ppx ppy prev g ghost).1.pacman.PowerMode = g.pacman.PowerMode := by
  rw [resolve_pacman]
  split_ifs <;> rfl

/-- The resolver changes a pursuer's mode only from Frightened to Eaten, and
only while the player is powered. -/
theorem loop_modes (ppx ppy : Int) (ghosts : List Ghost) :
    ∀ (prevs : List GhostPos) (g : Game) (i : Nat) (a b : Ghost),
      ghosts.get? i = some a →
      (checkCollisionsLoop ppx ppy ghosts prevs g).2.get? i = some b →
      b.Mode = a.Mode ∨
        (a.Mode = ModeFrightened ∧ b.Mode = ModeEaten ∧ g.pacman.PowerMode = true) := by
  induction ghosts with
  | nil => intro prevs g i a b ha; simp at ha
  | cons gh rest ih =>
    intro prevs g i a b ha hb
    cases prevs with
    | nil =>
      simp only [checkCollisionsLoop] at hb
      rw [ha] at hb
      simp only [Option.some.injEq] at hb
      subst hb
      exact Or.inl rfl
    | cons p ps =>
      simp only [checkCollisionsLoop] at hb
      cases i with
      | zero =>
        simp only [List.get?_cons_zero, Option.some.injEq] at ha hb
        subst ha hb
        exact resolve_ghost_mode ppx ppy p g gh
      | succ i =>
        simp only [List.get?_cons_succ] at ha hb
        have := ih ps (resolveCollision ppx ppy p g gh).1 i a b ha hb
        rw [resolve_power] at this
        exact this

theorem loop_power (ppx ppy : Int) (ghosts : List Ghost) (prevs : List GhostPos) (g : Game) :
    (checkCollisionsLoop ppx ppy ghosts prevs g).1.pacman.PowerMode = g.pacman.PowerMode := by
  rcases loop_pacman ppx ppy ghosts prevs g with h | h <;> rw [h]
  rfl

theorem nextLevel_modes (g : Game) :
    g.NextLevel.pacman.PowerMode = false ∧ ∀ gh ∈ g.NextLevel.ghosts, gh.Mode = ModeScatter := by
  refine ⟨rfl, ?_⟩
  intro gh hgh
  simp only [Game.NextLevel, Game.resetEntities, List.mem_map] at hgh
  obtain ⟨gh0, -, rfl⟩ := hgh
  rfl

theorem update_eq_phase (g : Game) (hs : g.state = StatePlaying) :
    g.update = Game.pursuerPhase
      (({ g.tickFruit with pacman := g.tickFruit.pacman.Update g.tickFruit.maze } :
        Game).eatPellet.eatFruit) g.tickFruit.pacman.X g.tickFruit.pacman.Y := by
  unfold Game.update Game.pursuerPhase
  rw [if_neg (by simp [hs])]

/-- The modes at the end of a tick, from the pursuers as `update` holds them
before they move: after a level advance all are in Scatter and the player is
unpowered; otherwise the player's power flag is the one the pursuers saw, and
a pursuer that was in Scatter or Chase keeps its mode if the flag is off, and
is Frightened or Eaten if it is on. -/
theorem phase_modes (g4 : Game) (ppx ppy : Int) (i : Nat) (gh b : Ghost)
    (h0 : g4.ghosts.get? i = some gh)
    (hsc : gh.Mode = ModeScatter ∨ gh.Mode = ModeChase)
    (hb : (g4.pursuerPhase ppx ppy).ghosts.get? i = some b) :
    (b.Mode = ModeScatter ∧ (g4.pursuerPhase ppx ppy).pacman.PowerMode = false) ∨
    ((g4.pursuerPhase ppx ppy).pacman.PowerMode = g4.pacman.PowerMode ∧
      ((g4.pacman.PowerMode = false ∧ b.Mode = gh.Mode) ∨
       (g4.pacman.PowerMode = true ∧ (b.Mode = ModeFrightened ∨ b.Mode = ModeEaten)))) := by
  unfold Game.pursuerPhase at hb ⊢
  simp only [] at hb ⊢
  split_ifs at hb ⊢ with hnl
  · left
    exact ⟨(nextLevel_modes _).2 b (List.get?_mem hb), (nextLevel_modes _).1⟩
  · right
    have hne : gh.Mode ≠ ModeEaten := by
      rcases hsc with h | h <;> rw [h] <;> decide
    have hnf : gh.Mode ≠ ModeFrightened := by
      rcases hsc with h | h <;> rw [h] <;> decide
    have hupd := update_mode_eq gh g4.maze g4.pacman g4.level hne
    -- the pursuer after the de-overlap pass
    have hmoved : (g4.ghosts.map (fun ghost => ghost.Update g4.maze g4.pacman g4.level)).get? i
        = some (gh.Update g4.maze g4.pacman g4.level) := by
      simp only [List.get?_eq_getElem?, List.getElem?_map] at h0 ⊢
      rw [h0]; rfl
    have hmodes := deOverlap_modes
      (g4.ghosts.map (fun ghost => ({ prevX := ghost.X, prevY := ghost.Y } : GhostPos)))
      (g4.ghosts.map (fun ghost => ghost.Update g4.maze g4.pacman g4.level))
    have hget := congrArg (fun l => l.get? i) hmodes
    simp only [List.get?_eq_getElem?, List.getElem?_map] at hget hmoved
    rw [hmoved] at hget
    simp only [Option.map_some'] at hget
    obtain ⟨a, ha, hamode⟩ := Option.map_eq_some'.1 hget
    have hloop := loop_modes ppx ppy _ _ _ i a b (by rw [List.get?_eq_getElem?]; exact ha) hb
    refine ⟨loop_power ppx ppy _ _ _, ?_⟩
    rw [hupd] at hamode
    simp only [] at hloop
    cases hp : g4.pacman.PowerMode
    · left
      simp only [hp, Bool.false_eq_true, if_false, hnf] at hamode hloop
      refine ⟨rfl, ?_⟩
      rcases hloop with h | h
      · rw [h, hamode]
      · exact absurd h.2.2 (by simp)
    · right
      simp only [hp, if_true] at hamode hloop
      refine ⟨rfl, ?_⟩
      rcases hloop with h | h
      · left; rw [h, hamode]
      · right; exact h.2.1

set_option maxRecDepth 100000 in
/-- C11, as stated, fails: the player steps onto a power pellet where Blinky
stands in Chase mode; in that tick the mode step of `Ghost.Update` turns
Blinky Frightened and the resolver turns it Eaten. -/
theorem two_mode_changes :
    powerAmbush.state = StatePlaying ∧
    powerAmbush.ghosts.map Ghost.Mode
      = [ModeChase, ModeScatter, ModeScatter, ModeScatter] ∧
    (powerAmbush.ghosts.map (fun gh =>
      (gh.Update powerAmbush.update.maze powerAmbush.update.pacman powerAmbush.level).Mode))
      = [ModeFrightened, ModeFrightened, ModeFrightened, ModeFrightened] ∧
    powerAmbush.update.ghosts.map Ghost.Mode
      = [ModeEaten, ModeFrightened, ModeFrightened, ModeFrightened] := by
  decide

set_option maxRecDepth 100000 in
/-- C12, evaluated on the failing input: the four spawn tiles are pairwise
distinct and those of Blinky, Pinky and Inky are walkable for a pursuer, but
Clyde's spawn tile (14,9) is a Wall cell of the layout; so Clyde stands on a
cell that is not walkable in the state built by `NewGame`, after `NextLevel`,
after `Reset`, and still after the first tick. -/
theorem clyde_spawns_in_wall :
    NewGame.ghosts.map (fun gh => (gh.Typ, gh.X, gh.Y))
      = [(GhostBlinky, 14, 11), (GhostPinky, 12, 11), (GhostInky, 16, 11),
         (GhostClyde, 14, 9)] ∧
    (NewGame.ghosts.map (fun gh => (gh.X, gh.Y))).Nodup ∧
    NewMaze.GetCell 14 9 = CellWall ∧
    NewGame.ghosts.map (fun gh => NewGame.maze.IsWalkableForGhost gh.X gh.Y)
      = [true, true, true, false] ∧
    NewGame.NextLevel.ghosts.map (fun gh => NewGame.NextLevel.maze.IsWalkableForGhost gh.X gh.Y)
      = [true, true, true, false] ∧
    NewGame.Reset.ghosts.map (fun gh => NewGame.Reset.maze.IsWalkableForGhost gh.X gh.Y)
      = [true, true, true, false] ∧
    (NewGame.run [Event.space, Event.tick]).ghosts.map
      (fun gh => (gh.X, gh.Y,
        (NewGame.run [Event.space, Event.tick]).maze.IsWalkableForGhost gh.X gh.Y))
      = [(14, 11, true), (12, 11, true), (16, 11, true), (14, 9, false)] := by
  decide

set_option maxRecDepth 100000 in
/-- C13, evaluated on the failing input: four pursuers with pairwise distinct
pre-tick tiles, the first of which has stepped onto the tile where the second
stayed; the rollback pass puts the second back on its pre-tick tile, the very
tile they share, so both are on (6,1) after the pass, and after a whole tick
of `update` from such a state. -/
theorem deoverlap_leaves_stack :
    crowdedPrev.Nodup ∧ crowdedPost.length = 4 ∧ crowdedPrev.length = 4 ∧
    (deOverlap crowdedPrev crowdedPost).map (fun gh => (gh.X, gh.Y))
      = [(6, 1), (6, 1), (16, 11), (15, 9)] ∧
    ¬ ((deOverlap crowdedPrev crowdedPost).map (fun gh => (gh.X, gh.Y))).Nodup ∧
    (crowdedCorridor.ghosts.map (fun gh => (gh.X, gh.Y))).Nodup ∧
    crowdedCorridor.update.ghosts.map (fun gh => (gh.X, gh.Y))
      = [(6, 1), (6, 1), (16, 11), (15, 9)] := by
  decide

/-! ## The player -/

theorem tickPower_pos (p : Pacman) :
    p.tickPower.X = p.X ∧ p.tickPower.Y = p.Y ∧ p.tickPower.Dir = p.Dir ∧
    p.tickPower.NextDir = p.NextDir ∧ p.tickPower.MoveTick = p.MoveTick := by
  unfold Pacman.tickPower
  simp only []
  split_ifs <;> simp

theorem tryTurn_pos (p : Pacman) (maze : Maze) :
    (p.tryTurn maze).X = p.X ∧ (p.tryTurn maze).Y = p.Y := by
  unfold Pacman.tryTurn
  simp only []
  split_ifs <;> simp

theorem tryMove_walkable (p : Pacman) (maze : Maze) (h : maze.IsWalkable p.X p.Y = true) :
    maze.IsWalkable (p.tryMove maze).X (p.tryMove maze).Y = true := by
  unfold Pacman.tryMove
  simp only []
  split_ifs with h1 h2
  · exact h2
  · exact h
  · exact h

/-- `Pacman.Update` maps a walkable position to a walkable position. -/
theorem pacman_update_walkable (p : Pacman) (maze : Maze)
    (h : maze.IsWalkable p.X p.Y = true) :
    maze.IsWalkable (p.Update maze).X (p.Update maze).Y = true := by
  have h1 := tickPower_pos p
  unfold Pacman.Update
  simp only []
  split_ifs
  · simp only [h1.1, h1.2.1]; exact h
  · apply tryMove_walkable
    rw [(tryTurn_pos _ maze).1, (tryTurn_pos _ maze).2]
    simp only [h1.1, h1.2.1]; exact h

/-- C16. On a call of `Pacman.Update` where the movement counter fires and no
buffered turn is taken, a player heading Left on x = 0 of a row whose far end
is walkable lands on x = Width - 1 in that call, and a player heading Right on
x = Width - 1 lands on x = 0, with y unchanged; row 14 of the fixed maze is
such a row, with Width - 1 = 27. -/
theorem tunnel_wrap (p : Pacman) (maze : Maze)
    (hfire : ¬ (p.MoveTick + 1 < p.tickPower.speed))
    (hturn : p.NextDir = DirNone ∨
      maze.IsWalkable (nextPos p.X p.Y p.NextDir).1 (nextPos p.X p.Y p.NextDir).2 = false) :
    (p.Dir = DirLeft → p.X = 0 → maze.IsWalkable (maze.Width - 1) p.Y = true →
      (p.Update maze).X = maze.Width - 1 ∧ (p.Update maze).Y = p.Y) ∧
    (p.Dir = DirRight → p.X = maze.Width - 1 → maze.IsWalkable 0 p.Y = true →
      (p.Update maze).X = 0 ∧ (p.Update maze).Y = p.Y) ∧
    (NewMaze.Width - 1 = 27 ∧ NewMaze.IsWalkable 0 14 = true ∧
      NewMaze.IsWalkable 27 14 = true) := by
  have h1 := tickPower_pos p
  have hupd : p.Update maze =
      (({ p.tickPower with AnimFrame := p.tickPower.AnimFrame + 1, MoveTick := 0 } :
        Pacman).tryTurn maze).tryMove maze := by
    unfold Pacman.Update
    simp only []
    rw [if_neg]
    simpa [Pacman.speed, h1.2.2.2.2] using hfire
  have hnoturn : ({ p.tickPower with AnimFrame := p.tickPower.AnimFrame + 1, MoveTick := 0 } :
        Pacman).tryTurn maze =
      { p.tickPower with AnimFrame := p.tickPower.AnimFrame + 1, MoveTick := 0 } := by
    unfold Pacman.tryTurn Pacman.getNextPos
    simp only [h1.1, h1.2.1, h1.2.2.2.1]
    rcases hturn with hn | hb
    · simp [hn]
    · simp [hb]
  rw [hupd, hnoturn]
  refine ⟨?_, ?_, by decide⟩
  · intro hd hx hw
    unfold Pacman.tryMove Pacman.getNextPos
    simp only [h1.1, h1.2.1, h1.2.2.1, hd, hx, nextPos, wrapX]
    simp [hw]
  · intro hd hx hw
    have hwpos : 0 < maze.Width := by
      have hne : maze.GetCell 0 p.Y ≠ CellWall := by
        intro hc
        unfold Maze.IsWalkable at hw
        simp [hc] at hw
      have := (getCell_stored maze 0 p.Y hne).1
      omega
    unfold Pacman.tryMove Pacman.getNextPos
    simp only [h1.1, h1.2.1, h1.2.2.1, hd, hx, nextPos, wrapX]
    have h2 : ¬ (maze.Width < 0) := by omega
    simp [h2, hw]

/-- Witness for `tunnel_wrap`: the player on (0,14) of the fixed maze, heading
Left with the counter about to fire. -/
theorem tunnel_wrap_witness :
    ¬ (({ NewPacman with X := 0, Y := 14, Dir := DirLeft, MoveTick := 1 } : Pacman).MoveTick + 1
       < ({ NewPacman with X := 0, Y := 14, Dir := DirLeft, MoveTick := 1 } : Pacman).tickPower.speed) ∧
    (({ NewPacman with X := 0, Y := 14, Dir := DirLeft, MoveTick := 1 } : Pacman).Update
      NewMaze).X = NewMaze.Width - 1 ∧
    (({ NewPacman with X := 0, Y := 14, Dir := DirLeft, MoveTick := 1 } : Pacman).Update
      NewMaze).Y = 14 :=
  have h := (tunnel_wrap { NewPacman with X := 0, Y := 14, Dir := DirLeft, MoveTick := 1 }
    NewMaze (by decide) (Or.inl rfl)).1 rfl rfl (by decide)
  ⟨by decide, h.1, h.2⟩

/-- `EatPellet` changes neither the size nor the walkable cells. -/
theorem eatPellet_walkable (m : Maze) (x y : Int) :
    (m.EatPellet x y).2.Width = m.Width ∧ (m.EatPellet x y).2.Height = m.Height ∧
    ∀ x2 y2, (m.EatPellet x y).2.IsWalkable x2 y2 = m.IsWalkable x2 y2 := by
  by_cases hp : m.GetCell x y = CellPellet ∨ m.GetCell x y = CellPowerPellet
  · have hf := (eat_pellet_once m x y).1 hp
    refine ⟨hf.2.2.2.2.2.2.1, hf.2.2.2.2.2.2.2.1, ?_⟩
    intro x2 y2
    by_cases heq : x2 = x ∧ y2 = y
    · rw [heq.1, heq.2]
      unfold Maze.IsWalkable
      simp only []
      rw [hf.1]
      rcases hp with h | h <;> rw [h] <;> decide
    · unfold Maze.IsWalkable
      simp only []
      rw [hf.2.2.2.2.1 x2 y2 heq]
  · rw [eatPellet_miss m x y hp]
    exact ⟨rfl, rfl, fun _ _ => rfl⟩

theorem eatPellet_player (g : Game) :
    g.eatPellet.pacman.X = g.pacman.X ∧ g.eatPellet.pacman.Y = g.pacman.Y := by
  unfold Game.eatPellet
  simp only []
  split_ifs
  · unfold Pacman.ActivatePowerMode
    simp only []
    split_ifs <;> exact ⟨rfl, rfl⟩
  · exact ⟨rfl, rfl⟩
  · exact ⟨rfl, rfl⟩

theorem playerOk_of (g : Game) (hm : g.maze = NewMaze) (hx : g.pacman.X = 14)
    (hy : g.pacman.Y = 23) : PlayerOk g := by
  unfold PlayerOk
  rw [hm, hx, hy]
  exact ⟨by decide, by decide, fun _ _ => rfl, by decide⟩

theorem playerOk_tail (g5 : Game) (ppx ppy : Int) (prevs : List GhostPos)
    (h : PlayerOk g5) :
    PlayerOk (if (g5.checkCollisions ppx ppy prevs).maze.RemainingPellets = 0
      then (g5.checkCollisions ppx ppy prevs).NextLevel
      else g5.checkCollisions ppx ppy prevs) := by
  split_ifs
  · exact playerOk_of _ (nextLevel_frame _).2.2.2.2 rfl rfl
  · have hm := (checkCollisions_frame g5 ppx ppy prevs).2.1
    have hp := loop_pacman ppx ppy g5.ghosts prevs g5
    have hpac : (g5.checkCollisions ppx ppy prevs).pacman
        = (checkCollisionsLoop ppx ppy g5.ghosts prevs g5).1.pacman := rfl
    unfold PlayerOk
    rw [hm, hpac]
    refine ⟨h.1, h.2.1, h.2.2.1, ?_⟩
    rcases hp with hp | hp
    · rw [hp]; exact h.2.2.2
    · rw [hp, h.2.2.1]
      simp only [spawned]
      decide

theorem playerOk_tickFruit (g : Game) (h : PlayerOk g) : PlayerOk g.tickFruit := by
  have ht := tickFruit_frame g
  unfold PlayerOk
  rw [ht.1, ht.2.1]
  exact h

theorem playerOk_move (g : Game) (h : PlayerOk g) :
    PlayerOk { g with pacman := g.pacman.Update g.maze } :=
  ⟨h.1, h.2.1, h.2.2.1, pacman_update_walkable g.pacman g.maze h.2.2.2⟩

theorem playerOk_eatPellet (g : Game) (h : PlayerOk g) : PlayerOk g.eatPellet := by
  have hw := eatPellet_walkable g.maze g.pacman.X g.pacman.Y
  have hpl := eatPellet_player g
  have hm := (eatPellet_frame g).1
  unfold PlayerOk
  rw [hm, hpl.1, hpl.2]
  refine ⟨hw.1.trans h.1, hw.2.1.trans h.2.1, ?_, ?_⟩
  · intro x y
    rw [hw.2.2 x y]; exact h.2.2.1 x y
  · rw [hw.2.2]; exact h.2.2.2

theorem playerOk_eatFruit (g : Game) (h : PlayerOk g) : PlayerOk g.eatFruit := by
  have hf := eatFruit_frame g
  unfold PlayerOk
  rw [hf.1, hf.2.1]
  exact h

theorem playerOk_update (g : Game) (h : PlayerOk g) : PlayerOk g.update := by
  unfold Game.update
  split_ifs with hs
  · exact h
  · simp only []
    apply playerOk_tail
    exact playerOk_eatFruit _ (playerOk_eatPellet _ (playerOk_move _ (playerOk_tickFruit g h)))

theorem playerOk_handle (g : Game) (e : Event) (h : PlayerOk g) : PlayerOk (g.handle e) := by
  cases e with
  | tick => exact playerOk_update g h
  | space =>
    unfold Game.handle
    simp only []
    split_ifs
    · exact h
    · exact h
  | retry =>
    unfold Game.handle
    simp only []
    split_ifs
    · exact playerOk_of _ rfl rfl rfl
    · exact h
  | arrow d =>
    unfold Game.handle
    simp only []
    split_ifs
    · exact h
    · exact h
  | other => exact h

/-- C15. In the state built by `NewGame` and after every sequence of ticks and
input events (direction requests, start, retry; deaths and level advances
happen inside the ticks), the player's tile is inside the 28 x 31 grid and
walkable, so it is neither a Wall nor a GhostDoor cell; and `Pacman.Update`
maps a walkable position to a walkable position for every maze, direction and
buffered direction. -/
theorem player_position_invariant (es : List Event) :
    (NewGame.run es).maze.IsWalkable (NewGame.run es).pacman.X (NewGame.run es).pacman.Y = true ∧
    (0 ≤ (NewGame.run es).pacman.X ∧ (NewGame.run es).pacman.X < 28 ∧
     0 ≤ (NewGame.run es).pacman.Y ∧ (NewGame.run es).pacman.Y < 31) ∧
    (NewGame.run es).maze.GetCell (NewGame.run es).pacman.X (NewGame.run es).pacman.Y
      ≠ CellWall ∧
    (NewGame.run es).maze.GetCell (NewGame.run es).pacman.X (NewGame.run es).pacman.Y
      ≠ CellGhostDoor ∧
    (∀ (p : Pacman) (maze : Maze), maze.IsWalkable p.X p.Y = true →
      maze.IsWalkable (p.Update maze).X (p.Update maze).Y = true) := by
  have hinit : PlayerOk NewGame := ⟨by decide, by decide, fun _ _ => rfl, by decide⟩
  have h : PlayerOk (NewGame.run es) := by
    unfold Game.run
    exact foldl_preserves PlayerOk Game.handle playerOk_handle es NewGame hinit
  have hw := h.2.2.2
  have hcell : (NewGame.run es).maze.GetCell (NewGame.run es).pacman.X
      (NewGame.run es).pacman.Y ≠ CellWall ∧
      (NewGame.run es).maze.GetCell (NewGame.run es).pacman.X
      (NewGame.run es).pacman.Y ≠ CellGhostDoor := by
    unfold Maze.IsWalkable at hw
    simpa using hw
  have hb := (getCell_stored _ _ _ hcell.1).1
  rw [h.1, h.2.1] at hb
  exact ⟨hw, ⟨hb.2.2.1, hb.2.2.2, hb.1, hb.2.1⟩, hcell.1, hcell.2, pacman_update_walkable⟩

/-! ## Coordinate queries -/

theorem cellAt_stored (m : Maze) (h : MazeWF m) (x y : Int)
    (hb : ¬ (y < 0 ∨ y ≥ m.Height ∨ x < 0 ∨ x ≥ m.Width)) :
    m.cellAt x y = some (m.GetCell x y) := by
  have hw := h.width
  have hh := h.height
  have hy : y.toNat < m.Cells.length := by rw [h.rows]; omega
  have hrow := h.cols _ (List.get_mem _ y.toNat hy)
  have hx : x.toNat < (m.Cells.get ⟨y.toNat, hy⟩).length := by rw [hrow]; omega
  have hg : m.Cells.get? y.toNat = some (m.Cells.get ⟨y.toNat, hy⟩) := List.get?_eq_get hy
  have hgx : (m.Cells.get ⟨y.toNat, hy⟩).get? x.toNat =
      some ((m.Cells.get ⟨y.toNat, hy⟩).get ⟨x.toNat, hx⟩) := List.get?_eq_get hx
  have hd : m.Cells.getD y.toNat [] = m.Cells.get ⟨y.toNat, hy⟩ := by
    simp [List.getD_eq_getElem?_getD, List.getElem?_eq_getElem hy]
  have hdx : (m.Cells.get ⟨y.toNat, hy⟩).getD x.toNat CellWall =
      (m.Cells.get ⟨y.toNat, hy⟩).get ⟨x.toNat, hx⟩ := by
    rw [List.getD_eq_getElem?_getD, List.getElem?_eq_getElem hx]
    rfl
  unfold Maze.cellAt Maze.GetCell
  rw [if_neg (by omega), if_neg hb, hg]
  simp only []
  rw [hgx, hd, hdx]

/-- C21. `NewMaze` builds a grid of 31 rows of exactly `Width` = 28 cells, and
every maze obtained from it by eating keeps that shape. For all integers x
and y, `GetCell` returns `CellWall` when x < 0, x ≥ Width, y < 0 or
y ≥ Height, where `IsWalkable` and `IsWalkableForGhost` are false and
`EatPellet` eats nothing and leaves the maze as it is; otherwise the index
expression `Cells[y][x]` lies inside the grid and `GetCell` returns the cell
stored there. -/
theorem coordinate_queries_total (ts : List (Int × Int)) (x y : Int) :
    (NewMaze.Cells.length = 31 ∧ (∀ row ∈ NewMaze.Cells, row.length = 28) ∧
      NewMaze.Width = 28 ∧ NewMaze.Height = 31) ∧
    ((eatAll ts).Cells.length = 31 ∧ (∀ row ∈ (eatAll ts).Cells, row.length = 28) ∧
      (eatAll ts).Width = 28 ∧ (eatAll ts).Height = 31) ∧
    ((x < 0 ∨ x ≥ (eatAll ts).Width ∨ y < 0 ∨ y ≥ (eatAll ts).Height) →
      (eatAll ts).GetCell x y = CellWall ∧ (eatAll ts).IsWalkable x y = false ∧
      (eatAll ts).IsWalkableForGhost x y = false ∧
      (eatAll ts).EatPellet x y = ((false, false), eatAll ts)) ∧
    (¬ (x < 0 ∨ x ≥ (eatAll ts).Width ∨ y < 0 ∨ y ≥ (eatAll ts).Height) →
      (eatAll ts).cellAt x y = some ((eatAll ts).GetCell x y)) := by
  have h0 := mazeWF_new
  have h := mazeWF_eatAll ts
  refine ⟨⟨h0.rows, h0.cols, h0.width, h0.height⟩, ⟨h.rows, h.cols, h.width, h.height⟩, ?_, ?_⟩
  · intro hb
    have hc : (eatAll ts).GetCell x y = CellWall := by
      unfold Maze.GetCell
      rw [if_pos (by omega)]
    refine ⟨hc, ?_, ?_, ?_⟩
    · unfold Maze.IsWalkable
      simp [hc]
    · unfold Maze.IsWalkableForGhost
      simp [hc]
    · unfold Maze.EatPellet
      simp only [hc]
      rw [if_neg (by decide), if_neg (by decide)]
  · intro hb
    exact cellAt_stored _ h x y (by omega)

set_option maxRecDepth 100000 in
theorem coordinate_queries_total_witness :
    (eatAll []).GetCell (-1) 5 = CellWall ∧ (eatAll []).IsWalkable (-1) 5 = false ∧
    (eatAll []).cellAt 1 1 = some ((eatAll []).GetCell 1 1) ∧
    (eatAll []).GetCell 1 1 = CellPellet :=
  ⟨((coordinate_queries_total [] (-1) 5).2.2.1 (by decide)).1,
    ((coordinate_queries_total [] (-1) 5).2.2.1 (by decide)).2.1,
    (coordinate_queries_total [] 1 1).2.2.2 (by decide), by decide⟩

/-! ## The player's movement counter, turn and move -/

theorem update_fire (p : Pacman) (maze : Maze)
    (hfire : ¬ (p.MoveTick + 1 < p.tickPower.speed)) :
    p.Update maze = (p.turned maze).tryMove maze := by
  have h1 := tickPower_pos p
  unfold Pacman.Update Pacman.turned
  simp only []
  rw [if_neg]
  simpa [Pacman.speed, h1.2.2.2.2] using hfire

theorem update_wait (p : Pacman) (maze : Maze)
    (hwait : p.MoveTick + 1 < p.tickPower.speed) :
    p.Update maze = p.counted := by
  have h1 := tickPower_pos p
  unfold Pacman.Update Pacman.counted
  simp only []
  rw [if_pos]
  · simp [h1.2.2.2.2]
  · simpa [Pacman.speed, h1.2.2.2.2] using hwait

theorem tryMove_frame (p : Pacman) (maze : Maze) :
    (p.tryMove maze).Dir = p.Dir ∧ (p.tryMove maze).NextDir = p.NextDir ∧
    (p.tryMove maze).MoveTick = p.MoveTick := by
  unfold Pacman.tryMove
  simp only []
  split_ifs <;> simp

theorem turned_frame (p : Pacman) (maze : Maze) :
    (p.turned maze).X = p.X ∧ (p.turned maze).Y = p.Y ∧ (p.turned maze).MoveTick = 0 := by
  have h1 := tickPower_pos p
  unfold Pacman.turned Pacman.tryTurn
  simp only []
  split_ifs <;> simp [h1.1, h1.2.1]

/-- C22. For levels 1 ≤ a ≤ b the power duration set by
`ActivatePowerMode b` is at most the one set by `ActivatePowerMode a`; the
durations are 48 at level 1, 40 at level 2, 32 at levels 3 and 4, 24 at levels
5 to 8 and 16 from level 9 on; and the call always sets `PowerMode`. -/
theorem power_duration (p : Pacman) (a b : Int) (ha : 1 ≤ a) (hab : a ≤ b) :
    (p.ActivatePowerMode b).PowerTicks ≤ (p.ActivatePowerMode a).PowerTicks ∧
    (p.ActivatePowerMode a).PowerMode = true ∧
    (a = 1 → (p.ActivatePowerMode a).PowerTicks = 48) ∧
    (a = 2 → (p.ActivatePowerMode a).PowerTicks = 40) ∧
    (3 ≤ a → a ≤ 4 → (p.ActivatePowerMode a).PowerTicks = 32) ∧
    (5 ≤ a → a ≤ 8 → (p.ActivatePowerMode a).PowerTicks = 24) ∧
    (9 ≤ a → (p.ActivatePowerMode a).PowerTicks = 16 ∧
      16 ≤ (p.ActivatePowerMode 1).PowerTicks) := by
  have key : ∀ l : Int, (p.ActivatePowerMode l).PowerMode = true ∧
      (p.ActivatePowerMode l).PowerTicks =
        if l = 1 then 48 else if l = 2 then 40 else if l ≤ 4 then 32
        else if l ≤ 8 then 24 else 16 := by
    intro l
    unfold Pacman.ActivatePowerMode
    simp only []
    split_ifs <;> simp
  rw [(key a).2, (key b).2]
  refine ⟨?_, (key a).1, ?_, ?_, ?_, ?_, ?_⟩
  · split_ifs <;> omega
  · intro h; rw [if_pos h]
  · intro h; split_ifs <;> omega
  · intro h3 h4; split_ifs <;> omega
  · intro h3 h4; split_ifs <;> omega
  · intro h9
    refine ⟨by split_ifs <;> omega, ?_⟩
    rw [(key 1).2]; decide

theorem power_duration_witness :
    (1 : Int) ≤ 4 ∧ (4 : Int) ≤ 9 ∧
    (NewPacman.ActivatePowerMode 9).PowerTicks ≤ (NewPacman.ActivatePowerMode 4).PowerTicks ∧
    (NewPacman.ActivatePowerMode 4).PowerTicks = 32 :=
  ⟨by decide, by decide, (power_duration NewPacman 4 9 (by decide) (by decide)).1,
    (power_duration NewPacman 4 9 (by decide) (by decide)).2.2.2.2.1 (by decide) (by decide)⟩

theorem turned_dir (p : Pacman) (maze : Maze) :
    (p.NextDir ≠ DirNone →
      maze.IsWalkable (nextPos p.X p.Y p.NextDir).1 (nextPos p.X p.Y p.NextDir).2 = true →
      (p.turned maze).Dir = p.NextDir ∧ (p.turned maze).NextDir = DirNone) ∧
    (maze.IsWalkable (nextPos p.X p.Y p.NextDir).1 (nextPos p.X p.Y p.NextDir).2 = false →
      (p.turned maze).Dir = p.Dir ∧ (p.turned maze).NextDir = p.NextDir) ∧
    (p.NextDir = DirNone →
      (p.turned maze).Dir = p.Dir ∧ (p.turned maze).NextDir = p.NextDir) := by
  have h1 := tickPower_pos p
  unfold Pacman.turned Pacman.tryTurn Pacman.getNextPos
  simp only [h1.1, h1.2.1, h1.2.2.1, h1.2.2.2.1]
  refine ⟨?_, ?_, ?_⟩
  · intro hn hw
    simp [hn, hw]
  · intro hw
    simp only [hw]
    split_ifs with _ hf
    · exact hf.elim
    · simp [h1.2.2.1, h1.2.2.2.1]
    · simp [h1.2.2.1, h1.2.2.2.1]
  · intro hn
    simp [hn, h1.2.2.1, h1.2.2.2.1]

/-- C28. On an `Update` call where the movement counter fires and `NextDir`
is not `DirNone`, the move is attempted by the player `turned`: if the tile
one step from the player in `NextDir` is walkable, `Dir` has become `NextDir`
and `NextDir` has become `DirNone` there, and they keep these values in the
result; otherwise `Dir` and `NextDir` are both left unchanged. -/
theorem buffered_turn (p : Pacman) (maze : Maze)
    (hfire : ¬ (p.MoveTick + 1 < p.tickPower.speed)) (hnext : p.NextDir ≠ DirNone) :
    p.Update maze = (p.turned maze).tryMove maze ∧
    (maze.IsWalkable (nextPos p.X p.Y p.NextDir).1 (nextPos p.X p.Y p.NextDir).2 = true →
      (p.turned maze).Dir = p.NextDir ∧ (p.turned maze).NextDir = DirNone ∧
      (p.Update maze).Dir = p.NextDir ∧ (p.Update maze).NextDir = DirNone) ∧
    (maze.IsWalkable (nextPos p.X p.Y p.NextDir).1 (nextPos p.X p.Y p.NextDir).2 = false →
      (p.turned maze).Dir = p.Dir ∧ (p.turned maze).NextDir = p.NextDir ∧
      (p.Update maze).Dir = p.Dir ∧ (p.Update maze).NextDir = p.NextDir) := by
  have hu := update_fire p maze hfire
  have hm := tryMove_frame (p.turned maze) maze
  have ht := turned_dir p maze
  refine ⟨hu, ?_, ?_⟩
  · intro hw
    have h := ht.1 hnext hw
    exact ⟨h.1, h.2, by rw [hu, hm.1, h.1], by rw [hu, hm.2.1, h.2]⟩
  · intro hw
    have h := ht.2.1 hw
    exact ⟨h.1, h.2, by rw [hu, hm.1, h.1], by rw [hu, hm.2.1, h.2]⟩

set_option maxRecDepth 100000 in
theorem buffered_turn_witness :
    ¬ (cornerPlayer.MoveTick + 1 < cornerPlayer.tickPower.speed) ∧
    cornerPlayer.NextDir ≠ DirNone ∧
    NewMaze.IsWalkable 2 5 = true ∧
    (cornerPlayer.Update NewMaze).Dir = DirRight ∧
    (cornerPlayer.Update NewMaze).NextDir = DirNone ∧
    (cornerPlayer.Update NewMaze).X = 2 :=
  ⟨by decide, by decide, by decide,
    ((buffered_turn cornerPlayer NewMaze (by decide) (by decide)).2.1 (by decide)).2.2.1,
    ((buffered_turn cornerPlayer NewMaze (by decide) (by decide)).2.1 (by decide)).2.2.2,
    by decide⟩

/-- C29. On an `Update` call where the movement counter fires and the player
has a direction other than `DirNone` when the move is attempted: if the
wrap-adjusted tile one step in that direction is not walkable, the position
is unchanged and `Dir` keeps that direction; if it is walkable, the position
becomes exactly that tile. The direction at the move is the one the call
started with whenever no buffered turn is committed. -/
theorem blocked_move (p : Pacman) (maze : Maze)
    (hfire : ¬ (p.MoveTick + 1 < p.tickPower.speed))
    (hdir : (p.turned maze).Dir ≠ DirNone) :
    (maze.IsWalkable (wrapX maze (nextPos p.X p.Y (p.turned maze).Dir).1)
        (nextPos p.X p.Y (p.turned maze).Dir).2 = false →
      (p.Update maze).X = p.X ∧ (p.Update maze).Y = p.Y ∧
      (p.Update maze).Dir = (p.turned maze).Dir ∧ (p.Update maze).Dir ≠ DirNone) ∧
    (maze.IsWalkable (wrapX maze (nextPos p.X p.Y (p.turned maze).Dir).1)
        (nextPos p.X p.Y (p.turned maze).Dir).2 = true →
      (p.Update maze).X = wrapX maze (nextPos p.X p.Y (p.turned maze).Dir).1 ∧
      (p.Update maze).Y = (nextPos p.X p.Y (p.turned maze).Dir).2 ∧
      (p.Update maze).Dir = (p.turned maze).Dir) ∧
    ((p.NextDir = DirNone ∨
        maze.IsWalkable (nextPos p.X p.Y p.NextDir).1 (nextPos p.X p.Y p.NextDir).2 = false) →
      (p.turned maze).Dir = p.Dir) := by
  have hu := update_fire p maze hfire
  have hm := tryMove_frame (p.turned maze) maze
  have ht := turned_frame p maze
  have hd : (p.Update maze).Dir = (p.turned maze).Dir := by rw [hu, hm.1]
  refine ⟨?_, ?_, ?_⟩
  · intro hw
    refine ⟨?_, ?_, hd, by rw [hd]; exact hdir⟩
    · rw [hu]
      unfold Pacman.tryMove Pacman.getNextPos
      simp only [ht.1, ht.2.1, hw]
      simp [hdir, ht.1]
    · rw [hu]
      unfold Pacman.tryMove Pacman.getNextPos
      simp only [ht.1, ht.2.1, hw]
      simp [hdir, ht.2.1]
  · intro hw
    refine ⟨?_, ?_, hd⟩
    · rw [hu]
      unfold Pacman.tryMove Pacman.getNextPos
      simp only [ht.1, ht.2.1, hw]
      simp [hdir]
    · rw [hu]
      unfold Pacman.tryMove Pacman.getNextPos
      simp only [ht.1, ht.2.1, hw]
      simp [hdir]
  · intro hno
    rcases hno with hn | hb
    · exact ((turned_dir p maze).2.2 hn).1
    · exact ((turned_dir p maze).2.1 hb).1

set_option maxRecDepth 100000 in
theorem blocked_move_witness :
    ¬ (blockedPlayer.MoveTick + 1 < blockedPlayer.tickPower.speed) ∧
    (blockedPlayer.turned NewMaze).Dir = DirUp ∧
    NewMaze.IsWalkable 1 0 = false ∧
    (blockedPlayer.Update NewMaze).X = 1 ∧ (blockedPlayer.Update NewMaze).Y = 1 ∧
    (blockedPlayer.Update NewMaze).Dir = DirUp :=
  ⟨by decide, by decide, by decide,
    ((blocked_move blockedPlayer NewMaze (by decide) (by decide)).1 (by decide)).1,
    ((blocked_move blockedPlayer NewMaze (by decide) (by decide)).1 (by decide)).2.1,
    by decide⟩

/-! ## The pursuers' update: speed, respawn and the greedy choice -/

theorem update_eaten (g : Ghost) (maze : Maze) (pacman : Pacman) (level : Int)
    (hm : g.Mode = ModeEaten) :
    g.Update maze pacman level =
      ({ g with AnimFrame := g.AnimFrame + 1 } : Ghost).updateEaten maze := by
  unfold Ghost.Update
  simp only []
  rw [if_pos hm]

theorem update_alive (g : Ghost) (maze : Maze) (pacman : Pacman) (level : Int)
    (hm : g.Mode ≠ ModeEaten) :
    g.Update maze pacman level =
      if (g.prepared pacman).MoveTick + 1 < (g.prepared pacman).speed level
      then { g.prepared pacman with MoveTick := (g.prepared pacman).MoveTick + 1 }
      else ({ g.prepared pacman with MoveTick := 0 } : Ghost).move maze pacman := by
  unfold Ghost.Update Ghost.prepared
  simp only []
  rw [if_neg hm]

theorem prepared_frame (g : Ghost) (pacman : Pacman) :
    (g.prepared pacman).X = g.X ∧ (g.prepared pacman).Y = g.Y ∧
    (g.prepared pacman).Dir = g.Dir ∧ (g.prepared pacman).MoveTick = g.MoveTick ∧
    (g.prepared pacman).Typ = g.Typ := by
  unfold Ghost.prepared Ghost.stepMode
  split_ifs <;> simp

theorem speed_eq (g : Ghost) (level : Int) (hl : 1 ≤ level) :
    g.speed level = specInterval level (decide (g.Mode = ModeFrightened)) := by
  have hd : (level - 1).tdiv 3 = (level - 1) / 3 :=
    Int.tdiv_eq_ediv (by omega) (by omega)
  have hfd : Int.fdiv (level - 1) 3 = (level - 1) / 3 := Int.fdiv_eq_ediv _ (by omega)
  unfold Ghost.speed specInterval
  simp only [BaseGhostSpeed, hd, hfd, max_def]
  by_cases hf : g.Mode = ModeFrightened
  · simp only [hf, decide_True, if_true]
    split_ifs <;> omega
  · simp only [hf, decide_False, if_false]
    split_ifs <;> first | omega | (exfalso; simp_all)

/-- C27. For every level ≥ 1 and every non-Eaten pursuer, the interval used
by `Ghost.Update` is max(1, 2 - floor((level-1)/3)), plus 2 when the mode
after the mode step is Frightened: a call whose incremented `MoveTick` is
below the interval only counts, every other call resets the counter and
attempts a move. The interval is non-increasing in the level, and the interval
of a Frightened pursuer is exactly 2 larger than that of a non-Frightened one
at the same level. -/
theorem pursuer_speed (g : Ghost) (maze : Maze) (pacman : Pacman) (level : Int)
    (hl : 1 ≤ level) (hm : g.Mode ≠ ModeEaten) :
    (g.prepared pacman).speed level =
      specInterval level (decide ((g.prepared pacman).Mode = ModeFrightened)) ∧
    (g.MoveTick + 1 < (g.prepared pacman).speed level →
      g.Update maze pacman level = { g.prepared pacman with MoveTick := g.MoveTick + 1 }) ∧
    (¬ (g.MoveTick + 1 < (g.prepared pacman).speed level) →
      g.Update maze pacman level =
        ({ g.prepared pacman with MoveTick := 0 } : Ghost).move maze pacman) ∧
    (∀ (h : Ghost) (l2 : Int), level ≤ l2 → h.speed l2 ≤ h.speed level) ∧
    (∀ h k : Ghost, h.Mode = ModeFrightened → k.Mode ≠ ModeFrightened →
      h.speed level = k.speed level + 2) := by
  have hmt := (prepared_frame g pacman).2.2.2.1
  have hu := update_alive g maze pacman level hm
  rw [hmt] at hu
  refine ⟨speed_eq _ level hl, ?_, ?_, ?_, ?_⟩
  · intro h
    rw [hu, if_pos h]
  · intro h
    rw [hu, if_neg h]
  · intro h l2 hle
    rw [speed_eq h l2 (by omega), speed_eq h level hl]
    have h1 : Int.fdiv (level - 1) 3 = (level - 1) / 3 := Int.fdiv_eq_ediv _ (by omega)
    have h2 : Int.fdiv (l2 - 1) 3 = (l2 - 1) / 3 := Int.fdiv_eq_ediv _ (by omega)
    unfold specInterval
    simp only [h1, h2, max_def]
    split_ifs <;> omega
  · intro h k hh hk
    rw [speed_eq h level hl, speed_eq k level hl]
    unfold specInterval
    simp [hh, hk]

theorem pursuer_speed_witness :
    (1 : Int) ≤ 4 ∧ (NewGhost GhostBlinky 6 5).Mode ≠ ModeEaten ∧
    ((NewGhost GhostBlinky 6 5).prepared NewPacman).speed 4 = specInterval 4 false ∧
    specInterval 4 false = 1 :=
  ⟨by decide, by decide,
    (pursuer_speed (NewGhost GhostBlinky 6 5) NewMaze NewPacman 4 (by decide) (by decide)).1,
    by decide⟩

theorem eaten_close (g : Ghost) (maze : Maze)
    (hc : |g.X - g.TargetX| ≤ 2 ∧ |g.Y - g.TargetY| ≤ 2) :
    g.updateEaten maze = { g with X := 14, Y := 14, Mode := ModeScatter, RespawnTimer := 16 } := by
  unfold Ghost.updateEaten
  simp only []
  rw [if_pos]
  rw [abs_le, abs_le] at hc
  constructor <;> split_ifs <;> omega

theorem eaten_far (g : Ghost) (maze : Maze)
    (hc : ¬ (|g.X - g.TargetX| ≤ 2 ∧ |g.Y - g.TargetY| ≤ 2)) :
    (g.updateEaten maze).Mode = g.Mode ∧
    (((g.updateEaten maze).X = g.X ∧ (g.updateEaten maze).Y = g.Y) ∨
     ((g.updateEaten maze).Dir = g.chooseReturnDirection maze g.TargetX g.TargetY ∧
      ((g.updateEaten maze).X, (g.updateEaten maze).Y) =
        nextPos g.X g.Y (g.chooseReturnDirection maze g.TargetX g.TargetY))) := by
  have hd : ∀ mt : Int, ({ g with MoveTick := mt } : Ghost).chooseReturnDirection maze
      g.TargetX g.TargetY = g.chooseReturnDirection maze g.TargetX g.TargetY := fun _ => rfl
  unfold Ghost.updateEaten
  simp only []
  rw [if_neg]
  · simp only [Ghost.getNextPos, hd]
    split_ifs
    · exact ⟨rfl, Or.inl ⟨rfl, rfl⟩⟩
    · exact ⟨rfl, Or.inr ⟨rfl, rfl⟩⟩
    · exact ⟨rfl, Or.inl ⟨rfl, rfl⟩⟩
  · intro h
    apply hc
    rw [abs_le, abs_le]
    constructor
    · have := h.1
      split_ifs at this <;> omega
    · have := h.2
      split_ifs at this <;> omega

/-- C26. For an Eaten pursuer, `Ghost.Update` puts it on (14,14) with
`Mode = Scatter` and `RespawnTimer = 16`, leaving `Dir` and `MoveTick` as they
were, if and only if |X - TargetX| ≤ 2 and |Y - TargetY| ≤ 2 at the start of
the call. Otherwise the pursuer stays Eaten and either keeps its tile or
takes the direction returned by `chooseReturnDirection` and stands on the tile
one step from its old tile in that direction. -/
theorem eaten_respawn (g : Ghost) (maze : Maze) (pacman : Pacman) (level : Int)
    (hm : g.Mode = ModeEaten) :
    (((g.Update maze pacman level).X = 14 ∧ (g.Update maze pacman level).Y = 14 ∧
      (g.Update maze pacman level).Mode = ModeScatter ∧
      (g.Update maze pacman level).RespawnTimer = 16 ∧
      (g.Update maze pacman level).Dir = g.Dir ∧
      (g.Update maze pacman level).MoveTick = g.MoveTick) ↔
      (|g.X - g.TargetX| ≤ 2 ∧ |g.Y - g.TargetY| ≤ 2)) ∧
    (¬ (|g.X - g.TargetX| ≤ 2 ∧ |g.Y - g.TargetY| ≤ 2) →
      (g.Update maze pacman level).Mode = ModeEaten ∧
      (((g.Update maze pacman level).X = g.X ∧ (g.Update maze pacman level).Y = g.Y) ∨
       ((g.Update maze pacman level).Dir = g.chooseReturnDirection maze g.TargetX g.TargetY ∧
        ((g.Update maze pacman level).X, (g.Update maze pacman level).Y) =
          nextPos g.X g.Y (g.chooseReturnDirection maze g.TargetX g.TargetY)))) := by
  have hu := update_eaten g maze pacman level hm
  have hfar : ¬ (|g.X - g.TargetX| ≤ 2 ∧ |g.Y - g.TargetY| ≤ 2) →
      (g.Update maze pacman level).Mode = ModeEaten ∧
      (((g.Update maze pacman level).X = g.X ∧ (g.Update maze pacman level).Y = g.Y) ∨
       ((g.Update maze pacman level).Dir = g.chooseReturnDirection maze g.TargetX g.TargetY ∧
        ((g.Update maze pacman level).X, (g.Update maze pacman level).Y) =
          nextPos g.X g.Y (g.chooseReturnDirection maze g.TargetX g.TargetY))) := by
    intro hc
    have h := eaten_far ({ g with AnimFrame := g.AnimFrame + 1 } : Ghost) maze hc
    rw [← hu] at h
    exact ⟨h.1.trans hm, h.2⟩
  refine ⟨⟨?_, ?_⟩, hfar⟩
  · intro h
    by_contra hc
    have h2 := (hfar hc).1
    rw [h.2.2.1] at h2
    exact absurd h2 (by decide)
  · intro hc
    have h := eaten_close ({ g with AnimFrame := g.AnimFrame + 1 } : Ghost) maze hc
    rw [hu, h]
    exact ⟨rfl, rfl, rfl, rfl, rfl, rfl⟩

theorem eaten_respawn_witness :
    nearEyes.Mode = ModeEaten ∧
    (|nearEyes.X - nearEyes.TargetX| ≤ 2 ∧ |nearEyes.Y - nearEyes.TargetY| ≤ 2) ∧
    (nearEyes.Update NewMaze NewPacman 1).X = 14 ∧
    (nearEyes.Update NewMaze NewPacman 1).Mode = ModeScatter :=
  ⟨by decide, by decide,
    ((eaten_respawn nearEyes NewMaze NewPacman 1 (by decide)).1.2 (by decide)).1,
    ((eaten_respawn nearEyes NewMaze NewPacman 1 (by decide)).1.2 (by decide)).2.2.1⟩

theorem scan_step (g : Ghost) (maze : Maze) (tx ty : Int) (ps : List Direction) (b : Best)
    (d : Direction) (hd : d ≠ DirNone) (hlt : ∀ p ∈ ps, p.toNat < d.toNat)
    (h : ScanInv g maze tx ty ps b) :
    ScanInv g maze tx ty (ps ++ [d]) (g.scanDir maze tx ty b d) := by
  have hmem : ∀ e, e ∈ ps ++ [d] ↔ e ∈ ps ∨ e = d := by
    intro e
    rw [List.mem_append, List.mem_singleton]
  by_cases hw : g.canStep maze d = true
  · have hw2 : maze.IsWalkableForGhost (nextPos g.X g.Y d).1 (nextPos g.X g.Y d).2 = true := hw
    by_cases hr : d = oppositeDir g.Dir
    · by_cases hlt2 : distLt (|(nextPos g.X g.Y d).1 - tx| + |(nextPos g.X g.Y d).2 - ty|)
          b.reverseDist = true
      · have hs : g.scanDir maze tx ty b d =
            { b with reverseDist := some (|(nextPos g.X g.Y d).1 - tx| +
                |(nextPos g.X g.Y d).2 - ty|), reverseDir := d } := by
          unfold Ghost.scanDir
          simp only [hw2, Bool.not_true, Bool.false_eq_true, if_false, if_pos hr, if_pos hlt2]
        rw [hs]
        refine ⟨?_, ?_, ?_, ?_⟩
        · intro hb
          refine ⟨(h.noBest hb).1, ?_⟩
          intro e he hwe
          rcases (hmem e).1 he with he | he
          · exact (h.noBest hb).2 e he hwe
          · rw [he]; exact hr
        · intro hb
          have hbb := h.best hb
          refine ⟨(hmem _).2 (Or.inl hbb.1), hbb.2.1, hbb.2.2.1, hbb.2.2.2.1, ?_⟩
          intro e he hwe hne
          rcases (hmem e).1 he with he | he
          · exact hbb.2.2.2.2 e he hwe hne
          · exact absurd (he.trans hr) hne
        · intro hb
          exact absurd hb hd
        · intro _
          exact ⟨(hmem _).2 (Or.inr rfl), hw, hr⟩
      · have hs : g.scanDir maze tx ty b d = b := by
          unfold Ghost.scanDir
          simp only [hw2, Bool.not_true, Bool.false_eq_true, if_false, if_pos hr, if_neg hlt2]
        rw [hs]
        have hsome : b.reverseDir ≠ DirNone := by
          intro hn
          apply hlt2
          rw [(h.noBackup hn).1]
          rfl
        refine ⟨?_, ?_, ?_, ?_⟩
        · intro hb
          refine ⟨(h.noBest hb).1, ?_⟩
          intro e he hwe
          rcases (hmem e).1 he with he | he
          · exact (h.noBest hb).2 e he hwe
          · rw [he]; exact hr
        · intro hb
          have hbb := h.best hb
          refine ⟨(hmem _).2 (Or.inl hbb.1), hbb.2.1, hbb.2.2.1, hbb.2.2.2.1, ?_⟩
          intro e he hwe hne
          rcases (hmem e).1 he with he | he
          · exact hbb.2.2.2.2 e he hwe hne
          · exact absurd (he.trans hr) hne
        · intro hb
          exact absurd hb hsome
        · intro hb
          have hbb := h.backup hb
          exact ⟨(hmem _).2 (Or.inl hbb.1), hbb.2.1, hbb.2.2⟩
    · by_cases hlt2 : distLt (|(nextPos g.X g.Y d).1 - tx| + |(nextPos g.X g.Y d).2 - ty|)
          b.bestDist = true
      · have hs : g.scanDir maze tx ty b d =
            { b with bestDist := some (|(nextPos g.X g.Y d).1 - tx| +
                |(nextPos g.X g.Y d).2 - ty|), bestDir := d } := by
          unfold Ghost.scanDir
          simp only [hw2, Bool.not_true, Bool.false_eq_true, if_false, if_neg hr, if_pos hlt2]
        rw [hs]
        refine ⟨?_, ?_, ?_, ?_⟩
        · intro hb
          exact absurd hb hd
        · intro _
          refine ⟨(hmem _).2 (Or.inr rfl), hw, hr, rfl, ?_⟩
          intro e he hwe hne
          rcases (hmem e).1 he with he | he
          · by_cases hb : b.bestDir = DirNone
            · exact absurd ((h.noBest hb).2 e he hwe) hne
            · have hbb := h.best hb
              have hcmp : g.distVia tx ty d < g.distVia tx ty b.bestDir := by
                rw [hbb.2.2.2.1] at hlt2
                simpa [distLt, Ghost.distVia] using hlt2
              left
              show g.distVia tx ty d < g.distVia tx ty e
              rcases hbb.2.2.2.2 e he hwe hne with h1 | h1
              · omega
              · omega
          · right
            rw [he]
            exact ⟨rfl, le_refl _⟩
        · intro hb
          refine ⟨(h.noBackup hb).1, ?_⟩
          intro e he hwe
          rcases (hmem e).1 he with he | he
          · exact (h.noBackup hb).2 e he hwe
          · rw [he]; exact hr
        · intro hb
          have hbb := h.backup hb
          exact ⟨(hmem _).2 (Or.inl hbb.1), hbb.2.1, hbb.2.2⟩
      · have hs : g.scanDir maze tx ty b d = b := by
          unfold Ghost.scanDir
          simp only [hw2, Bool.not_true, Bool.false_eq_true, if_false, if_neg hr, if_neg hlt2]
        rw [hs]
        have hsome : b.bestDir ≠ DirNone := by
          intro hn
          apply hlt2
          rw [(h.noBest hn).1]
          rfl
        have hbb := h.best hsome
        refine ⟨?_, ?_, ?_, ?_⟩
        · intro hb
          exact absurd hb hsome
        · intro _
          refine ⟨(hmem _).2 (Or.inl hbb.1), hbb.2.1, hbb.2.2.1, hbb.2.2.2.1, ?_⟩
          intro e he hwe hne
          rcases (hmem e).1 he with he | he
          · exact hbb.2.2.2.2 e he hwe hne
          · rw [he]
            have hcmp : ¬ g.distVia tx ty d < g.distVia tx ty b.bestDir := by
              rw [hbb.2.2.2.1] at hlt2
              simpa [distLt, Ghost.distVia] using hlt2
            have hrank := hlt _ hbb.1
            by_cases heq : g.distVia tx ty b.bestDir = g.distVia tx ty d
            · exact Or.inr ⟨heq, by omega⟩
            · exact Or.inl (by omega)
        · intro hb
          refine ⟨(h.noBackup hb).1, ?_⟩
          intro e he hwe
          rcases (hmem e).1 he with he | he
          · exact (h.noBackup hb).2 e he hwe
          · rw [he]; exact hr
        · intro hb
          have hbb2 := h.backup hb
          exact ⟨(hmem _).2 (Or.inl hbb2.1), hbb2.2.1, hbb2.2.2⟩
  · have hw2 : maze.IsWalkableForGhost (nextPos g.X g.Y d).1 (nextPos g.X g.Y d).2 = false := by
      simpa [Ghost.canStep] using hw
    have hs : g.scanDir maze tx ty b d = b := by
      unfold Ghost.scanDir
      simp only [hw2, Bool.not_false, if_true]
    rw [hs]
    refine ⟨?_, ?_, ?_, ?_⟩
    · intro hb
      refine ⟨(h.noBest hb).1, ?_⟩
      intro e he hwe
      rcases (hmem e).1 he with he | he
      · exact (h.noBest hb).2 e he hwe
      · rw [he] at hwe; exact absurd hwe hw
    · intro hb
      have hbb := h.best hb
      refine ⟨(hmem _).2 (Or.inl hbb.1), hbb.2.1, hbb.2.2.1, hbb.2.2.2.1, ?_⟩
      intro e he hwe hne
      rcases (hmem e).1 he with he | he
      · exact hbb.2.2.2.2 e he hwe hne
      · rw [he] at hwe; exact absurd hwe hw
    · intro hb
      refine ⟨(h.noBackup hb).1, ?_⟩
      intro e he hwe
      rcases (hmem e).1 he with he | he
      · exact (h.noBackup hb).2 e he hwe
      · rw [he] at hwe; exact absurd hwe hw
    · intro hb
      have hbb := h.backup hb
      exact ⟨(hmem _).2 (Or.inl hbb.1), hbb.2.1, hbb.2.2⟩

theorem scan_all (g : Ghost) (maze : Maze) (tx ty : Int) :
    ScanInv g maze tx ty allDirs (allDirs.foldl (g.scanDir maze tx ty)
      { bestDir := DirNone, bestDist := none, reverseDir := DirNone, reverseDist := none }) := by
  have h0 : ScanInv g maze tx ty []
      { bestDir := DirNone, bestDist := none, reverseDir := DirNone, reverseDist := none } :=
    ⟨fun _ => ⟨rfl, fun d hd => absurd hd (List.not_mem_nil d)⟩, fun h => absurd rfl h,
     fun _ => ⟨rfl, fun d hd => absurd hd (List.not_mem_nil d)⟩, fun h => absurd rfl h⟩
  have h1 := scan_step g maze tx ty [] _ DirUp (by decide) (by decide) h0
  have h2 := scan_step g maze tx ty _ _ DirDown (by decide) (by decide) h1
  have h3 := scan_step g maze tx ty _ _ DirLeft (by decide) (by decide) h2
  exact scan_step g maze tx ty _ _ DirRight (by decide) (by decide) h3

theorem choose_eq (g : Ghost) (maze : Maze) (pacman : Pacman) :
    ∃ b : Best, ScanInv g maze (g.target maze pacman).1 (g.target maze pacman).2 allDirs b ∧
      g.chooseDirection maze pacman =
        if b.bestDir = DirNone then (if b.reverseDir ≠ DirNone then b.reverseDir else g.Dir)
        else b.bestDir :=
  ⟨_, scan_all g maze _ _, rfl⟩

theorem indexOf_allDirs (d : Direction) (hd : d ∈ allDirs) :
    allDirs.indexOf d + 1 = d.toNat := by
  cases d
  · exact absurd hd (by decide)
  all_goals rfl

/-- With a walkable non-reversing neighbour, the choice is the earliest
minimiser among the walkable non-reversing neighbours. -/
theorem choose_best (g : Ghost) (maze : Maze) (pacman : Pacman)
    (h : ∃ d ∈ allDirs, d ≠ oppositeDir g.Dir ∧ g.canStep maze d = true) :
    g.chooseDirection maze pacman ∈ allDirs ∧
    g.chooseDirection maze pacman ≠ oppositeDir g.Dir ∧
    g.canStep maze (g.chooseDirection maze pacman) = true ∧
    ∀ d ∈ allDirs, d ≠ oppositeDir g.Dir → g.canStep maze d = true →
      g.distVia (g.target maze pacman).1 (g.target maze pacman).2
          (g.chooseDirection maze pacman) ≤
        g.distVia (g.target maze pacman).1 (g.target maze pacman).2 d ∧
      (g.distVia (g.target maze pacman).1 (g.target maze pacman).2 d =
          g.distVia (g.target maze pacman).1 (g.target maze pacman).2
            (g.chooseDirection maze pacman) →
        (g.chooseDirection maze pacman).toNat ≤ d.toNat) := by
  obtain ⟨b, hinv, heq⟩ := choose_eq g maze pacman
  obtain ⟨d0, hd0, hne0, hw0⟩ := h
  have hb : b.bestDir ≠ DirNone := fun hn => hne0 ((hinv.noBest hn).2 d0 hd0 hw0)
  rw [if_neg hb] at heq
  rw [heq]
  have hbb := hinv.best hb
  refine ⟨hbb.1, hbb.2.2.1, hbb.2.1, ?_⟩
  intro d hd hne hw
  rcases hbb.2.2.2.2 d hd hw hne with h1 | h1
  · exact ⟨le_of_lt h1, fun h2 => absurd h2 (by omega)⟩
  · exact ⟨le_of_eq h1.1, fun _ => h1.2⟩

/-- With any walkable neighbour, the choice is a direction whose neighbour is
walkable. -/
theorem choose_open (g : Ghost) (maze : Maze) (pacman : Pacman)
    (h : ∃ d ∈ allDirs, g.canStep maze d = true) :
    g.chooseDirection maze pacman ∈ allDirs ∧
    g.canStep maze (g.chooseDirection maze pacman) = true := by
  obtain ⟨b, hinv, heq⟩ := choose_eq g maze pacman
  obtain ⟨d0, hd0, hw0⟩ := h
  by_cases hb : b.bestDir = DirNone
  · by_cases hr : b.reverseDir = DirNone
    · exact absurd ((hinv.noBest hb).2 d0 hd0 hw0) ((hinv.noBackup hr).2 d0 hd0 hw0)
    · rw [if_pos hb, if_pos hr] at heq
      rw [heq]
      exact ⟨(hinv.backup hr).1, (hinv.backup hr).2.1⟩
  · rw [if_neg hb] at heq
    rw [heq]
    exact ⟨(hinv.best hb).1, (hinv.best hb).2.1⟩

/-- C24. Whenever at least one non-reversing cardinal neighbour of the
pursuer, computed without wrap, is pursuer-walkable, `chooseDirection` returns
a cardinal direction that is not the reverse of the facing, whose neighbour is
walkable and whose Manhattan distance to the target is at most that of every
walkable non-reversing neighbour; and no walkable non-reversing neighbour at
the same distance comes earlier in the order Up, Down, Left, Right. -/
theorem greedy_minimiser (g : Ghost) (maze : Maze) (pacman : Pacman)
    (h : ∃ d ∈ allDirs, d ≠ oppositeDir g.Dir ∧ g.canStep maze d = true) :
    g.chooseDirection maze pacman ∈ allDirs ∧
    g.chooseDirection maze pacman ≠ oppositeDir g.Dir ∧
    g.canStep maze (g.chooseDirection maze pacman) = true ∧
    ∀ d ∈ allDirs, d ≠ oppositeDir g.Dir → g.canStep maze d = true →
      g.distVia (g.target maze pacman).1 (g.target maze pacman).2
          (g.chooseDirection maze pacman) ≤
        g.distVia (g.target maze pacman).1 (g.target maze pacman).2 d ∧
      (g.distVia (g.target maze pacman).1 (g.target maze pacman).2 d =
          g.distVia (g.target maze pacman).1 (g.target maze pacman).2
            (g.chooseDirection maze pacman) →
        allDirs.indexOf (g.chooseDirection maze pacman) ≤ allDirs.indexOf d) := by
  have hb := choose_best g maze pacman h
  refine ⟨hb.1, hb.2.1, hb.2.2.1, ?_⟩
  intro d hd hne hw
  refine ⟨(hb.2.2.2 d hd hne hw).1, ?_⟩
  intro heq
  have h1 := (hb.2.2.2 d hd hne hw).2 heq
  have h2 := indexOf_allDirs d hd
  have h3 := indexOf_allDirs _ hb.1
  omega

set_option maxRecDepth 100000 in
theorem greedy_minimiser_witness :
    (∃ d ∈ allDirs, d ≠ oppositeDir junctionGhost.Dir ∧
      junctionGhost.canStep NewMaze d = true) ∧
    junctionGhost.chooseDirection NewMaze NewPacman ≠ oppositeDir junctionGhost.Dir ∧
    junctionGhost.chooseDirection NewMaze NewPacman = DirDown ∧
    junctionGhost.distVia 14 23 DirDown = 25 ∧ junctionGhost.distVia 14 23 DirUp = 27 ∧
    junctionGhost.distVia 14 23 DirLeft = 27 :=
  ⟨⟨DirUp, by decide, by decide, by decide⟩,
    (greedy_minimiser junctionGhost NewMaze NewPacman
      ⟨DirUp, by decide, by decide, by decide⟩).2.1,
    by decide, by decide, by decide, by decide⟩


set_option maxRecDepth 1000000 in
theorem exits_everywhere :
    ∀ i < 28, ∀ j < 31, NewMaze.IsWalkableForGhost (i : Nat) (j : Nat) = true →
      hasExit (i : Nat) (j : Nat) = true := by
  decide

theorem walkable_inbounds (m : Maze) (x y : Int) (h : m.IsWalkableForGhost x y = true) :
    0 ≤ x ∧ x < m.Width ∧ 0 ≤ y ∧ y < m.Height := by
  have hc : m.GetCell x y ≠ CellWall := by simpa [Maze.IsWalkableForGhost] using h
  have hb := (getCell_stored m x y hc).1
  exact ⟨hb.2.2.1, hb.2.2.2, hb.1, hb.2.1⟩

theorem exit_exists (g : Ghost) (maze : Maze)
    (hmaze : ∀ x y, maze.IsWalkableForGhost x y = NewMaze.IsWalkableForGhost x y)
    (hpos : maze.IsWalkableForGhost g.X g.Y = true) :
    ∃ d ∈ allDirs, g.canStep maze d = true := by
  rw [hmaze] at hpos
  have hb := walkable_inbounds NewMaze g.X g.Y hpos
  have hW : NewMaze.Width = 28 := rfl
  have hH : NewMaze.Height = 31 := rfl
  rw [hW, hH] at hb
  have hx : ((g.X.toNat : Nat) : Int) = g.X := Int.toNat_of_nonneg hb.1
  have hy : ((g.Y.toNat : Nat) : Int) = g.Y := Int.toNat_of_nonneg hb.2.2.1
  have he := exits_everywhere g.X.toNat (by omega) g.Y.toNat (by omega)
  rw [hx, hy] at he
  have h2 := he hpos
  unfold hasExit at h2
  rw [List.any_eq_true] at h2
  obtain ⟨d, hd, hwd⟩ := h2
  refine ⟨d, hd, ?_⟩
  unfold Ghost.canStep
  rw [hmaze]
  exact hwd

theorem nextPos_adjacent (x y : Int) (d : Direction) (hd : d ∈ allDirs) :
    |(nextPos x y d).1 - x| + |(nextPos x y d).2 - y| = 1 := by
  cases d
  · exact absurd hd (by decide)
  all_goals simp [nextPos]

theorem move_step (m : Ghost) (maze : Maze) (pacman : Pacman) (hw : maze.Width = 28)
    (hmaze : ∀ x y, maze.IsWalkableForGhost x y = NewMaze.IsWalkableForGhost x y)
    (hpos : maze.IsWalkableForGhost m.X m.Y = true) :
    m.chooseDirection maze pacman ∈ allDirs ∧
    m.canStep maze (m.chooseDirection maze pacman) = true ∧
    (0 ≤ (nextPos m.X m.Y (m.chooseDirection maze pacman)).1 ∧
      (nextPos m.X m.Y (m.chooseDirection maze pacman)).1 < maze.Width) ∧
    (m.move maze pacman).Dir = m.chooseDirection maze pacman ∧
    (m.move maze pacman).X = (nextPos m.X m.Y (m.chooseDirection maze pacman)).1 ∧
    (m.move maze pacman).Y = (nextPos m.X m.Y (m.chooseDirection maze pacman)).2 := by
  have hc := choose_open m maze pacman (exit_exists m maze hmaze hpos)
  have hstep : maze.IsWalkableForGhost (nextPos m.X m.Y (m.chooseDirection maze pacman)).1
      (nextPos m.X m.Y (m.chooseDirection maze pacman)).2 = true := hc.2
  have hb := walkable_inbounds maze _ _ hstep
  have hwrap : wrapX maze (nextPos m.X m.Y (m.chooseDirection maze pacman)).1 =
      (nextPos m.X m.Y (m.chooseDirection maze pacman)).1 := by
    unfold wrapX
    rw [if_neg (by omega), if_neg (by omega)]
  refine ⟨hc.1, hc.2, ⟨hb.1, hb.2.1⟩, ?_, ?_, ?_⟩
  · unfold Ghost.move
    simp only []
    split_ifs <;> rfl
  · unfold Ghost.move
    simp only [Ghost.getNextPos, hwrap, hstep, if_true]
  · unfold Ghost.move
    simp only [Ghost.getNextPos, hwrap, hstep, if_true]

/-- C30. In every maze with the width and the pursuer-walkable cells of the
fixed layout, `Ghost.Update` leaves a non-Eaten pursuer that stands on a
pursuer-walkable tile either where it was or on the in-bounds walkable
4-neighbour one step in its new direction (|dx| + |dy| = 1). The direction
chosen at the move has an in-bounds neighbour computed without wrap, so the
wrap branch of the movement step is never taken. -/
theorem pursuers_never_wrap (g : Ghost) (maze : Maze) (pacman : Pacman) (level : Int)
    (hw : maze.Width = 28)
    (hmaze : ∀ x y, maze.IsWalkableForGhost x y = NewMaze.IsWalkableForGhost x y)
    (hm : g.Mode ≠ ModeEaten) (hpos : maze.IsWalkableForGhost g.X g.Y = true) :
    (((g.Update maze pacman level).X = g.X ∧ (g.Update maze pacman level).Y = g.Y) ∨
      (|(g.Update maze pacman level).X - g.X| + |(g.Update maze pacman level).Y - g.Y| = 1 ∧
       ((g.Update maze pacman level).X, (g.Update maze pacman level).Y) =
         nextPos g.X g.Y (g.Update maze pacman level).Dir)) ∧
    maze.IsWalkableForGhost (g.Update maze pacman level).X (g.Update maze pacman level).Y
      = true ∧
    (0 ≤ (g.Update maze pacman level).X ∧ (g.Update maze pacman level).X < 28 ∧
     0 ≤ (g.Update maze pacman level).Y ∧ (g.Update maze pacman level).Y < 31) ∧
    (0 ≤ (nextPos g.X g.Y ((g.mover pacman).chooseDirection maze pacman)).1 ∧
      (nextPos g.X g.Y ((g.mover pacman).chooseDirection maze pacman)).1 < maze.Width ∧
      wrapX maze (nextPos g.X g.Y ((g.mover pacman).chooseDirection maze pacman)).1 =
        (nextPos g.X g.Y ((g.mover pacman).chooseDirection maze pacman)).1) := by
  have hp := prepared_frame g pacman
  have hmx : (g.mover pacman).X = g.X := hp.1
  have hmy : (g.mover pacman).Y = g.Y := hp.2.1
  have hmpos : maze.IsWalkableForGhost (g.mover pacman).X (g.mover pacman).Y = true := by
    rw [hmx, hmy]; exact hpos
  have hs := move_step (g.mover pacman) maze pacman hw hmaze hmpos
  rw [hmx, hmy] at hs
  have hbounds : ∀ x y, maze.IsWalkableForGhost x y = true →
      0 ≤ x ∧ x < 28 ∧ 0 ≤ y ∧ y < 31 := by
    intro x y h
    rw [hmaze] at h
    exact walkable_inbounds NewMaze x y h
  have hwrap : wrapX maze (nextPos g.X g.Y ((g.mover pacman).chooseDirection maze pacman)).1 =
      (nextPos g.X g.Y ((g.mover pacman).chooseDirection maze pacman)).1 := by
    unfold wrapX
    rw [if_neg (by omega), if_neg (by omega)]
  have hu := update_alive g maze pacman level hm
  by_cases hfire : (g.prepared pacman).MoveTick + 1 < (g.prepared pacman).speed level
  · rw [if_pos hfire] at hu
    have hx : (g.Update maze pacman level).X = g.X := by rw [hu]; exact hp.1
    have hy : (g.Update maze pacman level).Y = g.Y := by rw [hu]; exact hp.2.1
    rw [hx, hy]
    exact ⟨Or.inl ⟨rfl, rfl⟩, hpos, hbounds _ _ hpos, hs.2.2.1.1, hs.2.2.1.2, hwrap⟩
  · rw [if_neg hfire] at hu
    have hum : g.Update maze pacman level = (g.mover pacman).move maze pacman := hu
    have hstep : maze.IsWalkableForGhost
        (nextPos g.X g.Y ((g.mover pacman).chooseDirection maze pacman)).1
        (nextPos g.X g.Y ((g.mover pacman).chooseDirection maze pacman)).2 = true := by
      have := hs.2.1
      unfold Ghost.canStep at this
      rw [hmx, hmy] at this
      exact this
    rw [hum, hs.2.2.2.1, hs.2.2.2.2.1, hs.2.2.2.2.2]
    exact ⟨Or.inr ⟨nextPos_adjacent _ _ _ hs.1, rfl⟩, hstep, hbounds _ _ hstep,
      hs.2.2.1.1, hs.2.2.1.2, hwrap⟩

set_option maxRecDepth 100000 in
theorem pursuers_never_wrap_witness :
    NewMaze.Width = 28 ∧ edgeGhost.Mode ≠ ModeEaten ∧
    NewMaze.IsWalkableForGhost edgeGhost.X edgeGhost.Y = true ∧
    (edgeGhost.X = 0 ∧ edgeGhost.Y = 14 ∧ edgeGhost.Dir = DirLeft) ∧
    ((edgeGhost.Update NewMaze NewPacman 1).X = 1 ∧
      (edgeGhost.Update NewMaze NewPacman 1).Y = 14) ∧
    (0 ≤ (edgeGhost.Update NewMaze NewPacman 1).X ∧
      (edgeGhost.Update NewMaze NewPacman 1).X < 28 ∧
      0 ≤ (edgeGhost.Update NewMaze NewPacman 1).Y ∧
      (edgeGhost.Update NewMaze NewPacman 1).Y < 31) :=
  ⟨by decide, by decide, by decide, by decide, by decide,
    (pursuers_never_wrap edgeGhost NewMaze NewPacman 1 (by decide) (fun _ _ => rfl)
      (by decide) (by decide)).2.2.1⟩

/-! ## The counter and the facings along a run -/

theorem update_counter (p : Pacman) (maze : Maze) (h : 0 ≤ p.MoveTick) :
    0 ≤ (p.Update maze).MoveTick := by
  by_cases hf : p.MoveTick + 1 < p.tickPower.speed
  · rw [update_wait p maze hf]
    simp only [Pacman.counted]
    omega
  · rw [update_fire p maze hf, (tryMove_frame _ maze).2.2, (turned_frame p maze).2.2]

theorem eatPellet_counter (g : Game) :
    g.eatPellet.pacman.MoveTick = g.pacman.MoveTick := by
  unfold Game.eatPellet
  simp only []
  split_ifs
  · unfold Pacman.ActivatePowerMode
    simp only []
    split_ifs <;> rfl
  · rfl
  · rfl

theorem bfsLoop_dir (maze : Maze) (tx ty : Int) :
    ∀ (fuel : Nat) (queue : List Node) (visited : List (Int × Int)) (d : Direction),
      bfsLoop maze tx ty fuel queue visited = some (some d) → d ≠ DirNone := by
  intro fuel
  induction fuel with
  | zero =>
    intro queue visited d h
    cases queue <;> simp [bfsLoop] at h
  | succ n ih =>
    intro queue visited d h
    cases queue with
    | nil => simp [bfsLoop] at h
    | cons curr rest =>
      unfold bfsLoop at h
      split_ifs at h with h1 h2
      · simp only [Option.some.injEq] at h
        rw [← h]; exact h2
      · simp at h
      · exact ih _ _ _ h

theorem return_facing (g : Ghost) (maze : Maze) (tx ty : Int) (h : g.Dir ≠ DirNone) :
    g.chooseReturnDirection maze tx ty ≠ DirNone := by
  unfold Ghost.chooseReturnDirection
  split
  · next d heq => exact bfsLoop_dir _ _ _ _ _ _ _ heq
  · split
    · next d heq =>
      unfold Ghost.anyValidDir at heq
      have hmem := List.mem_of_find?_eq_some heq
      intro hd
      rw [hd] at hmem
      exact absurd hmem (by decide)
    · exact h

theorem choose_facing (g : Ghost) (maze : Maze) (pacman : Pacman) (h : g.Dir ≠ DirNone) :
    g.chooseDirection maze pacman ≠ DirNone := by
  obtain ⟨b, _, heq⟩ := choose_eq g maze pacman
  rw [heq]
  split_ifs with h1 h2
  · exact h2
  · exact h
  · exact h1

theorem eaten_dir (g : Ghost) (maze : Maze) :
    (g.updateEaten maze).Dir = g.Dir ∨
    (g.updateEaten maze).Dir = g.chooseReturnDirection maze g.TargetX g.TargetY := by
  unfold Ghost.updateEaten
  simp only []
  split_ifs <;> first | exact Or.inl rfl | exact Or.inr rfl

theorem ghost_update_facing (g : Ghost) (maze : Maze) (pacman : Pacman) (level : Int)
    (h : g.Dir ≠ DirNone) : (g.Update maze pacman level).Dir ≠ DirNone := by
  by_cases hm : g.Mode = ModeEaten
  · rw [update_eaten g maze pacman level hm]
    rcases eaten_dir ({ g with AnimFrame := g.AnimFrame + 1 } : Ghost) maze with hd | hd
    · rw [hd]; exact h
    · rw [hd]; exact return_facing _ maze _ _ h
  · rw [update_alive g maze pacman level hm]
    have hp := (prepared_frame g pacman).2.2.1
    split_ifs
    · show (g.prepared pacman).Dir ≠ DirNone
      rw [hp]; exact h
    · have hd : ∀ m : Ghost, (m.move maze pacman).Dir = m.chooseDirection maze pacman := by
        intro m
        unfold Ghost.move
        simp only []
        split_ifs <;> rfl
      rw [hd]
      apply choose_facing
      show (g.prepared pacman).Dir ≠ DirNone
      rw [hp]; exact h

theorem deOverlapPair_facing (prev : List GhostPos) (gs : List Ghost) (i j : Nat)
    (h : ∀ gh ∈ gs, gh.Dir ≠ DirNone) :
    ∀ gh ∈ deOverlapPair prev gs i j, gh.Dir ≠ DirNone := by
  unfold deOverlapPair
  split
  · rename_i a b p ha hb hp
    split_ifs
    · intro gh hgh
      rcases List.mem_or_eq_of_mem_set hgh with h1 | h1
      · exact h gh h1
      · rw [h1]; exact h b (List.get?_mem hb)
    · exact h
  · exact h

theorem deOverlap_facing (prev : List GhostPos) (gs : List Ghost)
    (h : ∀ gh ∈ gs, gh.Dir ≠ DirNone) : ∀ gh ∈ deOverlap prev gs, gh.Dir ≠ DirNone := by
  unfold deOverlap
  refine foldl_preserves (fun (acc : List Ghost) => ∀ gh ∈ acc, gh.Dir ≠ DirNone) _ ?_ _ _ h
  intro acc i hacc
  refine foldl_preserves (fun (acc : List Ghost) => ∀ gh ∈ acc, gh.Dir ≠ DirNone) _ ?_ _ _ hacc
  intro acc2 j h2
  exact deOverlapPair_facing prev acc2 i j h2

theorem resolve_dir (ppx ppy : Int) (prev : GhostPos) (g : Game) (ghost : Ghost) :
    (resolveCollision ppx ppy prev g ghost).2.Dir = ghost.Dir := by
  unfold resolveCollision
  simp only []
  split_ifs <;> rfl

theorem loop_facing (ppx ppy : Int) (ghosts : List Ghost) :
    ∀ (prevs : List GhostPos) (g : Game), (∀ gh ∈ ghosts, gh.Dir ≠ DirNone) →
      ∀ gh ∈ (checkCollisionsLoop ppx ppy ghosts prevs g).2, gh.Dir ≠ DirNone := by
  induction ghosts with
  | nil =>
    intro prevs g h
    simp [checkCollisionsLoop]
  | cons a rest ih =>
    intro prevs g h
    cases prevs with
    | nil => simpa [checkCollisionsLoop] using h
    | cons p ps =>
      simp only [checkCollisionsLoop]
      intro gh hgh
      rcases List.mem_cons.1 hgh with h1 | h1
      · rw [h1, resolve_dir]; exact h a (List.mem_cons_self _ _)
      · exact ih ps _ (fun x hx => h x (List.mem_cons_of_mem _ hx)) gh h1

theorem resetEntities_ok (g : Game) (h : 0 ≤ g.pacman.MoveTick) : RunOk g.resetEntities := by
  refine ⟨h, ?_⟩
  intro gh hgh
  simp only [Game.resetEntities, List.mem_map] at hgh
  obtain ⟨gh0, -, rfl⟩ := hgh
  exact (by decide : DirLeft ≠ DirNone)

theorem runOk_phase (g4 : Game) (ppx ppy : Int) (h : RunOk g4) :
    RunOk (g4.pursuerPhase ppx ppy) := by
  have hcount : ∀ (gs : List Ghost) (prevs : List GhostPos),
      0 ≤ (checkCollisionsLoop ppx ppy gs prevs
        ({ g4 with ghosts := gs } : Game)).1.pacman.MoveTick := by
    intro gs prevs
    rcases loop_pacman ppx ppy gs prevs ({ g4 with ghosts := gs } : Game) with hp | hp
    · rw [hp]; exact h.1
    · rw [hp]; exact h.1
  unfold Game.pursuerPhase
  simp only []
  split_ifs
  · exact resetEntities_ok _ (hcount _ _)
  · refine ⟨hcount _ _, ?_⟩
    apply loop_facing
    apply deOverlap_facing
    intro gh hgh
    rw [List.mem_map] at hgh
    obtain ⟨gh0, hgh0, rfl⟩ := hgh
    exact ghost_update_facing gh0 _ _ _ (h.2 gh0 hgh0)

theorem runOk_update (g : Game) (h : RunOk g) : RunOk g.update := by
  by_cases hs : g.state = StatePlaying
  · rw [update_eq_phase g hs]
    apply runOk_phase
    have ht := tickFruit_frame g
    have hf := eatFruit_frame
      ({ g.tickFruit with pacman := g.tickFruit.pacman.Update g.tickFruit.maze } :
        Game).eatPellet
    have hp := eatPellet_frame
      ({ g.tickFruit with pacman := g.tickFruit.pacman.Update g.tickFruit.maze } : Game)
    have hc := eatPellet_counter
      ({ g.tickFruit with pacman := g.tickFruit.pacman.Update g.tickFruit.maze } : Game)
    unfold RunOk
    rw [hf.2.1, hf.2.2.1, hc, hp.2.1]
    refine ⟨update_counter _ _ (by rw [ht.2.1]; exact h.1), ?_⟩
    show ∀ gh ∈ g.tickFruit.ghosts, gh.Dir ≠ DirNone
    rw [ht.2.2.1]
    exact h.2
  · unfold Game.update
    rw [if_pos hs]
    exact h

theorem runOk_handle (g : Game) (e : Event) (h : RunOk g) : RunOk (g.handle e) := by
  cases e with
  | tick => exact runOk_update g h
  | space =>
    unfold Game.handle
    simp only []
    split_ifs
    · exact h
    · exact h
  | retry =>
    unfold Game.handle
    simp only []
    split_ifs
    · exact resetEntities_ok _ h.1
    · exact h
  | arrow d =>
    unfold Game.handle
    simp only []
    split_ifs
    · exact h
    · exact h
  | other => exact h

/-- Along every run from `NewGame` the player's movement counter is not
negative and every pursuer has a facing. -/
theorem runOk_run (es : List Event) : RunOk (NewGame.run es) := by
  have hinit : RunOk NewGame := ⟨by decide, by decide⟩
  unfold Game.run
  exact foldl_preserves RunOk Game.handle runOk_handle es NewGame hinit

/-- C23. The baseline interval `MovementSpeed` is 2. A player that is
unpowered after the timer step uses the interval 2: an `Update` call whose
incremented `MoveTick` is below 2 only counts, and one whose incremented
`MoveTick` reaches 2 attempts a step. A player that is still powered after the
timer step uses the interval 1, so with a non-negative counter every `Update`
call attempts a step. The powered interval is strictly smaller than the
unpowered one. Every call that attempts a step resets the counter to 0, and
along every run from `NewGame` the counter is non-negative. -/
theorem player_speed (p : Pacman) (maze : Maze) :
    MovementSpeed = 2 ∧
    (p.tickPower.PowerMode = false →
      p.tickPower.speed = 2 ∧
      (p.MoveTick + 1 < 2 → p.Update maze = p.counted) ∧
      (2 ≤ p.MoveTick + 1 → p.Update maze = (p.turned maze).tryMove maze)) ∧
    (p.tickPower.PowerMode = true →
      p.tickPower.speed = 1 ∧
      (0 ≤ p.MoveTick → p.Update maze = (p.turned maze).tryMove maze)) ∧
    (∀ q r : Pacman, q.PowerMode = true → r.PowerMode = false → q.speed < r.speed) ∧
    (¬ (p.MoveTick + 1 < p.tickPower.speed) → (p.Update maze).MoveTick = 0) ∧
    (∀ es : List Event, 0 ≤ (NewGame.run es).pacman.MoveTick) := by
  refine ⟨rfl, ?_, ?_, ?_, ?_, fun es => (runOk_run es).1⟩
  · intro hp
    have hs : p.tickPower.speed = 2 := by simp [Pacman.speed, hp, MovementSpeed, BaseMovementSpeed]
    refine ⟨hs, ?_, ?_⟩
    · intro h
      exact update_wait p maze (by rw [hs]; exact h)
    · intro h
      exact update_fire p maze (by rw [hs]; omega)
  · intro hp
    have hs : p.tickPower.speed = 1 := by simp [Pacman.speed, hp, MovementSpeed, BaseMovementSpeed]
    refine ⟨hs, ?_⟩
    intro h
    exact update_fire p maze (by rw [hs]; omega)
  · intro q r hq hr
    simp [Pacman.speed, hq, hr, MovementSpeed, BaseMovementSpeed]
  · intro h
    rw [update_fire p maze h, (tryMove_frame _ maze).2.2, (turned_frame p maze).2.2]


set_option maxRecDepth 100000 in
theorem player_speed_witness :
    cornerPlayer.tickPower.PowerMode = false ∧ 2 ≤ cornerPlayer.MoveTick + 1 ∧
    cornerPlayer.Update NewMaze = (cornerPlayer.turned NewMaze).tryMove NewMaze ∧
    (cornerPlayer.Update NewMaze).X = 2 ∧ (cornerPlayer.Update NewMaze).MoveTick = 0 :=
  ⟨by decide, by decide,
    ((player_speed cornerPlayer NewMaze).2.1 (by decide)).2.2 (by decide),
    by decide, by decide⟩

/-- C25. For a pursuer with a facing, `chooseDirection` returns the reverse of
the facing if and only if no non-reversing cardinal neighbour is
pursuer-walkable and the reversing neighbour is; and when no cardinal
neighbour at all is pursuer-walkable it returns the facing unchanged. Every
pursuer of every run from `NewGame` has a facing. -/
theorem reversal_only_forced (g : Ghost) (maze : Maze) (pacman : Pacman)
    (hdir : g.Dir ≠ DirNone) :
    (g.chooseDirection maze pacman = oppositeDir g.Dir ↔
      ((∀ d ∈ allDirs, d ≠ oppositeDir g.Dir → g.canStep maze d = false) ∧
        g.canStep maze (oppositeDir g.Dir) = true)) ∧
    ((∀ d ∈ allDirs, g.canStep maze d = false) → g.chooseDirection maze pacman = g.Dir) ∧
    (∀ es : List Event, ∀ gh ∈ (NewGame.run es).ghosts, gh.Dir ≠ DirNone) := by
  obtain ⟨b, hinv, heq⟩ := choose_eq g maze pacman
  have hopp : oppositeDir g.Dir ∈ allDirs := by
    cases hg : g.Dir
    · exact absurd hg hdir
    all_goals decide
  have hself : g.Dir ≠ oppositeDir g.Dir := by
    cases hg : g.Dir
    · exact absurd hg hdir
    all_goals decide
  refine ⟨?_, ?_, fun es => (runOk_run es).2⟩
  · by_cases hb : b.bestDir = DirNone
    · by_cases hr : b.reverseDir = DirNone
      · rw [if_pos hb, if_neg (not_not.mpr hr)] at heq
        rw [heq]
        constructor
        · intro h
          exact absurd h hself
        · intro h
          exact absurd rfl ((hinv.noBackup hr).2 _ hopp h.2)
      · rw [if_pos hb, if_pos hr] at heq
        rw [heq]
        have hbk := hinv.backup hr
        constructor
        · intro _
          refine ⟨?_, ?_⟩
          · intro d hd hne
            by_contra hw
            exact hne ((hinv.noBest hb).2 d hd (by simpa using hw))
          · rw [← hbk.2.2]; exact hbk.2.1
        · intro _
          exact hbk.2.2
    · rw [if_neg hb] at heq
      rw [heq]
      have hbb := hinv.best hb
      constructor
      · intro h
        exact absurd h hbb.2.2.1
      · intro h
        have := h.1 _ hbb.1 hbb.2.2.1
        rw [hbb.2.1] at this
        exact absurd this (by decide)
  · intro hall
    have hb : b.bestDir = DirNone := by
      by_contra hb
      have hbb := hinv.best hb
      have := hall _ hbb.1
      rw [hbb.2.1] at this
      exact absurd this (by decide)
    have hr : b.reverseDir = DirNone := by
      by_contra hr
      have hbk := hinv.backup hr
      have := hall _ hbk.1
      rw [hbk.2.1] at this
      exact absurd this (by decide)
    rw [if_pos hb, if_neg (not_not.mpr hr)] at heq
    exact heq

set_option maxRecDepth 100000 in
theorem reversal_only_forced_witness :
    edgeGhost.Dir ≠ DirNone ∧ edgeGhost.Dir = DirLeft ∧
    edgeGhost.canStep NewMaze DirRight = true ∧
    edgeGhost.chooseDirection NewMaze NewPacman = oppositeDir edgeGhost.Dir :=
  ⟨by decide, by decide, by decide,
    (reversal_only_forced edgeGhost NewMaze NewPacman (by decide)).1.2
      ⟨by decide, by decide⟩⟩

/-! ## The modes of the pursuers through one tick -/

theorem update_stages (g : Game) (hs : g.state = StatePlaying) :
    g.update = if g.afterResolver.maze.RemainingPellets = 0 then g.afterResolver.NextLevel
      else g.afterResolver := by
  unfold Game.update Game.afterResolver Game.atPursuers
  rw [if_neg (by simp [hs])]

theorem update_idle (g : Game) (hs : g.state ≠ StatePlaying) : g.update = g := by
  unfold Game.update
  rw [if_pos hs]

theorem eaten_mode (g : Ghost) (maze : Maze) (pacman : Pacman) (level : Int)
    (hm : g.Mode = ModeEaten) :
    (g.Update maze pacman level).Mode = ModeScatter ∨
    (g.Update maze pacman level).Mode = ModeEaten := by
  rw [update_eaten g maze pacman level hm]
  by_cases hc : |g.X - g.TargetX| ≤ 2 ∧ |g.Y - g.TargetY| ≤ 2
  · left
    rw [eaten_close ({ g with AnimFrame := g.AnimFrame + 1 } : Ghost) maze hc]
  · right
    rw [(eaten_far ({ g with AnimFrame := g.AnimFrame + 1 } : Ghost) maze hc).1]
    exact hm

/-- The mode of pursuer `i` after the resolver, from its mode after
`Ghost.Update`: the resolver leaves it, or turns Frightened into Eaten while
the player is powered. -/
theorem resolver_mode (g : Game) (i : Nat) (gh gh2 : Ghost)
    (h0 : g.ghosts.get? i = some gh) (h2 : g.afterResolver.ghosts.get? i = some gh2) :
    gh2.Mode = (gh.Update g.atPursuers.maze g.atPursuers.pacman g.atPursuers.level).Mode ∨
    ((gh.Update g.atPursuers.maze g.atPursuers.pacman g.atPursuers.level).Mode
        = ModeFrightened ∧
      gh2.Mode = ModeEaten ∧ g.atPursuers.pacman.PowerMode = true) := by
  have hg : g.atPursuers.ghosts.get? i = some gh := by
    unfold Game.atPursuers
    rw [(eatFruit_frame _).2.2.1, (eatPellet_frame _).2.1]
    simp only [(tickFruit_frame g).2.2.1]
    exact h0
  have hmoved : (g.atPursuers.ghosts.map (fun ghost =>
      ghost.Update g.atPursuers.maze g.atPursuers.pacman g.atPursuers.level)).get? i
        = some (gh.Update g.atPursuers.maze g.atPursuers.pacman g.atPursuers.level) := by
    simp only [List.get?_eq_getElem?, List.getElem?_map] at hg ⊢
    rw [hg]; rfl
  have hmodes := deOverlap_modes
    (g.atPursuers.ghosts.map (fun ghost => ({ prevX := ghost.X, prevY := ghost.Y } : GhostPos)))
    (g.atPursuers.ghosts.map (fun ghost =>
      ghost.Update g.atPursuers.maze g.atPursuers.pacman g.atPursuers.level))
  have hget := congrArg (fun l => l.get? i) hmodes
  simp only [List.get?_eq_getElem?, List.getElem?_map] at hget hmoved
  rw [hmoved] at hget
  simp only [Option.map_some'] at hget
  obtain ⟨a, ha, hamode⟩ := Option.map_eq_some'.1 hget
  have hloop := loop_modes g.tickFruit.pacman.X g.tickFruit.pacman.Y _ _ _ i a gh2
    (by rw [List.get?_eq_getElem?]; exact ha) h2
  rw [hamode] at hloop
  exact hloop

theorem loop_length (ppx ppy : Int) (ghosts : List Ghost) :
    ∀ (prevs : List GhostPos) (g : Game),
      (checkCollisionsLoop ppx ppy ghosts prevs g).2.length = ghosts.length := by
  induction ghosts with
  | nil => intro prevs g; simp [checkCollisionsLoop]
  | cons gh rest ih =>
    intro prevs g
    cases prevs with
    | nil => simp [checkCollisionsLoop]
    | cons p ps =>
      simp only [checkCollisionsLoop, List.length_cons]
      rw [ih ps _]

theorem setGhostPos_length (gs : List Ghost) (i : Nat) (x y : Int) :
    (setGhostPos gs i x y).length = gs.length := by
  unfold setGhostPos
  split <;> simp

theorem nextLevel_length (g : Game) : g.NextLevel.ghosts.length = g.ghosts.length := by
  simp [Game.NextLevel, Game.resetEntities, setGhostPos_length]

theorem afterResolver_length (g : Game) : g.afterResolver.ghosts.length = g.ghosts.length := by
  have hg : g.atPursuers.ghosts = g.ghosts := by
    unfold Game.atPursuers
    rw [(eatFruit_frame _).2.2.1, (eatPellet_frame _).2.1]
    exact (tickFruit_frame g).2.2.1
  unfold Game.afterResolver Game.checkCollisions
  simp only []
  rw [loop_length, deOverlap_length, List.length_map, hg]

theorem get?_of_length {α : Type} (l : List α) (i : Nat) (h : i < l.length) :
    ∃ a, l.get? i = some a :=
  ⟨l.get ⟨i, h⟩, List.get?_eq_get h⟩

/-- C11, amended. In one tick of a Playing state, `Ghost.Update` and the
collision resolver both change the mode of the same pursuer exactly when the
pursuer starts the tick in Scatter or Chase, the player is in power mode when
the pursuers move, and the resolver leaves the pursuer Eaten: the mode step
made it Frightened and the resolver Eaten. In every other case at most one of
the two changes the mode, whatever mode the pursuer starts in. The mode step
follows the player's power flag (an Eaten pursuer stays Eaten or respawns in
Scatter), the resolver changes a mode only from Frightened to Eaten and only
while the player is powered, and the tick ends with the mode the resolver
left, or with Scatter when the level advances because no pellet is left. -/
theorem mode_changes_per_tick (g : Game) (i : Nat) (gh : Ghost)
    (hs : g.state = StatePlaying) (h0 : g.ghosts.get? i = some gh) :
    ∃ gh2 gh3 : Ghost,
      g.afterResolver.ghosts.get? i = some gh2 ∧ g.update.ghosts.get? i = some gh3 ∧
      ((g.steppedMode gh ≠ gh.Mode ∧ gh2.Mode ≠ g.steppedMode gh) ↔
        ((gh.Mode = ModeScatter ∨ gh.Mode = ModeChase) ∧
          g.atPursuers.pacman.PowerMode = true ∧ gh2.Mode = ModeEaten)) ∧
      (gh.Mode ≠ ModeEaten →
        g.steppedMode gh =
          if g.atPursuers.pacman.PowerMode = true then ModeFrightened
          else if gh.Mode = ModeFrightened then ModeChase else gh.Mode) ∧
      (gh.Mode = ModeEaten →
        g.steppedMode gh = ModeScatter ∨ g.steppedMode gh = ModeEaten) ∧
      (gh2.Mode = g.steppedMode gh ∨
        (g.steppedMode gh = ModeFrightened ∧ gh2.Mode = ModeEaten ∧
          g.atPursuers.pacman.PowerMode = true)) ∧
      gh3.Mode =
        (if g.afterResolver.maze.RemainingPellets = 0 then ModeScatter else gh2.Mode) := by
  have hi : i < g.ghosts.length := by
    rw [List.get?_eq_getElem?] at h0
    exact (List.getElem?_eq_some_iff.1 h0).1
  obtain ⟨gh2, h2⟩ := get?_of_length g.afterResolver.ghosts i
    (by rw [afterResolver_length]; exact hi)
  have hstep : gh.Mode ≠ ModeEaten →
      g.steppedMode gh =
        if g.atPursuers.pacman.PowerMode = true then ModeFrightened
        else if gh.Mode = ModeFrightened then ModeChase else gh.Mode :=
    fun hne => update_mode_eq gh _ _ _ hne
  have heat : gh.Mode = ModeEaten →
      g.steppedMode gh = ModeScatter ∨ g.steppedMode gh = ModeEaten :=
    fun he => eaten_mode gh _ _ _ he
  have hres : gh2.Mode = g.steppedMode gh ∨
      (g.steppedMode gh = ModeFrightened ∧ gh2.Mode = ModeEaten ∧
        g.atPursuers.pacman.PowerMode = true) := resolver_mode g i gh gh2 h0 h2
  have hiff : (g.steppedMode gh ≠ gh.Mode ∧ gh2.Mode ≠ g.steppedMode gh) ↔
      ((gh.Mode = ModeScatter ∨ gh.Mode = ModeChase) ∧
        g.atPursuers.pacman.PowerMode = true ∧ gh2.Mode = ModeEaten) := by
    constructor
    · rintro ⟨hc1, hc2⟩
      rcases hres with hr | ⟨hf, he, hp⟩
      · exact absurd hr hc2
      · refine ⟨?_, hp, he⟩
        cases hm : gh.Mode
        · exact Or.inl rfl
        · exact Or.inr rfl
        · rw [hf, hm] at hc1; exact absurd rfl hc1
        · rcases heat hm with h | h <;> rw [hf] at h <;> exact absurd h (by decide)
    · rintro ⟨hsc, hp, he⟩
      have hne : gh.Mode ≠ ModeEaten := by
        rcases hsc with h | h <;> rw [h] <;> decide
      have hm1 : g.steppedMode gh = ModeFrightened := by
        rw [hstep hne, if_pos hp]
      rw [hm1, he]
      refine ⟨?_, by decide⟩
      rcases hsc with h | h <;> rw [h] <;> decide
  have hu := update_stages g hs
  by_cases hz : g.afterResolver.maze.RemainingPellets = 0
  · rw [if_pos hz] at hu
    obtain ⟨gh3, h3⟩ := get?_of_length g.afterResolver.NextLevel.ghosts i
      (by rw [nextLevel_length, afterResolver_length]; exact hi)
    refine ⟨gh2, gh3, h2, by rw [hu]; exact h3, hiff, hstep, heat, hres, ?_⟩
    rw [if_pos hz]
    exact (nextLevel_modes _).2 gh3 (List.get?_mem h3)
  · rw [if_neg hz] at hu
    refine ⟨gh2, gh2, h2, by rw [hu]; exact h2, hiff, hstep, heat, hres, ?_⟩
    rw [if_neg hz]

set_option maxRecDepth 100000 in
theorem mode_changes_per_tick_witness :
    powerAmbush.state = StatePlaying ∧
    powerAmbush.ghosts.get? 0 = some { NewGhost GhostBlinky 1 3 with Mode := ModeChase } ∧
    ∃ gh2 gh3 : Ghost, powerAmbush.afterResolver.ghosts.get? 0 = some gh2 ∧
      powerAmbush.update.ghosts.get? 0 = some gh3 ∧
      (powerAmbush.steppedMode { NewGhost GhostBlinky 1 3 with Mode := ModeChase }
          ≠ ModeChase ∧
        gh2.Mode ≠
          powerAmbush.steppedMode { NewGhost GhostBlinky 1 3 with Mode := ModeChase }) ∧
      powerAmbush.steppedMode { NewGhost GhostBlinky 1 3 with Mode := ModeChase }
        = ModeFrightened ∧
      gh2.Mode = ModeEaten ∧ gh3.Mode = ModeEaten := by
  obtain ⟨gh2, gh3, h2, h3, hiff, -, -, -, hend⟩ := mode_changes_per_tick powerAmbush 0
    { NewGhost GhostBlinky 1 3 with Mode := ModeChase } (by decide) rfl
  have he : gh2.Mode = ModeEaten := by
    have hm : (powerAmbush.afterResolver.ghosts.get? 0).map Ghost.Mode = some ModeEaten := by
      decide
    rw [h2] at hm
    simpa using hm
  have hp : powerAmbush.atPursuers.pacman.PowerMode = true := by decide
  have hz : ¬ powerAmbush.afterResolver.maze.RemainingPellets = 0 := by decide
  rw [if_neg hz] at hend
  exact ⟨by decide, rfl, gh2, gh3, h2, h3, hiff.2 ⟨Or.inr rfl, hp, he⟩, by decide, he,
    by rw [hend, he]⟩

end Arcade
